import Mathlib

/-!
Verification of the SimpleDevWinMCP file-system layer (`src/file_system.py`).

The development shallowly embeds the path resolver (`safe_path`), the size
formatter (`_format_size`) and the twelve registered file-system tools over an
explicit file-system state.  Paths are modelled in POSIX syntax as lists of
name components; text-mode I/O follows Python's universal-newline semantics
(reads map CR and CRLF to LF, writes map LF to the platform line separator);
JSON values are modelled with arbitrary-precision integer numbers (float
literals are outside the model).  Machine floats appear only in
`_format_size`; there the Python computation divides by powers of two, which
is exact for inputs below 2^53, and the model uses exact arithmetic guarded by
that bound.
-/

namespace SDW

/-! ## Character and string helpers (modelling Python `str` primitives) -/

/-- Characters Python's `str.lower` folds in the ASCII range; the model folds
only ASCII, which covers every pattern appearing in the claims. -/
def lowerChar (c : Char) : Char :=
  if 'A' ≤ c ∧ c ≤ 'Z' then Char.ofNat (c.toNat + 32) else c

def lowerStr (s : String) : String := String.mk (s.data.map lowerChar)

/-- Python `str.startswith`, i.e. character-list prefix test. -/
def leadsWith (p s : String) : Bool := p.data.isPrefixOf s.data

/-- Python `sep.join(l)`. -/
def joinSep (sep : String) : List String → String
  | [] => ""
  | [x] => x
  | x :: y :: t => x ++ sep ++ joinSep sep (y :: t)

/-- Decimal digits, most significant first, with structural fuel so that the
kernel can evaluate it (`decCharsGo fu n` is correct whenever `n < 10 ^ fu`). -/
def decCharsGo : Nat → Nat → List Char
  | 0, _ => []
  | fu + 1, n =>
    if n < 10 then [Char.ofNat (48 + n)]
    else decCharsGo fu (n / 10) ++ [Char.ofNat (48 + n % 10)]

/-- Decimal digits of a natural number, most significant first
(Python `repr` of a non-negative `int`). -/
def decChars (n : Nat) : List Char := decCharsGo (n + 1) n

def natStr (n : Nat) : String := String.mk (decChars n)

/-- Python `repr` of an `int` (used by `json.dump` for numbers). -/
def intChars (n : Int) : List Char :=
  if n < 0 then '-' :: decChars n.natAbs else decChars n.natAbs

/-- Octal digits, most significant first (fuel as in `decCharsGo`). -/
def octCharsGo : Nat → Nat → List Char
  | 0, _ => []
  | fu + 1, n =>
    if n < 8 then [Char.ofNat (48 + n)]
    else octCharsGo fu (n / 8) ++ [Char.ofNat (48 + n % 8)]

def octChars (n : Nat) : List Char := octCharsGo (n + 1) n

/-- Python `oct`, e.g. `oct(420) = "0o644"`. -/
def octStr (n : Nat) : String := "0o" ++ String.mk (octChars n)

/-- Right-justify in a field of `w` characters (Python `"{:>w}"`). -/
def rjust (s : String) (w : Nat) : String :=
  String.mk (List.replicate (w - s.length) ' ') ++ s

/-- Left-justify in a field of `w` characters (Python `"{:w}"` on `str`). -/
def ljust (s : String) (w : Nat) : String :=
  s ++ String.mk (List.replicate (w - s.length) ' ')

/-! ## Python `sorted` on strings

Python compares strings lexicographically by code point; `pyLe` is that
order.  `sorted` is modelled by insertion sort; for a total, transitive,
antisymmetric comparison any sorted permutation is unique, so this coincides
with Python's (stable) sort. -/

def strLeB : List Char → List Char → Bool
  | [], _ => true
  | _ :: _, [] => false
  | a :: as, b :: bs =>
    if a.toNat < b.toNat then true
    else if b.toNat < a.toNat then false
    else strLeB as bs

def pyLe (a b : String) : Bool := strLeB a.data b.data

def insertSorted (x : String) : List String → List String
  | [] => [x]
  | y :: ys => if pyLe x y then x :: y :: ys else y :: insertSorted x ys

def pySorted (l : List String) : List String := l.foldr insertSorted []

/-! ## The path model

A canonical absolute path is a list of name components (POSIX syntax; the
root is `[]` and renders as `"/"`).  `canon` models
`Path(s).resolve()`-style resolution of a path string against a canonical
start directory: absolute strings discard the start, `.` and empty segments
are dropped, and `..` removes the last component (staying at the root when
already there), exactly as `pathlib` collapses a non-symlinked path. -/

abbrev CPath := List String

def splitSlashGo (cur : List Char) : List Char → List String
  | [] => [String.mk cur]
  | c :: cs =>
    if c = '/' then String.mk cur :: splitSlashGo [] cs
    else splitSlashGo (cur ++ [c]) cs

/-- Split on `'/'` (the component view `pathlib` takes of a POSIX path
string), e.g. `"/foo/bar" ↦ ["", "foo", "bar"]`. -/
def splitSlash (s : String) : List String := splitSlashGo [] s.data

def resolveDots (acc : List String) : List String → List String
  | [] => acc
  | c :: cs =>
    if c = "" ∨ c = "." then resolveDots acc cs
    else if c = ".." then resolveDots acc.dropLast cs
    else resolveDots (acc ++ [c]) cs

def canon (start : CPath) (s : String) : CPath :=
  if leadsWith "/" s then resolveDots [] (splitSlash s)
  else resolveDots start (splitSlash s)

def renderPath (p : CPath) : String := "/" ++ joinSep "/" p

/-! ## Python exceptions and the wrapped-computation monad -/

inductive PyExc where
  | valueError (msg : String)
  | osError (msg : String)
  | unicodeError (msg : String)
  | jsonError (msg : String)
  | shutilError (msg : String)
deriving DecidableEq, Repr

instance {ε α : Type} [DecidableEq ε] [DecidableEq α] :
    DecidableEq (Except ε α) := fun x y =>
  match x, y with
  | .ok a, .ok b =>
    if h : a = b then isTrue (by rw [h])
    else isFalse (by intro hc; cases hc; exact h rfl)
  | .error a, .error b =>
    if h : a = b then isTrue (by rw [h])
    else isFalse (by intro hc; cases hc; exact h rfl)
  | .ok _, .error _ => isFalse (by intro hc; cases hc)
  | .error _, .ok _ => isFalse (by intro hc; cases hc)

/-- Python `str(e)` on a caught exception. -/
def pyStr : PyExc → String
  | .valueError m => m
  | .osError m => m
  | .unicodeError m => m
  | .jsonError m => m
  | .shutilError m => m

/-- `safe_path` from `src/file_system.py` lines 11-21.  `cwd` is the process
working directory against which `Path.resolve` interprets relative strings.
The sandbox test is the source's `str(target).startswith(str(base))` on the
rendered canonical paths. -/
def safe_path (cwd : CPath) (path : String) (base_path : Option String) :
    Except PyExc CPath :=
  match base_path with
  | some bp =>
    let base := canon cwd bp
    let target := canon base path
    if leadsWith (renderPath base) (renderPath target) then .ok target
    else .error (.valueError ("Path " ++ path ++ " is outside the allowed directory"))
  | none => .ok (canon cwd path)

/-! ## Text-mode newline semantics

Python opens every file of `file_system.py` in text mode.  Reading uses
universal newlines (`\r\n` and lone `\r` become `\n`); writing translates
each `\n` to `os.linesep` (`"\n"` on POSIX, `"\r\n"` on Windows), which the
operations below receive as the parameter `ls`. -/

def univNl : List Char → List Char
  | [] => []
  | [c] => if c = '\r' then ['\n'] else [c]
  | c :: d :: r =>
    if c = '\r' then
      (if d = '\n' then '\n' :: univNl r else '\n' :: univNl (d :: r))
    else c :: univNl (d :: r)

def translNl (ls : List Char) : List Char → List Char
  | [] => []
  | c :: r => if c = '\n' then ls ++ translNl ls r else c :: translNl ls r

def univNlS (s : String) : String := String.mk (univNl s.data)

def translNlS (ls s : String) : String := String.mk (translNl ls.data s.data)

/-- The two values `os.linesep` takes on Python's supported platforms. -/
def NlOk (ls : String) : Prop := ls = "\n" ∨ ls = "\r\n"

/-- `'\r'` does not occur in the string (such contents survive the
text-mode round trip unchanged). -/
abbrev NoCR (s : String) : Prop := '\r' ∉ s.data

/-! ## File-system state

An explicit finite state: an association list from canonical paths to
entries, the working directory and a step counter used as the modification
clock.  The root `[]` always exists and is a directory.  A file entry stores
its raw bytes (`data`), the codec label it was encoded with (reads with a
different codec raise, abstracting decode errors), a modification time and
permission bits.  Directory entries carry no metadata; `stat` on a directory
reports the fixed values a fresh directory typically has. -/

structure FileData where
  data : String
  enc : String
  mtime : Nat
  mode : Nat
deriving DecidableEq, Repr

inductive Entry where
  | file (fd : FileData)
  | dir
deriving DecidableEq, Repr

structure FS where
  entries : List (CPath × Entry)
  cwd : CPath
  clock : Nat
deriving DecidableEq

def lookupEntries (p : CPath) : List (CPath × Entry) → Option Entry
  | [] => none
  | e :: es => if e.1 = p then some e.2 else lookupEntries p es

def lookupFS (fs : FS) (p : CPath) : Option Entry :=
  if p = [] then some .dir else lookupEntries p fs.entries

def pathExistsFS (fs : FS) (p : CPath) : Bool := (lookupFS fs p).isSome

def isFileFS (fs : FS) (p : CPath) : Bool :=
  match lookupFS fs p with
  | some (.file _) => true
  | _ => false

def isDirFS (fs : FS) (p : CPath) : Bool :=
  match lookupFS fs p with
  | some .dir => true
  | _ => false

def setEntries (p : CPath) (v : Entry) : List (CPath × Entry) → List (CPath × Entry)
  | [] => [(p, v)]
  | e :: es => if e.1 = p then (p, v) :: es else e :: setEntries p v es

def setFS (fs : FS) (p : CPath) (v : Entry) : FS :=
  { fs with entries := setEntries p v fs.entries }

def removeFS (fs : FS) (p : CPath) : FS :=
  { fs with entries := fs.entries.filter (fun e => !(e.1 == p)) }

def removeTreeFS (fs : FS) (p : CPath) : FS :=
  { fs with entries := fs.entries.filter (fun e => !(p.isPrefixOf e.1)) }

/-- The name of `q` as a direct child of `d`, when it is one. -/
def childName (d q : CPath) : Option String :=
  match q.getLast? with
  | some n => if q.dropLast = d ∧ q ≠ [] then some n else none
  | none => none

/-- Directory enumeration (`Path.iterdir` / `os.listdir`): the children of
`d` in storage order (the OS order Python receives is likewise arbitrary). -/
def childrenFS (fs : FS) (d : CPath) : List (String × Entry) :=
  fs.entries.filterMap (fun e => (childName d e.1).map (fun n => (n, e.2)))

/-- `st_size`, `st_mode` and `st_mtime` of an entry. -/
def statEntry : Entry → Nat × Nat × Nat
  | .file fd => (fd.data.length, fd.mode, fd.mtime)
  | .dir => (4096, 493, 0)

/-! ## Stateful computations with Python exceptions -/

def PyM (α : Type) : Type := FS → Except PyExc α × FS

def PyM.pure {α : Type} (a : α) : PyM α := fun fs => (.ok a, fs)

def PyM.bind {α β : Type} (m : PyM α) (f : α → PyM β) : PyM β := fun fs =>
  match m fs with
  | (.ok a, fs') => f a fs'
  | (.error e, fs') => (.error e, fs')

instance : Monad PyM where
  pure := PyM.pure
  bind := PyM.bind

def pyRaise {α : Type} (e : PyExc) : PyM α := fun fs => (.error e, fs)

def getFS : PyM FS := fun fs => (.ok fs, fs)

/-- The `try: body except Exception as e: return handler(e)` shape every
registered tool has. -/
def pyTry (m : PyM String) (h : PyExc → String) (fs : FS) : String × FS :=
  match m fs with
  | (.ok s, fs') => (s, fs')
  | (.error e, fs') => (h e, fs')

/-! ## OS-level primitives used by the tools -/

/-- `open(path, "r", encoding=enc)` followed by `f.read()`: decode with the
codec label and apply universal newlines. -/
def openRead (p : CPath) (enc : String) : PyM String := fun fs =>
  match lookupFS fs p with
  | some (.file fd) =>
    if fd.enc = enc then (.ok (univNlS fd.data), fs)
    else (.error (.unicodeError ("codec " ++ enc ++ " cannot decode file")), fs)
  | some .dir => (.error (.osError ("Is a directory: '" ++ renderPath p ++ "'")), fs)
  | none => (.error (.osError ("No such file or directory: '" ++ renderPath p ++ "'")), fs)

/-- `open(path, "w", encoding=enc)` followed by `f.write(content)`:
translate newlines to `ls`, stamp the clock as `st_mtime`.  A fresh file
gets mode `0o644`; rewriting keeps the existing mode. -/
def openWrite (ls : String) (p : CPath) (content enc : String) : PyM Unit := fun fs =>
  if p = [] then (.error (.osError "Is a directory: '/'"), fs)
  else
    match lookupFS fs p with
    | some .dir => (.error (.osError ("Is a directory: '" ++ renderPath p ++ "'")), fs)
    | some (.file fd) =>
      (.ok (), { setFS fs p (.file { data := translNlS ls content, enc := enc, mtime := fs.clock, mode := fd.mode }) with clock := fs.clock + 1 })
    | none =>
      match lookupFS fs p.dropLast with
      | some .dir =>
        (.ok (), { setFS fs p (.file { data := translNlS ls content, enc := enc, mtime := fs.clock, mode := 420 }) with clock := fs.clock + 1 })
      | _ => (.error (.osError ("No such file or directory: '" ++ renderPath p ++ "'")), fs)

/-- The non-empty prefixes of `p`, shortest first. -/
def ancestorChain (p : CPath) : List CPath :=
  (List.range p.length).map (fun k => p.take (k + 1))

/-- One step of `Path.mkdir(exist_ok=True)`. -/
def mkOneDir (p : CPath) : PyM Unit := fun fs =>
  match lookupFS fs p with
  | some .dir => (.ok (), fs)
  | some (.file _) => (.error (.osError ("File exists: '" ++ renderPath p ++ "'")), fs)
  | none => (.ok (), setFS fs p .dir)

def mkDirsAll : List CPath → PyM Unit
  | [] => PyM.pure ()
  | q :: qs => PyM.bind (mkOneDir q) (fun _ => mkDirsAll qs)

/-- `path.mkdir(parents=True, exist_ok=True)` (as `pathlib` runs it on the
parent of a file about to be written). -/
def mkdirParents (p : CPath) : PyM Unit := mkDirsAll (ancestorChain p)

/-- `path.mkdir(exist_ok=False)` without parent creation. -/
def mkdirSingle (p : CPath) : PyM Unit := fun fs =>
  match lookupFS fs p with
  | some _ => (.error (.osError ("File exists: '" ++ renderPath p ++ "'")), fs)
  | none =>
    match lookupFS fs p.dropLast with
    | some .dir => (.ok (), setFS fs p .dir)
    | some (.file _) => (.error (.osError ("Not a directory: '" ++ renderPath p.dropLast ++ "'")), fs)
    | none => (.error (.osError ("No such file or directory: '" ++ renderPath p.dropLast ++ "'")), fs)

/-- `path.rmdir()`: only removes empty directories. -/
def osRmdir (p : CPath) : PyM Unit := fun fs =>
  if (childrenFS fs p).isEmpty then (.ok (), removeFS fs p)
  else (.error (.osError ("Directory not empty: '" ++ renderPath p ++ "'")), fs)

/-- `shutil.rmtree(path)`: removes the directory and everything under it. -/
def osRmtree (p : CPath) : PyM Unit := fun fs => (.ok (), removeTreeFS fs p)

/-- `path.unlink()`. -/
def osUnlink (p : CPath) : PyM Unit := fun fs => (.ok (), removeFS fs p)

/-- `shutil.copy2(src, dst)`: when `dst` is an existing directory the copy
lands inside it under the source's basename; content and metadata
(`st_mode`, `st_mtime`) are preserved; copying a file onto itself raises
`shutil.SameFileError`. -/
def shutilCopy2 (src dst : CPath) : PyM Unit := fun fs =>
  let real := match lookupFS fs dst with
    | some .dir => dst ++ [src.getLastD ""]
    | _ => dst
  if real = src then
    (.error (.shutilError (renderPath src ++ " and " ++ renderPath dst ++ " are the same file")), fs)
  else
    match lookupFS fs src with
    | some (.file fd) =>
      match lookupFS fs real with
      | some .dir => (.error (.osError ("Is a directory: '" ++ renderPath real ++ "'")), fs)
      | _ =>
        match lookupFS fs real.dropLast with
        | some .dir => (.ok (), setFS fs real (.file fd))
        | _ => (.error (.osError ("No such file or directory: '" ++ renderPath real ++ "'")), fs)
    | some .dir => (.error (.osError ("Is a directory: '" ++ renderPath src ++ "'")), fs)
    | none => (.error (.osError ("No such file or directory: '" ++ renderPath src ++ "'")), fs)

/-- `os.rename`-style relocation of the whole subtree rooted at `src`. -/
def renameFS (fs : FS) (src dst : CPath) : FS :=
  { fs with entries := fs.entries.map (fun e =>
      if src.isPrefixOf e.1 then (dst ++ e.1.drop src.length, e.2) else e) }

/-- `shutil.move(src, dst)`.  Moving into an existing directory targets
`dst/basename(src)` and refuses an occupied target; renaming a file over an
existing file replaces it (directly on POSIX, through the copy-and-unlink
fallback on Windows — same final state); renaming a directory over an
existing file fails on every platform (the rename raises and the `copytree`
fallback then trips over the existing path); moving a tree into itself
raises `OSError`. -/
def shutilMove (src dst : CPath) : PyM Unit := fun fs =>
  if !(pathExistsFS fs src) then
    (.error (.osError ("No such file or directory: '" ++ renderPath src ++ "'")), fs)
  else
    match lookupFS fs dst with
    | some .dir =>
      let real := dst ++ [src.getLastD ""]
      if pathExistsFS fs real then
        (.error (.shutilError ("Destination path '" ++ renderPath real ++ "' already exists")), fs)
      else if src.isPrefixOf real then
        (.error (.osError ("Invalid argument: '" ++ renderPath src ++ "'")), fs)
      else (.ok (), renameFS fs src real)
    | some (.file _) =>
      if isFileFS fs src then (.ok (), renameFS fs src dst)
      else (.error (.osError ("File exists: '" ++ renderPath dst ++ "'")), fs)
    | none =>
      if src.isPrefixOf dst then
        (.error (.osError ("Invalid argument: '" ++ renderPath src ++ "'")), fs)
      else
        match lookupFS fs dst.dropLast with
        | some .dir => (.ok (), renameFS fs src dst)
        | _ => (.error (.osError ("No such file or directory: '" ++ renderPath dst ++ "'")), fs)

/-! ## JSON: `json.load` and `json.dump(indent=2, ensure_ascii=False)`

Values follow Python's except that numbers are arbitrary-precision integers
only; float literals (fractions, exponents, `NaN`, `Infinity`) are outside
the model, so the parser rejects them instead of mis-reading them, and the
parser likewise rejects the lone UTF-16 surrogates Python tolerates (a Lean
`Char` cannot hold one).  Objects keep Python-`dict` semantics: insertion
order, a duplicate key overwriting the value in place. -/

inductive JVal where
  | null
  | bool (b : Bool)
  | num (n : Int)
  | str (s : String)
  | arr (xs : List JVal)
  | obj (kvs : List (String × JVal))

def hexDigit (n : Nat) : Char :=
  if n < 10 then Char.ofNat (48 + n) else Char.ofNat (87 + n)

/-- `json.encoder`'s escape table under `ensure_ascii=False`: quote,
backslash and the control characters are escaped, everything else is kept
literally. -/
def escChar (c : Char) : List Char :=
  if c = '"' then ['\\', '"']
  else if c = '\\' then ['\\', '\\']
  else if c = '\n' then ['\\', 'n']
  else if c = '\r' then ['\\', 'r']
  else if c = '\t' then ['\\', 't']
  else if c.toNat = 8 then ['\\', 'b']
  else if c.toNat = 12 then ['\\', 'f']
  else if c.toNat < 32 then ['\\', 'u', '0', '0', hexDigit (c.toNat / 16), hexDigit (c.toNat % 16)]
  else [c]

def escStr (s : String) : List Char := (s.data.map escChar).flatten

/-- The newline-plus-indentation `json.dump(indent=2)` emits before an item
at nesting level `lvl`. -/
def nlInd (lvl : Nat) : List Char := '\n' :: List.replicate (2 * lvl) ' '

mutual

def dumpVal (lvl : Nat) : JVal → List Char
  | .null => 'n' :: ['u', 'l', 'l']
  | .bool true => 't' :: ['r', 'u', 'e']
  | .bool false => 'f' :: ['a', 'l', 's', 'e']
  | .num n => intChars n
  | .str s => '"' :: (escStr s ++ ['"'])
  | .arr [] => ['[', ']']
  | .arr (x :: xs) =>
    '[' :: (nlInd (lvl + 1) ++ dumpVal (lvl + 1) x ++ dumpArrTail (lvl + 1) xs ++ nlInd lvl ++ [']'])
  | .obj [] => ['{', '}']
  | .obj ((k, v) :: kvs) =>
    '{' :: (nlInd (lvl + 1) ++ dumpField (lvl + 1) k v ++ dumpObjTail (lvl + 1) kvs ++ nlInd lvl ++ ['}'])
termination_by v => (sizeOf v, 0)

def dumpField (lvl : Nat) (k : String) (v : JVal) : List Char :=
  '"' :: (escStr k ++ ['"', ':', ' ']) ++ dumpVal lvl v
termination_by (sizeOf v, 1)

def dumpArrTail (lvl : Nat) : List JVal → List Char
  | [] => []
  | y :: ys => ',' :: nlInd lvl ++ dumpVal lvl y ++ dumpArrTail lvl ys
termination_by ys => (sizeOf ys, 0)

def dumpObjTail (lvl : Nat) : List (String × JVal) → List Char
  | [] => []
  | (k, v) :: kvs => ',' :: nlInd lvl ++ dumpField lvl k v ++ dumpObjTail lvl kvs
termination_by kvs => (sizeOf kvs, 0)

end

/-- `json.dumps(v, indent=2, ensure_ascii=False)` (what `json.dump` writes;
no trailing newline). -/
def dumps (v : JVal) : String := String.mk (dumpVal 0 v)

def isWsChar (c : Char) : Bool := c = ' ' || c = '\t' || c = '\n' || c = '\r'

def skipWs : List Char → List Char
  | [] => []
  | c :: cs => if isWsChar c then skipWs cs else c :: cs

def hexVal (c : Char) : Option Nat :=
  if '0' ≤ c ∧ c ≤ '9' then some (c.toNat - 48)
  else if 'a' ≤ c ∧ c ≤ 'f' then some (c.toNat - 87)
  else if 'A' ≤ c ∧ c ≤ 'F' then some (c.toNat - 55)
  else none

def hex4 : List Char → Option (Nat × List Char)
  | a :: b :: c :: d :: rest =>
    match hexVal a, hexVal b, hexVal c, hexVal d with
    | some x, some y, some z, some w => some (4096 * x + 256 * y + 16 * z + w, rest)
    | _, _, _, _ => none
  | _ => none

def unescape (c : Char) : Option Char :=
  if c = '"' then some '"'
  else if c = '\\' then some '\\'
  else if c = '/' then some '/'
  else if c = 'b' then some (Char.ofNat 8)
  else if c = 'f' then some (Char.ofNat 12)
  else if c = 'n' then some '\n'
  else if c = 'r' then some '\r'
  else if c = 't' then some '\t'
  else none

/-- JSON string scanner, positioned after the opening quote.  Every step
consumes at least one character, so `length + 1` fuel always suffices. -/
def pStrGo : Nat → List Char → List Char → Option (String × List Char)
  | 0, _, _ => none
  | fu + 1, acc, cs =>
    match cs with
    | [] => none
    | c :: rest =>
      if c = '"' then some (String.mk acc, rest)
      else if c = '\\' then
        match rest with
        | [] => none
        | e :: rest1 =>
          if e = 'u' then
            match hex4 rest1 with
            | some (n, rest2) =>
              if 55296 ≤ n ∧ n < 56320 then
                match rest2 with
                | c1 :: c2 :: rest3 =>
                  if c1 = '\\' ∧ c2 = 'u' then
                    match hex4 rest3 with
                    | some (m, rest4) =>
                      if 56320 ≤ m ∧ m < 57344 then
                        pStrGo fu (acc ++ [Char.ofNat (65536 + 1024 * (n - 55296) + (m - 56320))]) rest4
                      else none
                    | none => none
                  else none
                | _ => none
              else if 56320 ≤ n ∧ n < 57344 then none
              else pStrGo fu (acc ++ [Char.ofNat n]) rest2
            | none => none
          else
            match unescape e with
            | some c2 => pStrGo fu (acc ++ [c2]) rest1
            | none => none
      else if c.toNat < 32 then none
      else pStrGo fu (acc ++ [c]) rest

def pStr (cs : List Char) : Option (String × List Char) := pStrGo (cs.length + 1) [] cs

def isDigitCh (c : Char) : Bool := '0' ≤ c && c ≤ '9'

def digitsGo : Nat → Nat → List Char → Nat × List Char
  | 0, acc, cs => (acc, cs)
  | fu + 1, acc, cs =>
    match cs with
    | c :: rest => if isDigitCh c then digitsGo fu (10 * acc + (c.toNat - 48)) rest else (acc, cs)
    | [] => (acc, [])

/-- JSON integer part: `0`, or a nonzero digit followed by digits (a leading
zero is the whole integer part, as in Python's `NUMBER_RE`). -/
def pNat : List Char → Option (Nat × List Char)
  | [] => none
  | c :: rest =>
    if c = '0' then some (0, rest)
    else if isDigitCh c then some (digitsGo (rest.length + 1) (c.toNat - 48) rest)
    else none

/-- Reject the continuations that would make the token a float literal
(outside the model). -/
def floatGuard (v : Int) (r : List Char) : Option (Int × List Char) :=
  match r with
  | [] => some (v, [])
  | c :: _ => if c = '.' ∨ c = 'e' ∨ c = 'E' then none else some (v, r)

def pIntTok : List Char → Option (Int × List Char)
  | [] => none
  | c :: rest =>
    if c = '-' then (pNat rest).bind (fun p => floatGuard (-(p.1 : Int)) p.2)
    else (pNat (c :: rest)).bind (fun p => floatGuard ((p.1 : Nat) : Int) p.2)

/-- Python-`dict` assignment on an association list: an existing key keeps
its position and gets the new value, a new key is appended. -/
def insertKV (kvs : List (String × JVal)) (k : String) (v : JVal) : List (String × JVal) :=
  match kvs with
  | [] => [(k, v)]
  | (k', v') :: t => if k' = k then (k, v) :: t else (k', v') :: insertKV t k v

/-- Consume an expected literal tail (the `ull` of `null`, …). -/
def dropLit : List Char → List Char → Option (List Char)
  | [], cs => some cs
  | _ :: _, [] => none
  | l :: ls, c :: cs => if c = l then dropLit ls cs else none

mutual

def pVal : Nat → List Char → Option (JVal × List Char)
  | 0, _ => none
  | fu + 1, cs =>
    match skipWs cs with
    | [] => none
    | c :: rest =>
      if c = '"' then (pStr rest).map (fun p => (JVal.str p.1, p.2))
      else if c = '[' then pArr fu rest
      else if c = '{' then pObj fu rest
      else if c = 'n' then (dropLit ['u', 'l', 'l'] rest).map (fun r => (JVal.null, r))
      else if c = 't' then (dropLit ['r', 'u', 'e'] rest).map (fun r => (JVal.bool true, r))
      else if c = 'f' then (dropLit ['a', 'l', 's', 'e'] rest).map (fun r => (JVal.bool false, r))
      else (pIntTok (c :: rest)).map (fun p => (JVal.num p.1, p.2))

def pArr : Nat → List Char → Option (JVal × List Char)
  | 0, _ => none
  | fu + 1, cs =>
    match skipWs cs with
    | [] => pElems fu [] cs
    | c :: rest => if c = ']' then some (.arr [], rest) else pElems fu [] cs

def pElems : Nat → List JVal → List Char → Option (JVal × List Char)
  | 0, _, _ => none
  | fu + 1, acc, cs =>
    match pVal fu cs with
    | some (v, r) =>
      match skipWs r with
      | [] => none
      | c :: r2 =>
        if c = ',' then pElems fu (acc ++ [v]) r2
        else if c = ']' then some (.arr (acc ++ [v]), r2)
        else none
    | none => none

def pObj : Nat → List Char → Option (JVal × List Char)
  | 0, _ => none
  | fu + 1, cs =>
    match skipWs cs with
    | [] => pFields fu [] cs
    | c :: rest => if c = '}' then some (.obj [], rest) else pFields fu [] cs

def pFields : Nat → List (String × JVal) → List Char → Option (JVal × List Char)
  | 0, _, _ => none
  | fu + 1, acc, cs =>
    match skipWs cs with
    | [] => none
    | c :: rest =>
      if c = '"' then
        match pStr rest with
        | some (k, r) =>
          match skipWs r with
          | [] => none
          | c2 :: r2 =>
            if c2 = ':' then
              match pVal fu r2 with
              | some (v, r3) =>
                match skipWs r3 with
                | [] => none
                | c3 :: r4 =>
                  if c3 = ',' then pFields fu (insertKV acc k v) r4
                  else if c3 = '}' then some (.obj (insertKV acc k v), r4)
                  else none
              | none => none
            else none
        | none => none
      else none

end

/-- The continuations after which a number token ends cleanly: end of input
or a character that neither extends the digit run nor turns the token into a
float literal. -/
def numBd : List Char → Bool
  | [] => true
  | c :: _ => !isDigitCh c && !(c = '.') && !(c = 'e') && !(c = 'E')

/-- The shape of continuations on which a digit run stops. -/
def NoDigitStart (rest : List Char) : Prop :=
  rest = [] ∨ ∃ c t, rest = c :: t ∧ isDigitCh c = false

/-- The value of a big-endian digit run, folded onto an accumulator (the
loop `digitsGo` performs, without the fuel and the stopping condition). -/
def digitsVal (acc : Nat) : List Char → Nat
  | [] => acc
  | c :: t => digitsVal (10 * acc + (c.toNat - 48)) t

/-- The characters a serialized JSON value can start with. -/
def startOk (c : Char) : Bool :=
  c = '"' || c = '[' || c = '{' || c = 'n' || c = 't' || c = 'f' || c = '-' || isDigitCh c

/-- `json.loads` / `json.load` on already-decoded text: parse one value,
then require only whitespace to remain ("Extra data" otherwise).  Fuel
`3 * length + 3` dominates the call depth (each nesting level consumes an
input character at a cost of at most three frames). -/
def loads (s : String) : Option JVal :=
  match pVal (3 * s.data.length + 3) s.data with
  | some (v, rest) => if skipWs rest = [] then some v else none
  | none => none

def jsonLoad (content : String) : PyM JVal := fun fs =>
  match loads content with
  | some v => (.ok v, fs)
  | none => (.error (.jsonError "Expecting value"), fs)

/-- Key membership in an association list (`k in dict`). -/
def keyMem (k : String) : List (String × JVal) → Bool
  | [] => false
  | (k', _) :: t => k' == k || keyMem k t

mutual

/-- Well-formedness `json.load` guarantees: every object's keys are
pairwise distinct (at every nesting level). -/
def jwf : JVal → Bool
  | .arr xs => jwfArr xs
  | .obj kvs => jwfObj kvs
  | _ => true
termination_by v => sizeOf v

def jwfArr : List JVal → Bool
  | [] => true
  | x :: t => jwf x && jwfArr t
termination_by xs => sizeOf xs

def jwfObj : List (String × JVal) → Bool
  | [] => true
  | (k, v) :: t => !keyMem k t && jwf v && jwfObj t
termination_by kvs => sizeOf kvs

end

mutual

/-- Fuel sufficient for `pVal` to re-read a dumped value (one frame above
the element-sequence fuel of composites). -/
def jfuel : JVal → Nat
  | .arr xs => 2 + jfuelArr xs
  | .obj kvs => 2 + jfuelObj kvs
  | _ => 1
termination_by v => sizeOf v

def jfuelArr : List JVal → Nat
  | [] => 0
  | x :: t => 1 + max (jfuel x) (jfuelArr t)
termination_by xs => sizeOf xs

def jfuelObj : List (String × JVal) → Nat
  | [] => 0
  | (_, v) :: t => 1 + max (jfuel v) (jfuelObj t)
termination_by kvs => sizeOf kvs

end

/-! ## `_format_size` (`src/file_system.py` lines 23-29)

The Python loop divides a float by `1024.0`; dividing by a power of two only
shifts the exponent, so for byte counts below `2^53` every intermediate value
is exactly `n / 1024^k` and the model computes with that exact rational.
`"%.1f"` formatting correctly rounds the exact value to one decimal,
ties-to-even. -/

/-- The integer number of tenths `"%.1f"` displays for `num / den`
(`den > 0`), rounding to nearest with ties to even. -/
def dispTenths (num den : Nat) : Nat :=
  let t := 10 * num
  let q := t / den
  let r := t % den
  if den < 2 * r then q + 1
  else if 2 * r < den then q
  else if q % 2 = 1 then q + 1 else q

def fmtOneDec (num den : Nat) : String :=
  natStr (dispTenths num den / 10) ++ "." ++ natStr (dispTenths num den % 10)

def fsUnits : List String := ["B", "KB", "MB", "GB", "TB"]

def fmtSizeGo (n : Nat) : List String → Nat → String
  | [], k => fmtOneDec n (1024 ^ k) ++ " PB"
  | u :: us, k =>
    if n < 1024 ^ (k + 1) then fmtOneDec n (1024 ^ k) ++ " " ++ u
    else fmtSizeGo n us (k + 1)

def _format_size (n : Nat) : String := fmtSizeGo n fsUnits 0

/-! ## `fnmatch` glob matching and the search helpers

`fnmatch.translate` semantics: `*`, `?` and `[seq]` (with `!` negation,
a leading `]` as a literal member and `-` ranges); an unterminated `[` is a
literal character.  POSIX case behaviour is modelled (on Windows `fnmatch`
and `glob` additionally fold case; no claim depends on that fold).  The
matcher carries structural fuel: every step consumes a pattern or subject
character, so `|pattern| + |subject| + 1` always suffices. -/

def classEnd : List Char → Option (List Char × List Char)
  | [] => none
  | ']' :: rest => some ([], rest)
  | c :: rest => (classEnd rest).map (fun p => (c :: p.1, p.2))

def classSplit (cs : List Char) : Option (Bool × List Char × List Char) :=
  match cs with
  | '!' :: t =>
    match t with
    | ']' :: t2 => (classEnd t2).map (fun p => (true, ']' :: p.1, p.2))
    | _ => (classEnd t).map (fun p => (true, p.1, p.2))
  | ']' :: t2 => (classEnd t2).map (fun p => (false, ']' :: p.1, p.2))
  | _ => (classEnd cs).map (fun p => (false, p.1, p.2))

def matchClass : List Char → Char → Bool
  | [], _ => false
  | x :: '-' :: y :: rest, c =>
    (decide (x ≤ c) && decide (c ≤ y)) || matchClass rest c
  | x :: rest, c => x == c || matchClass rest c

def globGo : Nat → List Char → List Char → Bool
  | 0, _, _ => false
  | fu + 1, p, s =>
    match p, s with
    | [], [] => true
    | [], _ :: _ => false
    | '*' :: pt, s =>
      globGo fu pt s ||
        (match s with
         | [] => false
         | _ :: st => globGo fu ('*' :: pt) st)
    | '?' :: pt, _ :: st => globGo fu pt st
    | '?' :: _, [] => false
    | '[' :: pt, c :: st =>
      match classSplit pt with
      | some (neg, region, rest) =>
        (if neg then !(matchClass region c) else matchClass region c) && globGo fu rest st
      | none => ('[' == c) && globGo fu pt st
    | '[' :: _, [] => false
    | c :: pt, d :: st => (c == d) && globGo fu pt st
    | _ :: _, [] => false

def fnmatchChars (pat s : List Char) : Bool := globGo (pat.length + s.length + 1) pat s

/-- `fnmatch.fnmatch(name, pat)` with POSIX case behaviour
(`fnmatchcase`). -/
def fnmatchB (name pat : String) : Bool := fnmatchChars pat.data name.data

/-- Python `needle in hay` on strings. -/
def containsSub (needle : List Char) : List Char → Bool
  | [] => needle.isEmpty
  | c :: t => needle.isPrefixOf (c :: t) || containsSub needle t

/-- The source's case-insensitive file condition (line 235):
`pattern.lower() in file.lower() or fnmatch(file.lower(), pattern.lower())` —
a substring hit is accepted alongside the glob match. -/
def nameMatchCI (pat n : String) : Bool :=
  containsSub (lowerStr pat).data (lowerStr n).data ||
    fnmatchB (lowerStr n) (lowerStr pat)

/-- All proper extensions of `base` up to (excluding) `q`'s own length are
directories — i.e. `q` is reachable from `base` through real directories,
which is exactly the set of locations `os.walk`/`glob` enumerate. -/
def chainDirs (fs : FS) (base q : CPath) : Bool :=
  ((List.range q.length).filter (fun k => base.length ≤ k)).all
    (fun k => isDirFS fs (q.take k))

/-- `os.walk(base)`: the files anywhere strictly under `base`, as paths
relative to it. -/
def walkFilesRel (fs : FS) (base : CPath) : List CPath :=
  fs.entries.filterMap (fun e =>
    if base.isPrefixOf e.1 && !(e.1 == base) &&
        (match e.2 with | .file _ => true | .dir => false) &&
        chainDirs fs base e.1
    then some (e.1.drop base.length) else none)

/-- `os.listdir(base)`: names of all direct children, directories
included. -/
def listdirNames (fs : FS) (base : CPath) : List String :=
  (childrenFS fs base).map (fun ne => ne.1)

/-- The candidate set of the case-insensitive branch (lines 230-240):
files from `os.walk` when recursive, otherwise every `os.listdir` entry. -/
def ciCandidatesRel (fs : FS) (base : CPath) (recursive : Bool) : List CPath :=
  if recursive then walkFilesRel fs base
  else (listdirNames fs base).map (fun n => [n])

def ciMatchesRel (fs : FS) (base : CPath) (pat : String) (recursive : Bool) :
    List CPath :=
  (ciCandidatesRel fs base recursive).filter (fun rel => nameMatchCI pat (rel.getLastD ""))

/-- A wildcard `glob` component does not match a dotted name unless the
pattern itself starts with a dot. -/
def globHiddenOk (pat n : String) : Bool := !(leadsWith "." n) || leadsWith "." pat

/-- `glob.glob(base/**/pattern, recursive=...)` (lines 222-227): matching
entries of either kind under `base`, relative to it; `**` never descends
into hidden directories.  In the source this value is computed in both
branches but only the case-sensitive branch returns it. -/
def globMatchesRel (fs : FS) (base : CPath) (pat : String) (recursive : Bool) :
    List CPath :=
  if recursive then
    fs.entries.filterMap (fun e =>
      let rel := e.1.drop base.length
      if base.isPrefixOf e.1 && !(e.1 == base) && chainDirs fs base e.1 &&
          rel.dropLast.all (fun d => !(leadsWith "." d)) &&
          fnmatchB (rel.getLastD "") pat && globHiddenOk pat (rel.getLastD "")
      then some rel else none)
  else
    (childrenFS fs base).filterMap (fun ne =>
      if fnmatchB ne.1 pat && globHiddenOk pat ne.1 then some [ne.1] else none)

/-! ## The registered tools (`register_file_system_tools`, lines 31-394)

Each tool is `pyTry body handler`: the whole Python body sits inside
`try:`, and `except Exception as e:` returns the handler's message.  Tool
parameters keep their Python names; `ls` is `os.linesep` for the write
path.  Timestamp rendering (`datetime...strftime` / `isoformat`) is
abstracted to a deterministic rendering of the stored counter. -/

def fmtTimestamp (t : Nat) : String := natStr t

def isoTimestamp (t : Nat) : String := natStr t

/-- `Path.suffix` of a file name. -/
def suffixOf (n : String) : String :=
  let cs := n.data
  let revTail := cs.reverse.takeWhile (fun c => !(c == '.'))
  if revTail.length = cs.length then ""
  else
    let i := cs.length - 1 - revTail.length
    if 0 < i ∧ i < cs.length - 1 then String.mk ('.' :: revTail.reverse) else ""

def read_file_body (file_path enc : String) : PyM String := do
  let fs ← getFS
  let p := canon fs.cwd file_path
  if !pathExistsFS fs p then
    pure ("Error: File '" ++ file_path ++ "' does not exist")
  else if !isFileFS fs p then
    pure ("Error: '" ++ file_path ++ "' is not a file")
  else
    openRead p enc

def read_file (file_path enc : String) : FS → String × FS :=
  pyTry (read_file_body file_path enc) (fun e => "Error reading file: " ++ pyStr e)

def write_file_body (ls file_path content enc : String) (create_dirs : Bool) :
    PyM String := do
  let fs ← getFS
  let p := canon fs.cwd file_path
  if create_dirs then mkdirParents p.dropLast else pure ()
  openWrite ls p content enc
  pure ("Successfully wrote " ++ natStr content.length ++ " characters to '" ++ file_path ++ "'")

def write_file (ls file_path content enc : String) (create_dirs : Bool) :
    FS → String × FS :=
  pyTry (write_file_body ls file_path content enc create_dirs)
    (fun e => "Error writing file: " ++ pyStr e)

def delete_file_body (file_path : String) : PyM String := do
  let fs ← getFS
  let p := canon fs.cwd file_path
  if !pathExistsFS fs p then
    pure ("Error: File '" ++ file_path ++ "' does not exist")
  else if !isFileFS fs p then
    pure ("Error: '" ++ file_path ++ "' is not a file")
  else do
    osUnlink p
    pure ("Successfully deleted file '" ++ file_path ++ "'")

def delete_file (file_path : String) : FS → String × FS :=
  pyTry (delete_file_body file_path) (fun e => "Error deleting file: " ++ pyStr e)

def renderEntryLine (detailed : Bool) (n : String) (e : Entry) : String :=
  if detailed then
    let st := statEntry e
    let ty := match e with | .dir => "DIR" | .file _ => "FILE"
    ljust ty 4 ++ " " ++ rjust (natStr st.1) 10 ++ " " ++ rjust (octStr st.2.1) 6 ++ " " ++
      fmtTimestamp st.2.2 ++ " " ++ n
  else
    (match e with | .dir => "[DIR]" | .file _ => "[FILE]") ++ " " ++ n

def detailedHeader : String := "TYPE       SIZE  PERMS       MODIFIED           NAME"

/-- The entry lines of a listing before sorting: children in enumeration
order, dotted names skipped unless `include_hidden`. -/
def listingItems (fs : FS) (p : CPath) (include_hidden detailed : Bool) :
    List String :=
  (childrenFS fs p).filterMap (fun ne =>
    if !include_hidden && leadsWith "." ne.1 then none
    else some (renderEntryLine detailed ne.1 ne.2))

def list_directory_body (dir_path : String) (include_hidden detailed : Bool) :
    PyM String := do
  let fs ← getFS
  let p := canon fs.cwd dir_path
  if !pathExistsFS fs p then
    pure ("Error: Directory '" ++ dir_path ++ "' does not exist")
  else if !isDirFS fs p then
    pure ("Error: '" ++ dir_path ++ "' is not a directory")
  else
    let items := listingItems fs p include_hidden detailed
    if items.isEmpty then pure ("Directory '" ++ dir_path ++ "' is empty")
    else
      let header := if detailed then detailedHeader else "CONTENTS"
      pure ("Directory listing for '" ++ dir_path ++ "':\n" ++ header ++ "\n" ++
        joinSep "\n" (pySorted items))

def list_directory (dir_path : String) (include_hidden detailed : Bool) :
    FS → String × FS :=
  pyTry (list_directory_body dir_path include_hidden detailed)
    (fun e => "Error listing directory: " ++ pyStr e)

def create_directory_body (dir_path : String) (parents : Bool) : PyM String := do
  let fs ← getFS
  let p := canon fs.cwd dir_path
  if pathExistsFS fs p then
    pure ("Error: Directory '" ++ dir_path ++ "' already exists")
  else do
    if parents then mkdirParents p.dropLast else pure ()
    mkdirSingle p
    pure ("Successfully created directory '" ++ dir_path ++ "'")

def create_directory (dir_path : String) (parents : Bool) : FS → String × FS :=
  pyTry (create_directory_body dir_path parents)
    (fun e => "Error creating directory: " ++ pyStr e)

def delete_directory_body (dir_path : String) (recursive : Bool) : PyM String := do
  let fs ← getFS
  let p := canon fs.cwd dir_path
  if !pathExistsFS fs p then
    pure ("Error: Directory '" ++ dir_path ++ "' does not exist")
  else if !isDirFS fs p then
    pure ("Error: '" ++ dir_path ++ "' is not a directory")
  else if recursive then do
    osRmtree p
    pure ("Successfully deleted directory '" ++ dir_path ++ "' and all its contents")
  else do
    osRmdir p
    pure ("Successfully deleted empty directory '" ++ dir_path ++ "'")

def delete_directory (dir_path : String) (recursive : Bool) : FS → String × FS :=
  pyTry (delete_directory_body dir_path recursive)
    (fun e => "Error deleting directory: " ++ pyStr e)

def search_files_body (pattern directory : String) (recursive case_sensitive : Bool) :
    PyM String := do
  let fs ← getFS
  let base := canon fs.cwd directory
  if !pathExistsFS fs base then
    pure ("Error: Directory '" ++ directory ++ "' does not exist")
  else if !isDirFS fs base then
    pure ("Error: '" ++ directory ++ "' is not a directory")
  else
    let rels :=
      if !case_sensitive then ciMatchesRel fs base pattern recursive
      else globMatchesRel fs base pattern recursive
    if rels.isEmpty then
      pure ("No files found matching pattern '" ++ pattern ++ "' in '" ++ directory ++ "'")
    else
      pure ("Found " ++ natStr rels.length ++ " files matching '" ++ pattern ++ "':\n" ++
        joinSep "\n" (pySorted (rels.map (joinSep "/"))))

def search_files (pattern directory : String) (recursive case_sensitive : Bool) :
    FS → String × FS :=
  pyTry (search_files_body pattern directory recursive case_sensitive)
    (fun e => "Error searching files: " ++ pyStr e)

def get_file_info_body (file_path : String) : PyM String := do
  let fs ← getFS
  let p := canon fs.cwd file_path
  if !pathExistsFS fs p then
    pure ("Error: '" ++ file_path ++ "' does not exist")
  else
    let st := statEntry ((lookupFS fs p).getD .dir)
    let base : List (String × JVal) := [
      ("path", .str (renderPath p)),
      ("name", .str (p.getLastD "")),
      ("type", .str (if isDirFS fs p then "directory" else "file")),
      ("size", .num (st.1 : Int)),
      ("size_human", .str (_format_size st.1)),
      ("permissions", .str (octStr st.2.1)),
      ("owner_uid", .num 0),
      ("group_gid", .num 0),
      ("created", .str (isoTimestamp st.2.2)),
      ("modified", .str (isoTimestamp st.2.2)),
      ("accessed", .str (isoTimestamp st.2.2))]
    let info := if isFileFS fs p then
        base ++ [("extension", .str (suffixOf (p.getLastD "")))]
      else base
    pure (dumps (.obj info))

def get_file_info (file_path : String) : FS → String × FS :=
  pyTry (get_file_info_body file_path)
    (fun e => "Error getting file info: " ++ pyStr e)

def copy_file_body (source_path destination_path : String) (overwrite : Bool) :
    PyM String := do
  let fs ← getFS
  let src := canon fs.cwd source_path
  let dst := canon fs.cwd destination_path
  if !pathExistsFS fs src then
    pure ("Error: Source file '" ++ source_path ++ "' does not exist")
  else if !isFileFS fs src then
    pure ("Error: Source '" ++ source_path ++ "' is not a file")
  else if pathExistsFS fs dst && !overwrite then
    pure ("Error: Destination '" ++ destination_path ++ "' already exists. Use overwrite=True to replace it")
  else do
    mkdirParents dst.dropLast
    shutilCopy2 src dst
    pure ("Successfully copied '" ++ source_path ++ "' to '" ++ destination_path ++ "'")

def copy_file (source_path destination_path : String) (overwrite : Bool) :
    FS → String × FS :=
  pyTry (copy_file_body source_path destination_path overwrite)
    (fun e => "Error copying file: " ++ pyStr e)

def move_file_body (source_path destination_path : String) (overwrite : Bool) :
    PyM String := do
  let fs ← getFS
  let src := canon fs.cwd source_path
  let dst := canon fs.cwd destination_path
  if !pathExistsFS fs src then
    pure ("Error: Source '" ++ source_path ++ "' does not exist")
  else if pathExistsFS fs dst && !overwrite then
    pure ("Error: Destination '" ++ destination_path ++ "' already exists. Use overwrite=True to replace it")
  else do
    mkdirParents dst.dropLast
    shutilMove src dst
    pure ("Successfully moved '" ++ source_path ++ "' to '" ++ destination_path ++ "'")

def move_file (source_path destination_path : String) (overwrite : Bool) :
    FS → String × FS :=
  pyTry (move_file_body source_path destination_path overwrite)
    (fun e => "Error moving file: " ++ pyStr e)

def format_json_file_body (ls filepath : String) : PyM String := do
  let fs ← getFS
  let p := canon fs.cwd filepath
  if !pathExistsFS fs p then
    pure ("Error: File '" ++ filepath ++ "' does not exist")
  else if !isFileFS fs p then
    pure ("Error: '" ++ filepath ++ "' is not a file")
  else do
    let content ← openRead p "utf-8"
    let v ← jsonLoad content
    openWrite ls p (dumps v) "utf-8"
    pure ("Successfully formatted JSON file '" ++ filepath ++ "'")

def jsonHandler (verb filepath : String) (e : PyExc) : String :=
  match e with
  | .jsonError m => "Error: Invalid JSON in file '" ++ filepath ++ "': " ++ m
  | e => "Error " ++ verb ++ " JSON file: " ++ pyStr e

def format_json_file (ls filepath : String) : FS → String × FS :=
  pyTry (format_json_file_body ls filepath) (jsonHandler "formatting" filepath)

def validate_json_file_body (filepath : String) : PyM String := do
  let fs ← getFS
  let p := canon fs.cwd filepath
  if !pathExistsFS fs p then
    pure ("Error: File '" ++ filepath ++ "' does not exist")
  else if !isFileFS fs p then
    pure ("Error: '" ++ filepath ++ "' is not a file")
  else do
    let content ← openRead p "utf-8"
    let _ ← jsonLoad content
    pure ("JSON file '" ++ filepath ++ "' is valid")

def validate_json_file (filepath : String) : FS → String × FS :=
  pyTry (validate_json_file_body filepath) (jsonHandler "validating" filepath)

/-! ## The registry: one name per registered operation -/

inductive ToolCall where
  | readFile (file_path enc : String)
  | writeFile (file_path content enc : String) (create_dirs : Bool)
  | deleteFile (file_path : String)
  | listDirectory (dir_path : String) (include_hidden detailed : Bool)
  | createDirectory (dir_path : String) (parents : Bool)
  | deleteDirectory (dir_path : String) (recursive : Bool)
  | searchFiles (pattern directory : String) (recursive case_sensitive : Bool)
  | getFileInfo (file_path : String)
  | copyFile (source_path destination_path : String) (overwrite : Bool)
  | moveFile (source_path destination_path : String) (overwrite : Bool)
  | formatJsonFile (filepath : String)
  | validateJsonFile (filepath : String)

/-- The body of the registered operation — everything the source places
inside its `try:` block. -/
def toolBody (ls : String) : ToolCall → PyM String
  | .readFile fp e => read_file_body fp e
  | .writeFile fp c e cd => write_file_body ls fp c e cd
  | .deleteFile fp => delete_file_body fp
  | .listDirectory dp ih det => list_directory_body dp ih det
  | .createDirectory dp par => create_directory_body dp par
  | .deleteDirectory dp rec => delete_directory_body dp rec
  | .searchFiles pat dir rec cs => search_files_body pat dir rec cs
  | .getFileInfo fp => get_file_info_body fp
  | .copyFile sp dp ov => copy_file_body sp dp ov
  | .moveFile sp dp ov => move_file_body sp dp ov
  | .formatJsonFile fp => format_json_file_body ls fp
  | .validateJsonFile fp => validate_json_file_body fp

/-- The `except` clauses of the registered operation. -/
def toolHandler : ToolCall → PyExc → String
  | .readFile _ _ => fun e => "Error reading file: " ++ pyStr e
  | .writeFile _ _ _ _ => fun e => "Error writing file: " ++ pyStr e
  | .deleteFile _ => fun e => "Error deleting file: " ++ pyStr e
  | .listDirectory _ _ _ => fun e => "Error listing directory: " ++ pyStr e
  | .createDirectory _ _ => fun e => "Error creating directory: " ++ pyStr e
  | .deleteDirectory _ _ => fun e => "Error deleting directory: " ++ pyStr e
  | .searchFiles _ _ _ _ => fun e => "Error searching files: " ++ pyStr e
  | .getFileInfo _ => fun e => "Error getting file info: " ++ pyStr e
  | .copyFile _ _ _ => fun e => "Error copying file: " ++ pyStr e
  | .moveFile _ _ _ => fun e => "Error moving file: " ++ pyStr e
  | .formatJsonFile fp => jsonHandler "formatting" fp
  | .validateJsonFile fp => jsonHandler "validating" fp

/-- The dispatcher's view of an operation: the try-wrapped body. -/
def dispatch (ls : String) (c : ToolCall) : FS → String × FS :=
  pyTry (toolBody ls c) (toolHandler c)

/-- A descriptive failure message: a string starting with `"Error"`. -/
def IsErrMsg (s : String) : Prop := ∃ t, s = "Error" ++ t

/-! ## Spec-side definitions (written from the specification's words, for
comparison with the source-translated operations above) -/

/-- The unit index the spec describes: the first (smallest) unit whose scaled
value is below 1024, capped at PB. -/
def uIdx (n : Nat) : Nat :=
  if n < 1024 then 0
  else if n < 1024 ^ 2 then 1
  else if n < 1024 ^ 3 then 2
  else if n < 1024 ^ 4 then 3
  else if n < 1024 ^ 5 then 4
  else 5

def uName : Nat → String
  | 0 => "B"
  | 1 => "KB"
  | 2 => "MB"
  | 3 => "GB"
  | 4 => "TB"
  | _ => "PB"

/-- The file contents of a path, when it holds a file — the "bytes on disk"
the idempotence claim compares. -/
def bytesAt (fs : FS) (p : CPath) : Option String :=
  match lookupFS fs p with
  | some (.file fd) => some fd.data
  | _ => none

/-- No strict prefix of `p` is an existing file (so directory chains towards
`p` can be created). -/
abbrev AncestorsOk (fs : FS) (p : CPath) : Prop :=
  ∀ k, k < p.length → isFileFS fs (p.take k) = false

/-! ## Concrete sample states used to instantiate the theorems -/

def sampleFD : FileData := { data := "x", enc := "utf-8", mtime := 0, mode := 420 }

def emptyFS : FS := { entries := [], cwd := [], clock := 0 }

/-- A directory `d` holding a subdirectory `z` and a file `a.txt`. -/
def fsListing : FS :=
  { entries := [(["d"], .dir), (["d", "z"], .dir), (["d", "a.txt"], .file sampleFD)],
    cwd := [], clock := 1 }

/-- A single file `bab` at the root. -/
def fsBab : FS := { entries := [(["bab"], .file sampleFD)], cwd := [], clock := 1 }

/-- The spec's search scenario tree: `a.txt` and `sub/b.txt`. -/
def fsTree : FS :=
  { entries := [(["a.txt"], .file sampleFD), (["sub"], .dir), (["sub", "b.txt"], .file sampleFD)],
    cwd := [], clock := 1 }

/-- A file `a` and a directory `d` at the root. -/
def fsFileDir : FS :=
  { entries := [(["a"], .file sampleFD), (["d"], .dir)], cwd := [], clock := 1 }

/-- A directory `d` and a file `f` at the root. -/
def fsDirFile : FS :=
  { entries := [(["d"], .dir), (["f"], .file sampleFD)], cwd := [], clock := 1 }

/-- A non-empty directory `d` (contains the file `x`). -/
def fsNonempty : FS :=
  { entries := [(["d"], .dir), (["d", "x"], .file sampleFD)], cwd := [], clock := 1 }

/-! # Theorems -/

/-! ## Properties of the modelled `sorted` -/

theorem strLeB_total : ∀ a b, strLeB a b = true ∨ strLeB b a = true := by
  intro a
  induction a with
  | nil => intro b; left; rfl
  | cons x xs ih =>
    intro b
    cases b with
    | nil => right; rfl
    | cons y ys =>
      simp only [strLeB]
      by_cases h1 : x.toNat < y.toNat
      · left; simp [h1]
      · by_cases h2 : y.toNat < x.toNat
        · right; simp [h1, h2]
        · rcases ih ys with h | h
          · left; simp [h1, h2, h]
          · right; simp [h1, h2, h]

theorem strLeB_trans : ∀ a b c, strLeB a b = true → strLeB b c = true → strLeB a c = true := by
  intro a
  induction a with
  | nil => intro b c _ _; rfl
  | cons x xs ih =>
    intro b c hab hbc
    cases b with
    | nil => simp [strLeB] at hab
    | cons y ys =>
      cases c with
      | nil => simp [strLeB] at hbc
      | cons z zs =>
        simp only [strLeB] at hab hbc ⊢
        by_cases hxy : x.toNat < y.toNat
        · by_cases hyz : y.toNat < z.toNat
          · have hxz : x.toNat < z.toNat := by omega
            simp [hxz]
          · by_cases hzy : z.toNat < y.toNat
            · simp [hyz, hzy] at hbc
            · have hxz : x.toNat < z.toNat := by omega
              simp [hxz]
        · by_cases hyx : y.toNat < x.toNat
          · simp [hxy, hyx] at hab
          · by_cases hyz : y.toNat < z.toNat
            · have hxz : x.toNat < z.toNat := by omega
              simp [hxz]
            · by_cases hzy : z.toNat < y.toNat
              · simp [hyz, hzy] at hbc
              · have h1 : ¬ x.toNat < z.toNat := by omega
                have h2 : ¬ z.toNat < x.toNat := by omega
                simp [hxy, hyx] at hab
                simp [hyz, hzy] at hbc
                simp [h1, h2]
                exact ih ys zs hab hbc

theorem pyLe_total (a b : String) : pyLe a b = true ∨ pyLe b a = true :=
  strLeB_total a.data b.data

theorem pyLe_trans (a b c : String) (h1 : pyLe a b = true) (h2 : pyLe b c = true) :
    pyLe a c = true :=
  strLeB_trans a.data b.data c.data h1 h2

theorem insertSorted_perm (x : String) (l : List String) :
    List.Perm (insertSorted x l) (x :: l) := by
  induction l with
  | nil => simp [insertSorted]
  | cons y ys ih =>
    simp only [insertSorted]
    split
    · exact List.Perm.refl _
    · exact (List.Perm.cons y ih).trans (List.Perm.swap x y ys)

theorem pySorted_perm (l : List String) : List.Perm (pySorted l) l := by
  induction l with
  | nil => exact List.Perm.refl _
  | cons x xs ih =>
    exact (insertSorted_perm x (pySorted xs)).trans (List.Perm.cons x ih)

theorem insertSorted_pairwise (x : String) (l : List String)
    (h : List.Pairwise (fun a b => pyLe a b = true) l) :
    List.Pairwise (fun a b => pyLe a b = true) (insertSorted x l) := by
  induction l with
  | nil => simp [insertSorted]
  | cons y ys ih =>
    simp only [insertSorted]
    by_cases hxy : pyLe x y = true
    · simp only [hxy, if_true]
      refine List.pairwise_cons.mpr ⟨?_, h⟩
      intro b hb
      rcases List.mem_cons.mp hb with hb | hb
      · rw [hb]; exact hxy
      · exact pyLe_trans x y b hxy ((List.pairwise_cons.mp h).1 b hb)
    · simp only [hxy, if_false]
      refine List.pairwise_cons.mpr ⟨?_, ih (List.pairwise_cons.mp h).2⟩
      intro b hb
      rcases List.mem_cons.mp ((insertSorted_perm x ys).mem_iff.mp hb) with hb | hb
      · rw [hb]
        rcases pyLe_total x y with hxy' | hyx
        · exact absurd hxy' hxy
        · exact hyx
      · exact (List.pairwise_cons.mp h).1 b hb

theorem pySorted_pairwise (l : List String) :
    List.Pairwise (fun a b => pyLe a b = true) (pySorted l) := by
  induction l with
  | nil => simp [pySorted]
  | cons x xs ih => exact insertSorted_pairwise x (pySorted xs) ih

/-! ## C1 — the path resolver's sandbox test -/

/-- C1: the claim "whenever `safe_path(p, b)` succeeds, the result lies
strictly inside `b`" fails on the code.  The test is a raw string-prefix
check, so `safe_path("../barbaz", "/foo/bar")` succeeds and returns the
sibling `/foo/barbaz` (because the string `"/foo/barbaz"` starts with
`"/foo/bar"`), although `["foo","bar"]` is not a component-prefix of
`["foo","barbaz"]`; and `safe_path(".", "/foo/bar")` succeeds returning the
base itself, violating strictness.  This contradicts the function's own
docstring ("preventing directory traversal attacks") and its inline comment
("Ensure the target path is within the base path"): a code bug. -/
theorem C1_safe_path_escape :
    safe_path [] "../barbaz" (some "/foo/bar") = .ok ["foo", "barbaz"] ∧
    List.isPrefixOf ["foo", "bar"] ["foo", "barbaz"] = false ∧
    safe_path [] "." (some "/foo/bar") = .ok ["foo", "bar"] := by decide

/-! ## C7 — `_format_size` -/

/-- C7 (amended): for every byte count below `2^53` (the range where the
float loop is exact), `_format_size` scales to the first unit whose
pre-rounding value is below 1024 (PB unconditionally past TB) and renders
one correctly-rounded decimal; the pre-rounding value is below 1024 for
units up to TB, and the chosen unit is minimal.  (Due to rounding the
displayed value can still read `1024.0`, and above `1024^6` bytes the PB
value itself is at least 1024 — see the counterexample.) -/
theorem C7_format_size_amended (n : Nat) (_bound : n < 2 ^ 53) :
    _format_size n = fmtOneDec n (1024 ^ uIdx n) ++ " " ++ uName (uIdx n) ∧
    (uIdx n < 5 → n < 1024 ^ (uIdx n + 1)) ∧
    (0 < uIdx n → 1024 ^ uIdx n ≤ n) := by
  by_cases h0 : n < 1024
  · simp [_format_size, fsUnits, fmtSizeGo, uIdx, uName, h0]
  · by_cases h1 : n < 1048576
    · simp [_format_size, fsUnits, fmtSizeGo, uIdx, uName, h0, h1]
      omega
    · by_cases h2 : n < 1073741824
      · simp [_format_size, fsUnits, fmtSizeGo, uIdx, uName, h0, h1, h2]
        omega
      · by_cases h3 : n < 1099511627776
        · simp [_format_size, fsUnits, fmtSizeGo, uIdx, uName, h0, h1, h2, h3]
          omega
        · by_cases h4 : n < 1125899906842624
          · simp [_format_size, fsUnits, fmtSizeGo, uIdx, uName, h0, h1, h2, h3, h4]
            omega
          · simp [_format_size, fsUnits, fmtSizeGo, uIdx, uName, h0, h1, h2, h3, h4]
            exact ⟨by rw [String.append_assoc]; exact congrArg _ (by decide), by omega⟩

/-- Witness: the spec's own scenarios, through the theorem at 1536
(`"1.5 KB"`) and 0 (`"0.0 B"`). -/
theorem C7_format_size_amended_w :
    (1536 < 2 ^ 53 ∧
      _format_size 1536 = fmtOneDec 1536 (1024 ^ uIdx 1536) ++ " " ++ uName (uIdx 1536) ∧
      (uIdx 1536 < 5 → 1536 < 1024 ^ (uIdx 1536 + 1)) ∧
      (0 < uIdx 1536 → 1024 ^ uIdx 1536 ≤ 1536)) ∧
    _format_size 1536 = "1.5 KB" ∧ _format_size 0 = "0.0 B" :=
  ⟨⟨by norm_num, C7_format_size_amended 1536 (by norm_num)⟩, by decide, by decide⟩

/-- C7 (counterexample): at 1048535 bytes the code prints `"1024.0 KB"` —
the scaled KB value `1023.999…` rounds up to one decimal as `1024.0`, so the
displayed value is not strictly below 1024 as the claim requires
(`dispTenths` is the displayed number of tenths: 10240, i.e. 1024.0). -/
theorem C7_format_size_cex :
    _format_size 1048535 = "1024.0 KB" ∧ ¬ dispTenths 1048535 1024 < 10240 := by decide

/-! ## Pointwise evaluation lemmas for the state monad -/

theorem PyM_bind_eval {α β : Type} (m : PyM α) (f : α → PyM β) (fs : FS) :
    (m >>= f) fs =
      match m fs with
      | (.ok a, fs') => f a fs'
      | (.error e, fs') => (.error e, fs') := rfl

theorem PyM_bind_eval2 {α β : Type} (m : PyM α) (f : α → PyM β) (fs : FS) :
    PyM.bind m f fs =
      match m fs with
      | (.ok a, fs') => f a fs'
      | (.error e, fs') => (.error e, fs') := rfl

theorem getFS_eval (fs : FS) : (getFS : PyM FS) fs = (.ok fs, fs) := rfl

theorem PyM_pure_eval {α : Type} (a : α) (fs : FS) :
    (pure a : PyM α) fs = (.ok a, fs) := rfl

theorem isDir_exists {fs : FS} {p : CPath} (h : isDirFS fs p = true) :
    pathExistsFS fs p = true := by
  unfold isDirFS at h
  unfold pathExistsFS
  rcases hlk : lookupFS fs p with _ | e
  · rw [hlk] at h; simp at h
  · rfl

theorem isFile_exists {fs : FS} {p : CPath} (h : isFileFS fs p = true) :
    pathExistsFS fs p = true := by
  unfold isFileFS at h
  unfold pathExistsFS
  rcases hlk : lookupFS fs p with _ | e
  · rw [hlk] at h; simp at h
  · rfl

/-! ## Association-list lemmas -/

theorem lookupEntries_filter_keep (q : CPath) (f : CPath × Entry → Bool) :
    ∀ l : List (CPath × Entry), (∀ e : CPath × Entry, e.1 = q → f e = true) →
      lookupEntries q (l.filter f) = lookupEntries q l := by
  intro l
  induction l with
  | nil => intro _; rfl
  | cons e es ih =>
    intro hk
    by_cases he : e.1 = q
    · have : f e = true := hk e he
      simp [List.filter, this, lookupEntries, he]
    · by_cases hf : f e = true
      · simp [List.filter, hf, lookupEntries, he]
        exact ih (fun e' h' => hk e' h')
      · simp only [List.filter, Bool.not_eq_true] at hf ⊢
        rw [hf]
        rw [ih (fun e' h' => hk e' h')]
        simp [lookupEntries, he]

theorem lookupEntries_filter_out (q : CPath) (f : CPath × Entry → Bool) :
    ∀ l : List (CPath × Entry), (∀ e : CPath × Entry, e.1 = q → f e = false) →
      lookupEntries q (l.filter f) = none := by
  intro l
  induction l with
  | nil => intro _; rfl
  | cons e es ih =>
    intro hk
    by_cases he : e.1 = q
    · have : f e = false := hk e he
      simp only [List.filter, this]
      exact ih (fun e' h' => hk e' h')
    · by_cases hf : f e = true
      · simp [List.filter, hf, lookupEntries, he]
        exact ih (fun e' h' => hk e' h')
      · simp only [List.filter, Bool.not_eq_true] at hf ⊢
        rw [hf]
        exact ih (fun e' h' => hk e' h')

/-! ## C2 — no operation lets an exception escape -/

theorem IsErrMsg_append (pre rest : String) (h : IsErrMsg pre) :
    IsErrMsg (pre ++ rest) := by
  rcases h with ⟨t, ht⟩
  exact ⟨t ++ rest, by rw [ht, String.append_assoc]⟩

theorem pyTry_spec (m : PyM String) (h : PyExc → String)
    (herr : ∀ e, IsErrMsg (h e)) (fs : FS) :
    ∃ s fs', pyTry m h fs = (s, fs') ∧ ((m fs).1.isOk = false → IsErrMsg s) := by
  rcases hm : m fs with ⟨r, fs'⟩
  cases r with
  | ok s =>
    exact ⟨s, fs', by simp [pyTry, hm], by simp [hm, Except.isOk, Except.toBool]⟩
  | error e =>
    exact ⟨h e, fs', by simp [pyTry, hm], fun _ => herr e⟩

theorem jsonHandler_isErr (verb fp : String) (e : PyExc) :
    IsErrMsg (jsonHandler verb fp e) := by
  have hgen : ∀ m : String, IsErrMsg ("Error " ++ verb ++ " JSON file: " ++ m) := by
    intro m
    exact IsErrMsg_append _ m (IsErrMsg_append _ " JSON file: "
      (IsErrMsg_append _ verb ⟨" ", by decide⟩))
  cases e with
  | jsonError m =>
    exact IsErrMsg_append _ m (IsErrMsg_append _ "': "
      (IsErrMsg_append _ fp ⟨": Invalid JSON in file '", by decide⟩))
  | valueError m => exact hgen m
  | osError m => exact hgen m
  | unicodeError m => exact hgen m
  | shutilError m => exact hgen m

theorem toolHandler_isErr (c : ToolCall) (e : PyExc) : IsErrMsg (toolHandler c e) := by
  cases c with
  | readFile fp enc => exact IsErrMsg_append _ (pyStr e) ⟨" reading file: ", by decide⟩
  | writeFile fp ct enc cd => exact IsErrMsg_append _ (pyStr e) ⟨" writing file: ", by decide⟩
  | deleteFile fp => exact IsErrMsg_append _ (pyStr e) ⟨" deleting file: ", by decide⟩
  | listDirectory dp ih det => exact IsErrMsg_append _ (pyStr e) ⟨" listing directory: ", by decide⟩
  | createDirectory dp par => exact IsErrMsg_append _ (pyStr e) ⟨" creating directory: ", by decide⟩
  | deleteDirectory dp rec => exact IsErrMsg_append _ (pyStr e) ⟨" deleting directory: ", by decide⟩
  | searchFiles pat dir rec cs => exact IsErrMsg_append _ (pyStr e) ⟨" searching files: ", by decide⟩
  | getFileInfo fp => exact IsErrMsg_append _ (pyStr e) ⟨" getting file info: ", by decide⟩
  | copyFile sp dp ov => exact IsErrMsg_append _ (pyStr e) ⟨" copying file: ", by decide⟩
  | moveFile sp dp ov => exact IsErrMsg_append _ (pyStr e) ⟨" moving file: ", by decide⟩
  | formatJsonFile fp => exact jsonHandler_isErr "formatting" fp e
  | validateJsonFile fp => exact jsonHandler_isErr "validating" fp e

/-- C2: every registered file-system operation, on every input and state,
returns a string result (the dispatch is total), and whenever the
operation's body raised an exception the returned string is the descriptive
`"Error…"` message of its handler — no exception reaches the dispatcher. -/
theorem C2_tools_catch_all (ls : String) (c : ToolCall) (fs : FS) :
    ∃ s fs', dispatch ls c fs = (s, fs') ∧
      ((toolBody ls c fs).1.isOk = false → IsErrMsg s) :=
  pyTry_spec (toolBody ls c) (toolHandler c) (toolHandler_isErr c) fs

/-- Witness: the dispatcher on a concrete failing call (`delete_directory`
of a non-empty directory, whose body raises `OSError`). -/
theorem C2_tools_catch_all_w :
    ∃ s fs', dispatch "\n" (.deleteDirectory "d" false) fsNonempty = (s, fs') ∧
      ((toolBody "\n" (.deleteDirectory "d" false) fsNonempty).1.isOk = false → IsErrMsg s) :=
  C2_tools_catch_all "\n" (.deleteDirectory "d" false) fsNonempty

/-! ## C5 — `delete_directory` on a non-empty directory -/

/-- C5: on an existing non-empty directory, non-recursive deletion fails
(the `rmdir` raises "Directory not empty", caught and reported) and leaves
the state untouched, while recursive deletion reports success and removes
the directory together with everything under it, leaving every other path
untouched. -/
theorem C5_delete_directory (fs : FS) (dp : String)
    (hdir : isDirFS fs (canon fs.cwd dp) = true)
    (hroot : canon fs.cwd dp ≠ [])
    (hne : childrenFS fs (canon fs.cwd dp) ≠ []) :
    delete_directory dp false fs =
      ("Error deleting directory: " ++
        ("Directory not empty: '" ++ renderPath (canon fs.cwd dp) ++ "'"), fs) ∧
    delete_directory dp true fs =
      ("Successfully deleted directory '" ++ dp ++ "' and all its contents",
        removeTreeFS fs (canon fs.cwd dp)) ∧
    (∀ q, (canon fs.cwd dp).isPrefixOf q = true →
      lookupFS (removeTreeFS fs (canon fs.cwd dp)) q = none) ∧
    (∀ q, (canon fs.cwd dp).isPrefixOf q = false →
      lookupFS (removeTreeFS fs (canon fs.cwd dp)) q = lookupFS fs q) := by
  have hex := isDir_exists hdir
  have hemp : (childrenFS fs (canon fs.cwd dp)).isEmpty = false := by
    rcases h : childrenFS fs (canon fs.cwd dp) with _ | _
    · exact absurd h hne
    · rfl
  refine ⟨?_, ?_, ?_, ?_⟩
  · unfold delete_directory pyTry delete_directory_body
    simp only [PyM_bind_eval, getFS_eval, PyM_pure_eval, hex, hdir, osRmdir, hemp, pyStr,
      Bool.not_true, Bool.false_eq_true, if_false, Bool.true_eq_false]
  · unfold delete_directory pyTry delete_directory_body
    simp only [PyM_bind_eval, getFS_eval, PyM_pure_eval, hex, hdir, osRmtree,
      Bool.not_true, Bool.false_eq_true, if_false, if_true, Bool.true_eq_false]
  · intro q hq
    have hqne : q ≠ [] := by
      intro hq0
      rw [hq0] at hq
      rcases hp : canon fs.cwd dp with _ | ⟨a, t⟩
      · exact hroot hp
      · rw [hp] at hq
        simp [List.isPrefixOf] at hq
    unfold lookupFS removeTreeFS
    simp only [hqne, if_false]
    exact lookupEntries_filter_out q _ fs.entries (by
      intro e he
      simp only [Bool.not_eq_false']
      rw [he]
      exact hq)
  · intro q hq
    by_cases hq0 : q = []
    · unfold lookupFS removeTreeFS
      simp [hq0]
    · unfold lookupFS removeTreeFS
      simp only [hq0, if_false]
      exact lookupEntries_filter_keep q _ fs.entries (by
        intro e he
        simp only [Bool.not_eq_true']
        rw [he]
        exact hq)

/-! ## State-update lemmas for writes and directory creation -/

theorem lookupEntries_set (p : CPath) (v : Entry) :
    ∀ (l : List (CPath × Entry)) (q : CPath),
      lookupEntries q (setEntries p v l) = if q = p then some v else lookupEntries q l := by
  intro l
  induction l with
  | nil =>
    intro q
    by_cases h : q = p
    · simp [setEntries, lookupEntries, h]
    · have h' : ¬ p = q := fun hh => h hh.symm
      simp [setEntries, lookupEntries, h, h']
  | cons e es ih =>
    intro q
    by_cases hq : q = p
    · by_cases he : e.1 = p
      · simp [setEntries, lookupEntries, he, hq]
      · simp [setEntries, lookupEntries, he, hq, ih]
    · have hq' : ¬ p = q := fun hh => hq hh.symm
      by_cases he : e.1 = p
      · have hne : ¬ e.1 = q := by rw [he]; exact hq'
        simp [setEntries, lookupEntries, he, hq, hq', hne]
      · simp [setEntries, lookupEntries, he, hq, hq', ih]

theorem lookupFS_set (fs : FS) (p : CPath) (v : Entry) (hp : p ≠ []) (q : CPath) :
    lookupFS (setFS fs p v) q = if q = p then some v else lookupFS fs q := by
  by_cases hq : q = []
  · subst hq
    have : ¬ ([] : CPath) = p := fun h => hp h.symm
    simp [lookupFS, this]
  · simp [lookupFS, setFS, hq, lookupEntries_set]

theorem lookupFS_clock (fs : FS) (c : Nat) (q : CPath) :
    lookupFS { fs with clock := c } q = lookupFS fs q := rfl

theorem lookupFS_set_any (fs fs' : FS) (p : CPath) (v : Entry) (hp : p ≠ [])
    (hE : fs'.entries = setEntries p v fs.entries) (q : CPath) :
    lookupFS fs' q = if q = p then some v else lookupFS fs q := by
  by_cases hq : q = []
  · have hqp : ¬ q = p := by rw [hq]; exact fun h => hp h.symm
    unfold lookupFS
    simp [hq, hqp, hp]
  · unfold lookupFS
    simp only [hq, if_false]
    rw [hE, lookupEntries_set]

theorem ancestorChain_mem (r q : CPath) :
    q ∈ ancestorChain r ↔ ∃ k, k < r.length ∧ r.take (k + 1) = q := by
  unfold ancestorChain
  simp [List.mem_map, List.mem_range]

theorem mkDirsAll_spec : ∀ (ps : List CPath) (fs : FS),
    (∀ q ∈ ps, q ≠ []) → (∀ q ∈ ps, isFileFS fs q = false) →
    ∃ fs', mkDirsAll ps fs = (.ok (), fs') ∧
      fs'.cwd = fs.cwd ∧ fs'.clock = fs.clock ∧
      ∀ q, lookupFS fs' q =
        if q ∈ ps ∧ lookupFS fs q = none then some .dir else lookupFS fs q := by
  intro ps
  induction ps with
  | nil =>
    intro fs _ _
    refine ⟨fs, rfl, rfl, rfl, ?_⟩
    intro q
    simp
  | cons q0 rest ih =>
    intro fs hne hok
    have hq0ne : q0 ≠ [] := hne q0 (List.mem_cons_self _ _)
    rcases hlk : lookupFS fs q0 with _ | e
    · -- q0 absent: created
      rcases ih (setFS fs q0 .dir)
          (fun q hq => hne q (List.mem_cons_of_mem _ hq))
          (fun q hq => by
            rw [isFileFS, lookupFS_set fs q0 .dir hq0ne q]
            by_cases h : q = q0
            · simp [h]
            · simp only [h, if_false]
              exact hok q (List.mem_cons_of_mem _ hq)) with
        ⟨fs', hrun, hcwd, hclk, hdesc⟩
      refine ⟨fs', ?_, by rw [hcwd]; rfl, by rw [hclk]; rfl, ?_⟩
      · unfold mkDirsAll
        simp only [PyM_bind_eval2, mkOneDir, hlk]
        exact hrun
      · intro q
        rw [hdesc q, lookupFS_set fs q0 .dir hq0ne q]
        by_cases hq : q = q0
        · subst hq
          simp [hlk]
        · simp only [hq, if_false]
          by_cases hmem : q ∈ rest
          · simp [hmem, hq]
          · simp [hmem, hq]
    · cases e with
      | dir =>
        rcases ih fs (fun q hq => hne q (List.mem_cons_of_mem _ hq))
            (fun q hq => hok q (List.mem_cons_of_mem _ hq)) with
          ⟨fs', hrun, hcwd, hclk, hdesc⟩
        refine ⟨fs', ?_, hcwd, hclk, ?_⟩
        · unfold mkDirsAll
          simp only [PyM_bind_eval2, mkOneDir, hlk]
          exact hrun
        · intro q
          rw [hdesc q]
          by_cases hq : q = q0
          · subst hq
            simp [hlk]
          · by_cases hmem : q ∈ rest <;> simp [hmem, hq]
      | file fd =>
        have := hok q0 (List.mem_cons_self _ _)
        rw [isFileFS, hlk] at this
        simp at this

theorem openWrite_ok (ls : String) (p : CPath) (content enc : String) (fs : FS)
    (hp0 : p ≠ []) (hnd : isDirFS fs p = false)
    (hpar : lookupFS fs p.dropLast = some .dir) :
    ∃ fs' m, openWrite ls p content enc fs = (.ok (), fs') ∧
      fs'.cwd = fs.cwd ∧
      ∀ q, lookupFS fs' q =
        if q = p then
          some (.file { data := translNlS ls content, enc := enc, mtime := fs.clock, mode := m })
        else lookupFS fs q := by
  rcases hlk : lookupFS fs p with _ | e
  · refine ⟨FS.mk (setEntries p (.file ⟨translNlS ls content, enc, fs.clock, 420⟩) fs.entries)
        fs.cwd (fs.clock + 1), 420, ?_, rfl, ?_⟩
    · unfold openWrite
      simp [hp0, hlk, hpar, setFS]
    · intro q
      exact lookupFS_set_any fs _ p _ hp0 rfl q
  · cases e with
    | dir => rw [isDirFS, hlk] at hnd; simp at hnd
    | file fd =>
      refine ⟨FS.mk (setEntries p (.file ⟨translNlS ls content, enc, fs.clock, fd.mode⟩) fs.entries)
          fs.cwd (fs.clock + 1), fd.mode, ?_, rfl, ?_⟩
      · unfold openWrite
        simp [hp0, hlk, setFS]
      · intro q
        exact lookupFS_set_any fs _ p _ hp0 rfl q

theorem read_file_of_file (fs : FS) (file_path enc : String) (fd : FileData)
    (hlk : lookupFS fs (canon fs.cwd file_path) = some (.file fd))
    (henc : fd.enc = enc) :
    read_file file_path enc fs = (univNlS fd.data, fs) := by
  unfold read_file pyTry read_file_body
  simp [PyM_bind_eval, getFS_eval, PyM_pure_eval, pathExistsFS, isFileFS, hlk,
    openRead, henc]

/-! ## Newline round-trip lemmas -/

theorem univNl_nl (r : List Char) : univNl ('\n' :: r) = '\n' :: univNl r := by
  cases r <;> simp [univNl]

theorem univNl_ne (c : Char) (hc : c ≠ '\r') (r : List Char) :
    univNl (c :: r) = c :: univNl r := by
  cases r <;> simp [univNl, hc]

theorem univNl_crnl (r : List Char) : univNl ('\r' :: '\n' :: r) = '\n' :: univNl r := by
  simp [univNl]

theorem univ_transl (ls : List Char) (hls : ls = ['\n'] ∨ ls = ['\r', '\n']) :
    ∀ cs : List Char, '\r' ∉ cs → univNl (translNl ls cs) = cs := by
  intro cs
  induction cs with
  | nil => intro _; rfl
  | cons c r ih =>
    intro hcr
    have hcr' : '\r' ∉ r := fun h => hcr (List.mem_cons_of_mem _ h)
    have hcne : c ≠ '\r' := fun h => hcr (h ▸ List.mem_cons_self _ _)
    by_cases hc : c = '\n'
    · subst hc
      rcases hls with h | h <;> subst h
      · simp [translNl, univNl_nl, ih hcr']
      · simp [translNl, univNl_crnl, ih hcr']
    · simp [translNl, hc, univNl_ne c hcne, ih hcr']

/-! ## C3 — write-then-read round trip -/

/-- C3 (amended): for every path, encoding and content string that contains
no carriage return — and whose target location admits the write (no ancestor
is an existing file, the target itself is not a directory) —
`write_file(..., create_dirs=True)` succeeds and a `read_file` of the same
path with the same encoding returns exactly the original content.  (For
contents with `'\r'` the text-mode round trip rewrites them — see the
counterexample.) -/
theorem C3_write_read_roundtrip (ls : String) (fs : FS) (file_path content enc : String)
    (hls : NlOk ls) (hcr : NoCR content)
    (hanc : AncestorsOk fs (canon fs.cwd file_path))
    (hnd : isDirFS fs (canon fs.cwd file_path) = false) :
    ∃ fs', write_file ls file_path content enc true fs =
        ("Successfully wrote " ++ natStr content.length ++ " characters to '" ++ file_path ++ "'", fs') ∧
      read_file file_path enc fs' = (content, fs') := by
  set p : CPath := canon fs.cwd file_path with hpdef
  have hp0 : p ≠ [] := by
    intro h
    rw [h] at hnd
    simp [isDirFS, lookupFS] at hnd
  have hplen : 0 < p.length := List.length_pos.mpr hp0
  have hneChain : ∀ q ∈ ancestorChain p.dropLast, q ≠ [] := by
    intro q hq h0
    rcases (ancestorChain_mem _ _).mp hq with ⟨k, hk, hkeq⟩
    rw [h0] at hkeq
    rcases List.take_eq_nil_iff.mp hkeq with h | h
    · omega
    · rw [h] at hk
      simp at hk
  have hokChain : ∀ q ∈ ancestorChain p.dropLast, isFileFS fs q = false := by
    intro q hq
    rcases (ancestorChain_mem _ _).mp hq with ⟨k, hk, hkeq⟩
    have hlen : p.dropLast.length = p.length - 1 := List.length_dropLast p
    have h1 : p.dropLast.take (k + 1) = p.take (k + 1) := by
      rw [List.dropLast_eq_take, List.take_take]
      congr 1
      omega
    rw [← hkeq, h1]
    exact hanc (k + 1) (by omega)
  rcases mkDirsAll_spec (ancestorChain p.dropLast) fs hneChain hokChain with
    ⟨fs1, hrun1, hcwd1, hclk1, hdesc1⟩
  have hself : p ∉ ancestorChain p.dropLast := by
    intro hmem
    rcases (ancestorChain_mem _ _).mp hmem with ⟨k, hk, hkeq⟩
    have hlt : (p.dropLast.take (k + 1)).length < p.length := by
      rw [List.length_take]
      have := List.length_dropLast p
      omega
    rw [hkeq] at hlt
    exact lt_irrefl _ hlt
  have hlkp1 : lookupFS fs1 p = lookupFS fs p := by
    rw [hdesc1 p, if_neg (fun hcon => hself hcon.1)]
  have hnd1 : isDirFS fs1 p = false := by
    unfold isDirFS at hnd ⊢
    rw [hlkp1]
    exact hnd
  have hpar1 : lookupFS fs1 p.dropLast = some .dir := by
    by_cases hdl : p.dropLast = []
    · rw [hdl]
      simp [lookupFS]
    · have hdlen : 0 < p.dropLast.length := List.length_pos.mpr hdl
      have hmem : p.dropLast ∈ ancestorChain p.dropLast := by
        rw [ancestorChain_mem]
        refine ⟨p.dropLast.length - 1, by omega, ?_⟩
        have : p.dropLast.length - 1 + 1 = p.dropLast.length := by omega
        rw [this, List.take_length]
      have hnotfile : isFileFS fs p.dropLast = false := by
        rw [List.dropLast_eq_take]
        exact hanc (p.length - 1) (by omega)
      rw [hdesc1 p.dropLast]
      rcases hdl2 : lookupFS fs p.dropLast with _ | e2
      · rw [if_pos ⟨hmem, rfl⟩]
      · cases e2 with
        | dir =>
          rw [if_neg (fun hcon => by cases hcon.2)]
        | file fd2 =>
          rw [isFileFS, hdl2] at hnotfile
          simp at hnotfile
  rcases openWrite_ok ls p content enc fs1 hp0 hnd1 hpar1 with ⟨fs2, m, hw, hcwd2, hdesc2⟩
  refine ⟨fs2, ?_, ?_⟩
  · unfold write_file pyTry write_file_body mkdirParents
    simp only [PyM_bind_eval, getFS_eval, PyM_pure_eval, if_true, ← hpdef, hrun1, hw]
  · have hlk2 : lookupFS fs2 p =
        some (.file { data := translNlS ls content, enc := enc, mtime := fs1.clock, mode := m }) := by
      rw [hdesc2 p]
      simp
    have hcwd2' : fs2.cwd = fs.cwd := by rw [hcwd2, hcwd1]
    have hnl : univNlS (translNlS ls content) = content := by
      unfold univNlS translNlS
      have hld : ls.data = ['\n'] ∨ ls.data = ['\r', '\n'] := by
        rcases hls with h | h <;> rw [h]
        · exact Or.inl rfl
        · exact Or.inr rfl
      rcases content with ⟨cl⟩
      have : univNl (translNl ls.data cl) = cl := univ_transl ls.data hld cl hcr
      simp only [this]
    have hread := read_file_of_file fs2 file_path enc _
      (by rw [hcwd2', ← hpdef]; exact hlk2) rfl
    rw [hread, hnl]

/-- Witness: the spec's scenario — `write("a/b/c.txt", "hi", create_dirs=True)`
then `read("a/b/c.txt")` yields `"hi"` (on the empty state). -/
theorem C3_write_read_roundtrip_w :
    (NlOk "\n" ∧ NoCR "hi" ∧ AncestorsOk emptyFS (canon emptyFS.cwd "a/b/c.txt") ∧
      isDirFS emptyFS (canon emptyFS.cwd "a/b/c.txt") = false) ∧
    (∃ fs', write_file "\n" "a/b/c.txt" "hi" "utf-8" true emptyFS =
        ("Successfully wrote " ++ natStr "hi".length ++ " characters to '" ++ "a/b/c.txt" ++ "'", fs') ∧
      read_file "a/b/c.txt" "utf-8" fs' = ("hi", fs')) :=
  ⟨⟨Or.inl rfl, by decide, by decide, by decide⟩,
    C3_write_read_roundtrip "\n" emptyFS "a/b/c.txt" "hi" "utf-8"
      (Or.inl rfl) (by decide) (by decide) (by decide)⟩

/-- C3 (counterexample): the claim fails for contents containing a carriage
return — writing `"a\r"` and reading it back yields `"a\n"` (universal
newlines translate the lone CR on read). -/
theorem C3_write_read_cex :
    (read_file "p" "utf-8" (write_file "\n" "p" "a\r" "utf-8" true emptyFS).2).1 = "a\n" ∧
    "a\n" ≠ "a\r" := by decide

/-! ## Further state lemmas: membership, parent creation, renaming -/

theorem mem_setEntries (p : CPath) (v : Entry) :
    ∀ (l : List (CPath × Entry)) (e : CPath × Entry),
      e ∈ setEntries p v l → e = (p, v) ∨ e ∈ l := by
  intro l
  induction l with
  | nil =>
    intro e he
    simp [setEntries] at he
    exact Or.inl he
  | cons f fl ih =>
    intro e he
    by_cases hf : f.1 = p
    · simp only [setEntries, hf, if_true] at he
      rcases List.mem_cons.mp he with h | h
      · exact Or.inl h
      · exact Or.inr (List.mem_cons_of_mem _ h)
    · simp only [setEntries, hf, if_false] at he
      rcases List.mem_cons.mp he with h | h
      · exact Or.inr (h ▸ List.mem_cons_self _ _)
      · rcases ih e h with h' | h'
        · exact Or.inl h'
        · exact Or.inr (List.mem_cons_of_mem _ h')

theorem mkDirsAll_mem : ∀ (ps : List CPath) (fs fs' : FS),
    mkDirsAll ps fs = (.ok (), fs') →
    ∀ e ∈ fs'.entries, e ∈ fs.entries ∨ e.1 ∈ ps := by
  intro ps
  induction ps with
  | nil =>
    intro fs fs' hrun e he
    cases hrun
    exact Or.inl he
  | cons q0 rest ih =>
    intro fs fs' hrun e he
    unfold mkDirsAll at hrun
    rw [PyM_bind_eval2] at hrun
    rcases hlk : lookupFS fs q0 with _ | e0
    · rw [mkOneDir, hlk] at hrun
      rcases ih _ _ hrun e he with h | h
      · unfold setFS at h
        rcases mem_setEntries q0 .dir _ e h with h' | h'
        · exact Or.inr (by rw [h']; exact List.mem_cons_self _ _)
        · exact Or.inl h'
      · exact Or.inr (List.mem_cons_of_mem _ h)
    · cases e0 with
      | dir =>
        rw [mkOneDir, hlk] at hrun
        rcases ih _ _ hrun e he with h | h
        · exact Or.inl h
        · exact Or.inr (List.mem_cons_of_mem _ h)
      | file fd =>
        rw [mkOneDir, hlk] at hrun
        cases hrun

theorem mem_ancestorChain_length {r q : CPath} (h : q ∈ ancestorChain r) :
    0 < q.length ∧ q.length ≤ r.length := by
  rcases (ancestorChain_mem _ _).mp h with ⟨k, hk, heq⟩
  rw [← heq, List.length_take]
  omega

theorem mem_ancestorChain_leads {r q : CPath} (h : q ∈ ancestorChain r) :
    q <+: r := by
  rcases (ancestorChain_mem _ _).mp h with ⟨k, _, heq⟩
  rw [← heq]
  exact List.take_prefix _ _

/-- `path.parent.mkdir(parents=True, exist_ok=True)` under "no ancestor is a
file": it succeeds, leaves the parent of `p` a directory, only turns absent
chain locations into directories, and adds no other entries. -/
theorem mkdirParents_spec (fs : FS) (p : CPath) (hp0 : p ≠ [])
    (hanc : AncestorsOk fs p) :
    ∃ fs', mkDirsAll (ancestorChain p.dropLast) fs = (.ok (), fs') ∧
      fs'.cwd = fs.cwd ∧ fs'.clock = fs.clock ∧
      lookupFS fs' p.dropLast = some .dir ∧
      (∀ q, lookupFS fs' q =
        if q ∈ ancestorChain p.dropLast ∧ lookupFS fs q = none then some .dir
        else lookupFS fs q) ∧
      (∀ e ∈ fs'.entries, e ∈ fs.entries ∨ e.1 ∈ ancestorChain p.dropLast) := by
  have hplen : 0 < p.length := List.length_pos.mpr hp0
  have hneChain : ∀ q ∈ ancestorChain p.dropLast, q ≠ [] := by
    intro q hq h0
    have := (mem_ancestorChain_length hq).1
    rw [h0] at this
    simp at this
  have hokChain : ∀ q ∈ ancestorChain p.dropLast, isFileFS fs q = false := by
    intro q hq
    rcases (ancestorChain_mem _ _).mp hq with ⟨k, hk, hkeq⟩
    have hlen : p.dropLast.length = p.length - 1 := List.length_dropLast p
    have h1 : p.dropLast.take (k + 1) = p.take (k + 1) := by
      rw [List.dropLast_eq_take, List.take_take]
      congr 1
      omega
    rw [← hkeq, h1]
    exact hanc (k + 1) (by omega)
  rcases mkDirsAll_spec (ancestorChain p.dropLast) fs hneChain hokChain with
    ⟨fs1, hrun1, hcwd1, hclk1, hdesc1⟩
  refine ⟨fs1, hrun1, hcwd1, hclk1, ?_, hdesc1, mkDirsAll_mem _ _ _ hrun1⟩
  by_cases hdl : p.dropLast = []
  · rw [hdl]
    simp [lookupFS]
  · have hdlen : 0 < p.dropLast.length := List.length_pos.mpr hdl
    have hmem : p.dropLast ∈ ancestorChain p.dropLast := by
      rw [ancestorChain_mem]
      refine ⟨p.dropLast.length - 1, by omega, ?_⟩
      have h2 : p.dropLast.length - 1 + 1 = p.dropLast.length := by omega
      rw [h2, List.take_length]
    have hnotfile : isFileFS fs p.dropLast = false := by
      rw [List.dropLast_eq_take]
      exact hanc (p.length - 1) (by omega)
    rw [hdesc1 p.dropLast]
    rcases hdl2 : lookupFS fs p.dropLast with _ | e2
    · rw [if_pos ⟨hmem, rfl⟩]
    · cases e2 with
      | dir => rw [if_neg (fun hcon => by cases hcon.2)]
      | file fd2 =>
        rw [isFileFS, hdl2] at hnotfile
        simp at hnotfile

theorem lookupEntries_map_rename (src dst rel : CPath) :
    ∀ l : List (CPath × Entry), (∀ e ∈ l, dst.isPrefixOf e.1 = false) →
      lookupEntries (dst ++ rel)
        (l.map (fun e => if src.isPrefixOf e.1 then (dst ++ e.1.drop src.length, e.2) else e)) =
      lookupEntries (src ++ rel) l := by
  intro l
  induction l with
  | nil => intro _; rfl
  | cons e es ih =>
    intro hclean
    have hce := hclean e (List.mem_cons_self _ _)
    have ihr := ih (fun e' he' => hclean e' (List.mem_cons_of_mem _ he'))
    by_cases hpre : src.isPrefixOf e.1
    · rcases List.isPrefixOf_iff_prefix.mp hpre with ⟨t, ht⟩
      have hdrop : e.1.drop src.length = t := by rw [← ht]; exact List.drop_left src t
      simp only [List.map, hpre, if_true, lookupEntries, hdrop]
      by_cases heq : t = rel
      · subst heq
        simp [← ht]
      · have h1 : ¬ (dst ++ t = dst ++ rel) := fun h => heq (List.append_cancel_left h)
        have h2 : ¬ (e.1 = src ++ rel) := by
          rw [← ht]
          exact fun h => heq (List.append_cancel_left h)
        simp only [h1, h2, if_false]
        exact ihr
    · have h1 : ¬ (e.1 = dst ++ rel) := by
        intro h
        have : dst.isPrefixOf e.1 = true := by
          rw [h]
          exact List.isPrefixOf_iff_prefix.mpr ⟨rel, rfl⟩
        rw [this] at hce
        cases hce
      have h2 : ¬ (e.1 = src ++ rel) := by
        intro h
        exact hpre (by rw [h]; exact List.isPrefixOf_iff_prefix.mpr ⟨rel, rfl⟩)
      simp only [List.map, hpre, Bool.false_eq_true, if_false, lookupEntries, h1, h2]
      exact ihr

theorem lookupEntries_map_rename_gone (src dst q : CPath)
    (hq : src.isPrefixOf q = true) (hnc : dst.isPrefixOf q = false) :
    ∀ l : List (CPath × Entry),
      lookupEntries q
        (l.map (fun e => if src.isPrefixOf e.1 then (dst ++ e.1.drop src.length, e.2) else e)) =
      none := by
  intro l
  induction l with
  | nil => rfl
  | cons e es ih =>
    by_cases hpre : src.isPrefixOf e.1
    · have h1 : ¬ (dst ++ e.1.drop src.length = q) := by
        intro h
        have : dst.isPrefixOf q = true := by
          rw [← h]
          exact List.isPrefixOf_iff_prefix.mpr ⟨_, rfl⟩
        rw [this] at hnc
        cases hnc
      simp only [List.map, hpre, if_true, lookupEntries, h1, if_false]
      exact ih
    · have h1 : ¬ (e.1 = q) := by
        intro h
        exact hpre (by rw [h]; exact hq)
      simp only [List.map, hpre, Bool.false_eq_true, if_false, lookupEntries, h1]
      exact ih

/-- Witness for C5 at a concrete non-empty directory. -/
theorem C5_delete_directory_w :
    (isDirFS fsNonempty (canon fsNonempty.cwd "d") = true ∧
      canon fsNonempty.cwd "d" ≠ [] ∧
      childrenFS fsNonempty (canon fsNonempty.cwd "d") ≠ []) ∧
    (delete_directory "d" false fsNonempty =
      ("Error deleting directory: " ++
        ("Directory not empty: '" ++ renderPath (canon fsNonempty.cwd "d") ++ "'"), fsNonempty) ∧
    delete_directory "d" true fsNonempty =
      ("Successfully deleted directory 'd' and all its contents",
        removeTreeFS fsNonempty (canon fsNonempty.cwd "d")) ∧
    (∀ q, (canon fsNonempty.cwd "d").isPrefixOf q = true →
      lookupFS (removeTreeFS fsNonempty (canon fsNonempty.cwd "d")) q = none) ∧
    (∀ q, (canon fsNonempty.cwd "d").isPrefixOf q = false →
      lookupFS (removeTreeFS fsNonempty (canon fsNonempty.cwd "d")) q = lookupFS fsNonempty q)) :=
  ⟨⟨by decide, by decide, by decide⟩,
    C5_delete_directory fsNonempty "d" (by decide) (by decide) (by decide)⟩

/-! ## C4 — `copy_file` -/

/-- C4 (amended): for a source that is an existing file and a destination
that differs from it, is not an existing directory, and has no existing file
among its ancestors: with `overwrite=False` onto an existing destination the
copy fails with the "already exists" message and the state (so in particular
the destination) is unmodified; with `overwrite=True` the copy reports
success, the destination afterwards holds the source's exact `FileData`
(bytes, codec, `st_mtime`, `st_mode` — byte-for-byte with metadata
preserved), and the destination's parent directory exists.  (When the
destination is an existing directory the code instead copies *into* it —
see the counterexample; copying a file onto itself errors.) -/
theorem C4_copy_file (fs : FS) (source_path destination_path : String)
    (hsrc : isFileFS fs (canon fs.cwd source_path) = true)
    (hne : ¬ canon fs.cwd destination_path = canon fs.cwd source_path)
    (hnd : isDirFS fs (canon fs.cwd destination_path) = false)
    (hanc : AncestorsOk fs (canon fs.cwd destination_path)) :
    (pathExistsFS fs (canon fs.cwd destination_path) = true →
      copy_file source_path destination_path false fs =
        ("Error: Destination '" ++ destination_path ++ "' already exists. Use overwrite=True to replace it", fs)) ∧
    (∃ fs' fd, lookupFS fs (canon fs.cwd source_path) = some (.file fd) ∧
      copy_file source_path destination_path true fs =
        ("Successfully copied '" ++ source_path ++ "' to '" ++ destination_path ++ "'", fs') ∧
      lookupFS fs' (canon fs.cwd destination_path) = some (.file fd) ∧
      isDirFS fs' (canon fs.cwd destination_path).dropLast = true) := by
  set src : CPath := canon fs.cwd source_path with hsdef
  set dst : CPath := canon fs.cwd destination_path with hddef
  have hsex : pathExistsFS fs src = true := isFile_exists hsrc
  obtain ⟨fd, hfd⟩ : ∃ fd, lookupFS fs src = some (.file fd) := by
    unfold isFileFS at hsrc
    rcases h : lookupFS fs src with _ | e
    · rw [h] at hsrc; simp at hsrc
    · cases e with
      | file fd => exact ⟨fd, rfl⟩
      | dir => rw [h] at hsrc; simp at hsrc
  have hd0 : dst ≠ [] := by
    intro h
    rw [h] at hnd
    simp [isDirFS, lookupFS] at hnd
  constructor
  · intro hdex
    unfold copy_file pyTry copy_file_body
    simp only [PyM_bind_eval, getFS_eval, PyM_pure_eval, ← hsdef, ← hddef, hsex, hsrc, hdex,
      Bool.not_true, Bool.not_false, Bool.and_true, Bool.false_eq_true, if_false, if_true]
  · rcases mkdirParents_spec fs dst hd0 hanc with ⟨fs1, hrun1, hcwd1, hclk1, hpar1, hdesc1, hmem1⟩
    have hdst_notchain : dst ∉ ancestorChain dst.dropLast := by
      intro h
      have h2 := (mem_ancestorChain_length h).2
      have h3 := List.length_dropLast dst
      have h4 := List.length_pos.mpr hd0
      omega
    have hlkd1 : lookupFS fs1 dst = lookupFS fs dst := by
      rw [hdesc1 dst, if_neg (fun hcon => hdst_notchain hcon.1)]
    have hlks1 : lookupFS fs1 src = some (.file fd) := by
      rw [hdesc1 src, if_neg (fun hcon => by rw [hfd] at hcon; cases hcon.2)]
      exact hfd
    have hdl_ne : ¬ (dst.dropLast = dst) := by
      intro h
      have h2 := congrArg List.length h
      have h3 := List.length_dropLast dst
      have h4 := List.length_pos.mpr hd0
      omega
    have hcopy : shutilCopy2 src dst fs1 = (.ok (), setFS fs1 dst (.file fd)) := by
      unfold shutilCopy2
      rcases hdd : lookupFS fs dst with _ | e
      · simp only [hlkd1, hdd, hne, Bool.false_eq_true, if_false, hlks1, hpar1]
      · cases e with
        | dir => rw [isDirFS, hdd] at hnd; simp at hnd
        | file f2 =>
          simp only [hlkd1, hdd, hne, Bool.false_eq_true, if_false, hlks1, hpar1]
    refine ⟨setFS fs1 dst (.file fd), fd, hfd, ?_, ?_, ?_⟩
    · unfold copy_file pyTry copy_file_body mkdirParents
      simp only [PyM_bind_eval, getFS_eval, PyM_pure_eval, ← hsdef, ← hddef, hsex, hsrc,
        Bool.not_true, Bool.not_false, Bool.and_false, Bool.false_eq_true, if_false,
        hrun1, hcopy]
    · rw [lookupFS_set fs1 dst _ hd0]
      simp
    · unfold isDirFS
      rw [lookupFS_set fs1 dst _ hd0, if_neg hdl_ne, hpar1]

/-- Witness for C4: source file `a`, absent destination `b`. -/
theorem C4_copy_file_w :
    (isFileFS fsFileDir (canon fsFileDir.cwd "a") = true ∧
      ¬ canon fsFileDir.cwd "b" = canon fsFileDir.cwd "a" ∧
      isDirFS fsFileDir (canon fsFileDir.cwd "b") = false ∧
      AncestorsOk fsFileDir (canon fsFileDir.cwd "b")) ∧
    ((pathExistsFS fsFileDir (canon fsFileDir.cwd "b") = true →
      copy_file "a" "b" false fsFileDir =
        ("Error: Destination '" ++ "b" ++ "' already exists. Use overwrite=True to replace it", fsFileDir)) ∧
    (∃ fs' fd, lookupFS fsFileDir (canon fsFileDir.cwd "a") = some (.file fd) ∧
      copy_file "a" "b" true fsFileDir =
        ("Successfully copied '" ++ "a" ++ "' to '" ++ "b" ++ "'", fs') ∧
      lookupFS fs' (canon fsFileDir.cwd "b") = some (.file fd) ∧
      isDirFS fs' (canon fsFileDir.cwd "b").dropLast = true)) :=
  ⟨⟨by decide, by decide, by decide, by decide⟩,
    C4_copy_file fsFileDir "a" "b" (by decide) (by decide) (by decide) (by decide)⟩

/-- C4 (counterexample): with `overwrite=True` onto an existing *directory*,
the code reports success but the destination is not a byte-for-byte copy of
the source — it is still a directory, and the copy landed inside it
(`shutil.copy2` semantics). -/
theorem C4_copy_file_cex :
    (copy_file "a" "d" true fsFileDir).1 = "Successfully copied 'a' to 'd'" ∧
    lookupFS (copy_file "a" "d" true fsFileDir).2 ["d"] = some .dir ∧
    lookupFS (copy_file "a" "d" true fsFileDir).2 ["d", "a"] = some (.file sampleFD) := by
  decide

/-! ## C10 — `move_file` accepts directory sources, `copy_file` does not -/

/-- C10 (amended): a directory source with an *absent* destination (no
ancestor conflicts, neither path under the other, nothing stored under the
destination): `move_file` relocates the whole subtree and reports success —
for either value of `overwrite` — while `copy_file` on the same call fails
with the "is not a file" error leaving the state unchanged: the two
operations check different preconditions.  (With `overwrite=True` and an
existing *file* destination the move errors instead — see the
counterexample.) -/
theorem C10_move_dir_copy_fails (fs : FS) (source_path destination_path : String) (ov : Bool)
    (hsrc : isDirFS fs (canon fs.cwd source_path) = true)
    (hd0 : canon fs.cwd destination_path ≠ [])
    (hclean : ∀ e ∈ fs.entries, (canon fs.cwd destination_path).isPrefixOf e.1 = false)
    (hanc : AncestorsOk fs (canon fs.cwd destination_path))
    (hp1 : (canon fs.cwd source_path).isPrefixOf (canon fs.cwd destination_path) = false)
    (hp2 : (canon fs.cwd destination_path).isPrefixOf (canon fs.cwd source_path) = false) :
    (∃ fs', move_file source_path destination_path ov fs =
        ("Successfully moved '" ++ source_path ++ "' to '" ++ destination_path ++ "'", fs') ∧
      isDirFS fs' (canon fs.cwd destination_path) = true ∧
      (∀ rel, lookupFS fs' (canon fs.cwd destination_path ++ rel) =
        lookupFS fs (canon fs.cwd source_path ++ rel)) ∧
      (∀ q, (canon fs.cwd source_path).isPrefixOf q = true → lookupFS fs' q = none)) ∧
    copy_file source_path destination_path ov fs =
      ("Error: Source '" ++ source_path ++ "' is not a file", fs) := by
  set src : CPath := canon fs.cwd source_path with hsdef
  set dst : CPath := canon fs.cwd destination_path with hddef
  have hsex : pathExistsFS fs src = true := isDir_exists hsrc
  have hs0 : src ≠ [] := by
    intro h
    rw [h] at hp1
    simp [List.isPrefixOf] at hp1
  obtain hdir : lookupFS fs src = some .dir := by
    unfold isDirFS at hsrc
    rcases h : lookupFS fs src with _ | e
    · rw [h] at hsrc; simp at hsrc
    · cases e with
      | dir => rfl
      | file fd => rw [h] at hsrc; simp at hsrc
  have habs : lookupFS fs dst = none := by
    unfold lookupFS
    simp only [hd0, if_false]
    have hgen : ∀ l : List (CPath × Entry), (∀ e ∈ l, dst.isPrefixOf e.1 = false) →
        lookupEntries dst l = none := by
      intro l
      induction l with
      | nil => intro _; rfl
      | cons e es ih =>
        intro hc
        have h1 : ¬ (e.1 = dst) := by
          intro h
          have h2 := hc e (List.mem_cons_self _ _)
          rw [h, List.isPrefixOf_iff_prefix.mpr (List.prefix_refl dst)] at h2
          cases h2
        simp only [lookupEntries, h1, if_false]
        exact ih (fun e' he' => hc e' (List.mem_cons_of_mem _ he'))
    exact hgen fs.entries hclean
  rcases mkdirParents_spec fs dst hd0 hanc with ⟨fs1, hrun1, hcwd1, hclk1, hpar1, hdesc1, hmem1⟩
  have hchain_pre : ∀ q ∈ ancestorChain dst.dropLast, q <+: dst := by
    intro q hq
    exact (mem_ancestorChain_leads hq).trans (List.dropLast_prefix dst)
  have hdst_notchain : dst ∉ ancestorChain dst.dropLast := by
    intro h
    have h2 := (mem_ancestorChain_length h).2
    have h3 := List.length_dropLast dst
    have h4 := List.length_pos.mpr hd0
    omega
  have hlkd1 : lookupFS fs1 dst = none := by
    rw [hdesc1 dst, if_neg (fun hcon => hdst_notchain hcon.1)]
    exact habs
  have hlks1 : ∀ rel, lookupFS fs1 (src ++ rel) = lookupFS fs (src ++ rel) := by
    intro rel
    rw [hdesc1 (src ++ rel)]
    rcases h : lookupFS fs (src ++ rel) with _ | e
    · rw [if_neg]
      intro hcon
      have hpre := hchain_pre _ hcon.1
      have hsd : src <+: dst := (List.prefix_append src rel).trans hpre
      rw [List.isPrefixOf_iff_prefix.mpr hsd] at hp1
      cases hp1
    · rw [if_neg (fun hcon => by cases hcon.2)]
  have hsrc1 : lookupFS fs1 src = some .dir := by
    have h := hlks1 []
    rw [List.append_nil] at h
    rw [h, hdir]
  have hclean1 : ∀ e ∈ fs1.entries, dst.isPrefixOf e.1 = false := by
    intro e he
    rcases hmem1 e he with h | h
    · exact hclean e h
    · by_cases hb : dst.isPrefixOf e.1
      · exfalso
        have hlen := List.IsPrefix.length_le (List.isPrefixOf_iff_prefix.mp hb)
        have h2 := (mem_ancestorChain_length h).2
        have h3 := List.length_dropLast dst
        have h4 := List.length_pos.mpr hd0
        omega
      · exact Bool.eq_false_iff.mpr hb
  have hex1 : pathExistsFS fs1 src = true := by
    unfold pathExistsFS
    rw [hsrc1]
    rfl
  have hmove : shutilMove src dst fs1 = (.ok (), renameFS fs1 src dst) := by
    unfold shutilMove
    simp only [hex1, Bool.not_true, Bool.false_eq_true, if_false, hlkd1, hp1, hpar1]
  have hA : ∀ rel, lookupFS (renameFS fs1 src dst) (dst ++ rel) = lookupFS fs (src ++ rel) := by
    intro rel
    have hd' : ¬ (dst ++ rel = []) := by
      cases hdx : dst with
      | nil => exact absurd hdx hd0
      | cons a t => simp
    have hs' : ¬ (src ++ rel = []) := by
      cases hsx : src with
      | nil => exact absurd hsx hs0
      | cons a t => simp
    have h1 : lookupFS (renameFS fs1 src dst) (dst ++ rel) = lookupFS fs1 (src ++ rel) := by
      simp only [renameFS, lookupFS, hd', hs', if_false]
      exact lookupEntries_map_rename src dst rel fs1.entries hclean1
    rw [h1, hlks1 rel]
  have hB : ∀ q, src.isPrefixOf q = true → lookupFS (renameFS fs1 src dst) q = none := by
    intro q hq
    have hq0 : ¬ (q = []) := by
      intro h
      rw [h] at hq
      cases hsx : src with
      | nil => exact hs0 hsx
      | cons a t => rw [hsx] at hq; simp [List.isPrefixOf] at hq
    have hnc : dst.isPrefixOf q = false := by
      by_cases hb : dst.isPrefixOf q
      · exfalso
        have hd' := List.isPrefixOf_iff_prefix.mp hb
        have hs2 := List.isPrefixOf_iff_prefix.mp hq
        rcases List.prefix_or_prefix_of_prefix hs2 hd' with h | h
        · rw [List.isPrefixOf_iff_prefix.mpr h] at hp1
          cases hp1
        · rw [List.isPrefixOf_iff_prefix.mpr h] at hp2
          cases hp2
      · exact Bool.eq_false_iff.mpr hb
    simp only [renameFS, lookupFS, hq0, if_false]
    exact lookupEntries_map_rename_gone src dst q hq hnc fs1.entries
  have hdfalse : pathExistsFS fs dst = false := by
    unfold pathExistsFS
    rw [habs]
    rfl
  refine ⟨⟨renameFS fs1 src dst, ?_, ?_, hA, hB⟩, ?_⟩
  · unfold move_file pyTry move_file_body mkdirParents
    simp only [PyM_bind_eval, getFS_eval, PyM_pure_eval, ← hsdef, ← hddef, hsex, hdfalse,
      Bool.not_true, Bool.false_and, Bool.false_eq_true, if_false, hrun1, hmove]
  · unfold isDirFS
    have h := hA []
    rw [List.append_nil, List.append_nil] at h
    rw [h, hdir]
  · unfold copy_file pyTry copy_file_body
    have hnf : isFileFS fs src = false := by
      unfold isFileFS
      rw [hdir]
    simp only [PyM_bind_eval, getFS_eval, PyM_pure_eval, ← hsdef, hsex, hnf, Bool.not_true,
      Bool.not_false, Bool.false_eq_true, if_false, if_true]

/-- Witness for C10: directory `d` moved to absent `g`; copying `d` fails. -/
theorem C10_move_dir_copy_fails_w :
    (isDirFS fsDirFile (canon fsDirFile.cwd "d") = true ∧
      canon fsDirFile.cwd "g" ≠ [] ∧
      (∀ e ∈ fsDirFile.entries, (canon fsDirFile.cwd "g").isPrefixOf e.1 = false) ∧
      AncestorsOk fsDirFile (canon fsDirFile.cwd "g") ∧
      (canon fsDirFile.cwd "d").isPrefixOf (canon fsDirFile.cwd "g") = false ∧
      (canon fsDirFile.cwd "g").isPrefixOf (canon fsDirFile.cwd "d") = false) ∧
    ((∃ fs', move_file "d" "g" false fsDirFile =
        ("Successfully moved '" ++ "d" ++ "' to '" ++ "g" ++ "'", fs') ∧
      isDirFS fs' (canon fsDirFile.cwd "g") = true ∧
      (∀ rel, lookupFS fs' (canon fsDirFile.cwd "g" ++ rel) =
        lookupFS fsDirFile (canon fsDirFile.cwd "d" ++ rel)) ∧
      (∀ q, (canon fsDirFile.cwd "d").isPrefixOf q = true → lookupFS fs' q = none)) ∧
    copy_file "d" "g" false fsDirFile =
      ("Error: Source '" ++ "d" ++ "' is not a file", fsDirFile)) :=
  ⟨⟨by decide, by decide, by decide, by decide, by decide, by decide⟩,
    C10_move_dir_copy_fails fsDirFile "d" "g" false (by decide) (by decide) (by decide)
      (by decide) (by decide) (by decide)⟩

/-! ## C8 — `list_directory` ordering -/

/-- C8 (amended): on an existing directory, `list_directory` returns the
empty-directory message when nothing survives the hidden filter, and
otherwise a listing whose entry lines are a permutation of the rendered
entries (children filtered by `include_hidden`, rendered per the `detailed`
flag) sorted lexicographically *as rendered lines* — so entries group by
the leading type marker (directories before files), not purely by name. -/
theorem C8_list_directory (fs : FS) (dir_path : String) (include_hidden detailed : Bool)
    (hdir : isDirFS fs (canon fs.cwd dir_path) = true) :
    (listingItems fs (canon fs.cwd dir_path) include_hidden detailed = [] →
      list_directory dir_path include_hidden detailed fs =
        ("Directory '" ++ dir_path ++ "' is empty", fs)) ∧
    (listingItems fs (canon fs.cwd dir_path) include_hidden detailed ≠ [] →
      ∃ lines, list_directory dir_path include_hidden detailed fs =
        ("Directory listing for '" ++ dir_path ++ "':\n" ++
          (if detailed then detailedHeader else "CONTENTS") ++ "\n" ++ joinSep "\n" lines, fs) ∧
        List.Pairwise (fun a b => pyLe a b = true) lines ∧
        List.Perm lines (listingItems fs (canon fs.cwd dir_path) include_hidden detailed)) := by
  have hex := isDir_exists hdir
  constructor
  · intro hempty
    unfold list_directory pyTry list_directory_body
    simp only [PyM_bind_eval, getFS_eval, PyM_pure_eval, hex, hdir, hempty, Bool.not_true,
      Bool.false_eq_true, if_false, List.isEmpty_nil, if_true]
  · intro hne
    have hempty : (listingItems fs (canon fs.cwd dir_path) include_hidden detailed).isEmpty = false := by
      rcases h : listingItems fs (canon fs.cwd dir_path) include_hidden detailed with _ | _
      · exact absurd h hne
      · rfl
    refine ⟨pySorted (listingItems fs (canon fs.cwd dir_path) include_hidden detailed), ?_,
      pySorted_pairwise _, pySorted_perm _⟩
    unfold list_directory pyTry list_directory_body
    simp only [PyM_bind_eval, getFS_eval, PyM_pure_eval, hex, hdir, hempty, Bool.not_true,
      Bool.false_eq_true, if_false, detailedHeader]

/-- Witness for C8 on a concrete directory holding a subdirectory `z` and a
file `a.txt`. -/
theorem C8_list_directory_w :
    (isDirFS fsListing (canon fsListing.cwd "d") = true ∧
      listingItems fsListing (canon fsListing.cwd "d") false false ≠ []) ∧
    (listingItems fsListing (canon fsListing.cwd "d") false false ≠ [] →
      ∃ lines, list_directory "d" false false fsListing =
        ("Directory listing for '" ++ "d" ++ "':\n" ++
          (if false then detailedHeader else "CONTENTS") ++ "\n" ++ joinSep "\n" lines, fsListing) ∧
        List.Pairwise (fun a b => pyLe a b = true) lines ∧
        List.Perm lines (listingItems fsListing (canon fsListing.cwd "d") false false)) :=
  ⟨⟨by decide, by decide⟩,
    (C8_list_directory fsListing "d" false false (by decide)).2⟩

/-- C8 (counterexample): the listing of a directory holding the
subdirectory `z` and the file `a.txt` prints the `z` line first — although
`"a.txt"` precedes `"z"` by name — because the sort compares the rendered
lines and `"[DIR] …"` sorts before `"[FILE] …"`: the sequence is not
ordered by entry name. -/
theorem C8_list_directory_cex :
    (list_directory "d" false false fsListing).1 =
      "Directory listing for 'd':\nCONTENTS\n[DIR] z\n[FILE] a.txt" ∧
    pyLe "a.txt" "z" = true ∧ "a.txt" ≠ "z" := by decide

/-! ## C9 — `search_files` -/

/-- C9 (amended): in the default case-insensitive mode, over an existing
base directory, `search_files` returns exactly the sorted relative paths of
the candidates (the files `os.walk` finds when recursive; every `os.listdir`
entry, directories included, when not) whose *name* matches the glob
pattern case-insensitively **or contains the pattern as a case-insensitive
substring** — the substring disjunct comes from line 235 of the source and
admits names the glob alone would reject.  The spec's scenario
(`*.txt`, recursive, over `a.txt` and `sub/b.txt`) returns both relative
paths.  (The case-sensitive branch instead returns Python `glob` results,
which also include directories.) -/
theorem C9_search_files_ci (fs : FS) (pattern directory : String) (recursive : Bool)
    (hdir : isDirFS fs (canon fs.cwd directory) = true) :
    (ciMatchesRel fs (canon fs.cwd directory) pattern recursive = [] →
      search_files pattern directory recursive false fs =
        ("No files found matching pattern '" ++ pattern ++ "' in '" ++ directory ++ "'", fs)) ∧
    (ciMatchesRel fs (canon fs.cwd directory) pattern recursive ≠ [] →
      ∃ lines, search_files pattern directory recursive false fs =
        ("Found " ++ natStr (ciMatchesRel fs (canon fs.cwd directory) pattern recursive).length ++
          " files matching '" ++ pattern ++ "':\n" ++ joinSep "\n" lines, fs) ∧
        List.Pairwise (fun a b => pyLe a b = true) lines ∧
        List.Perm lines
          ((ciMatchesRel fs (canon fs.cwd directory) pattern recursive).map (joinSep "/"))) := by
  have hex := isDir_exists hdir
  constructor
  · intro hempty
    unfold search_files pyTry search_files_body
    simp only [PyM_bind_eval, getFS_eval, PyM_pure_eval, hex, hdir, hempty, Bool.not_true,
      Bool.not_false, Bool.false_eq_true, if_false, if_true, List.isEmpty_nil]
  · intro hne
    have hempty : (ciMatchesRel fs (canon fs.cwd directory) pattern recursive).isEmpty = false := by
      rcases h : ciMatchesRel fs (canon fs.cwd directory) pattern recursive with _ | _
      · exact absurd h hne
      · rfl
    refine ⟨pySorted ((ciMatchesRel fs (canon fs.cwd directory) pattern recursive).map (joinSep "/")),
      ?_, pySorted_pairwise _, pySorted_perm _⟩
    unfold search_files pyTry search_files_body
    simp only [PyM_bind_eval, getFS_eval, PyM_pure_eval, hex, hdir, hempty, Bool.not_true,
      Bool.not_false, Bool.false_eq_true, if_false, if_true]

/-- Witness for C9: the spec's scenario tree (`a.txt`, `sub/b.txt`) with
pattern `*.txt`, recursive, default case-insensitive mode — both files come
back as sorted relative paths. -/
theorem C9_search_files_ci_w :
    (isDirFS fsTree (canon fsTree.cwd ".") = true ∧
      ciMatchesRel fsTree (canon fsTree.cwd ".") "*.txt" true ≠ []) ∧
    (ciMatchesRel fsTree (canon fsTree.cwd ".") "*.txt" true ≠ [] →
      ∃ lines, search_files "*.txt" "." true false fsTree =
        ("Found " ++ natStr (ciMatchesRel fsTree (canon fsTree.cwd ".") "*.txt" true).length ++
          " files matching '" ++ "*.txt" ++ "':\n" ++ joinSep "\n" lines, fsTree) ∧
        List.Pairwise (fun a b => pyLe a b = true) lines ∧
        List.Perm lines
          ((ciMatchesRel fsTree (canon fsTree.cwd ".") "*.txt" true).map (joinSep "/"))) ∧
    (search_files "*.txt" "." true false fsTree).1 =
      "Found 2 files matching '*.txt':\na.txt\nsub/b.txt" :=
  ⟨⟨by decide, by decide⟩,
    (C9_search_files_ci fsTree "*.txt" "." true (by decide)).2, by decide⟩

/-- C9 (counterexample): with pattern `"a"` over a tree whose only file is
`bab`, the default case-insensitive search returns `bab` — a pure substring
hit — although `fnmatch` rejects it, so the result is not "exactly the
files whose filename matches the glob-style pattern". -/
theorem C9_search_files_cex :
    (search_files "a" "." true false fsBab).1 = "Found 1 files matching 'a':\nbab" ∧
    fnmatchB "bab" "a" = false := by decide

/-- C10 (counterexample): with `overwrite=True` but an existing *file*
destination, moving a directory does not succeed: the rename/copy fallback
fails and the tool reports an error, leaving the state unchanged. -/
theorem C10_move_file_cex :
    (move_file "d" "f" true fsDirFile).1 = "Error moving file: File exists: '/f'" ∧
    (move_file "d" "f" true fsDirFile).2 = fsDirFile ∧
    isDirFS fsDirFile (canon fsDirFile.cwd "d") = true ∧
    isFileFS fsDirFile (canon fsDirFile.cwd "f") = true := by
  decide

/-! ## Character-code helper lemmas -/

theorem toNat_ofNat_valid (n : Nat) (h : n.isValidChar) : (Char.ofNat n).toNat = n := by
  unfold Char.ofNat
  rw [dif_pos h]
  simp [Char.ofNatAux, Char.toNat, UInt32.ofNatCore, UInt32.toNat]

theorem char_eq_of_toNat {c d : Char} (h : c.toNat = d.toNat) : c = d := by
  apply Char.ext
  apply UInt32.ext
  exact h

theorem char_toNat_valid (c : Char) : c.toNat.isValidChar := by
  have := c.valid
  simp [UInt32.isValidChar, Char.toNat] at this ⊢
  exact this

theorem ofNat_toNat_char (c : Char) : Char.ofNat c.toNat = c :=
  char_eq_of_toNat (toNat_ofNat_valid _ (char_toNat_valid c))

theorem toNat_ofNat_small (n : Nat) (h : n < 55296) : (Char.ofNat n).toNat = n :=
  toNat_ofNat_valid n (Or.inl h)

theorem char_le_iff (c d : Char) : (c ≤ d) ↔ c.toNat ≤ d.toNat := Iff.rfl

theorem char_ne_of_toNat {c : Char} (n : Nat) (hd : Char.toNat c ≠ n) (d : Char)
    (hn : Char.toNat d = n) : ¬ c = d := fun h => hd (h ▸ hn)

theorem isDigitCh_iff (c : Char) : isDigitCh c = true ↔ 48 ≤ c.toNat ∧ c.toNat ≤ 57 := by
  simp [isDigitCh, char_le_iff]

/-! ## Whitespace skipping -/

theorem skipWs_cons_nows {c : Char} (h : isWsChar c = false) (cs : List Char) :
    skipWs (c :: cs) = c :: cs := by
  simp [skipWs, h]

theorem skipWs_idem (cs : List Char) : skipWs (skipWs cs) = skipWs cs := by
  induction cs with
  | nil => rfl
  | cons c t ih =>
    by_cases h : isWsChar c = true
    · simp [skipWs, h, ih]
    · have h' : isWsChar c = false := by revert h; cases isWsChar c <;> simp
      simp [skipWs, h']

theorem pVal_skipWs (fu : Nat) (cs : List Char) : pVal fu cs = pVal fu (skipWs cs) := by
  cases fu with
  | zero => rfl
  | succ f =>
    rw [pVal]
    conv_rhs => rw [pVal]
    rw [skipWs_idem]

theorem skipWs_spaces (k : Nat) (cs : List Char) :
    skipWs (List.replicate k ' ' ++ cs) = skipWs cs := by
  induction k with
  | zero => rfl
  | succ m ih => simpa [List.replicate, skipWs, isWsChar] using ih

theorem skipWs_nlInd (lvl : Nat) (cs : List Char) :
    skipWs (nlInd lvl ++ cs) = skipWs cs := by
  simp [nlInd, skipWs, isWsChar, skipWs_spaces]

/-! ## Parsing back a serialized integer -/

theorem digit_char_spec (k : Nat) (hk : k < 10) :
    (Char.ofNat (48 + k)).toNat = 48 + k := toNat_ofNat_small _ (by omega)

theorem decCharsGo_digits : ∀ fu n, ∀ c ∈ decCharsGo fu n, isDigitCh c = true := by
  intro fu
  induction fu with
  | zero => intro n c hc; simp [decCharsGo] at hc
  | succ f ih =>
    intro n c hc
    by_cases h : n < 10
    · simp [decCharsGo, h] at hc
      subst hc
      rw [isDigitCh_iff, digit_char_spec n h]
      omega
    · simp [decCharsGo, h] at hc
      rcases hc with hc | hc
      · exact ih _ _ hc
      · subst hc
        rw [isDigitCh_iff, digit_char_spec (n % 10) (Nat.mod_lt _ (by omega))]
        omega

theorem decCharsGo_head : ∀ fu n, n < 10 ^ fu → 1 ≤ n →
    ∃ d t, decCharsGo fu n = d :: t ∧ 49 ≤ d.toNat ∧ d.toNat ≤ 57 := by
  intro fu
  induction fu with
  | zero => intro n h1 h2; simp at h1; omega
  | succ f ih =>
    intro n h1 h2
    by_cases h10 : n < 10
    · refine ⟨Char.ofNat (48 + n), [], by simp [decCharsGo, h10], ?_, ?_⟩
      · rw [digit_char_spec n h10]; omega
      · rw [digit_char_spec n h10]; omega
    · have hdiv : n / 10 < 10 ^ f := by
        apply Nat.div_lt_of_lt_mul
        rw [pow_succ] at h1
        omega
      obtain ⟨d, t, hdt, hd1, hd2⟩ := ih (n / 10) hdiv (by omega)
      exact ⟨d, t ++ [Char.ofNat (48 + n % 10)], by simp [decCharsGo, h10, hdt], hd1, hd2⟩

theorem digitsVal_nil (acc : Nat) : digitsVal acc [] = acc := rfl

theorem digitsVal_cons (acc : Nat) (c : Char) (t : List Char) :
    digitsVal acc (c :: t) = digitsVal (10 * acc + (c.toNat - 48)) t := rfl

theorem digitsVal_append (a b : List Char) : ∀ acc,
    digitsVal acc (a ++ b) = digitsVal (digitsVal acc a) b := by
  induction a with
  | nil => intro acc; rfl
  | cons c t ih =>
    intro acc
    show digitsVal (10 * acc + (c.toNat - 48)) (t ++ b) =
      digitsVal (digitsVal (10 * acc + (c.toNat - 48)) t) b
    exact ih _

theorem decCharsGo_val : ∀ fu n acc, n < 10 ^ fu →
    digitsVal acc (decCharsGo fu n) = acc * 10 ^ (decCharsGo fu n).length + n := by
  intro fu
  induction fu with
  | zero =>
    intro n acc h
    simp at h
    simp [decCharsGo, digitsVal_nil, h]
  | succ f ih =>
    intro n acc h
    by_cases h10 : n < 10
    · simp [decCharsGo, h10, digitsVal_cons, digitsVal_nil, digit_char_spec n h10]
      omega
    · have hdiv : n / 10 < 10 ^ f := by
        apply Nat.div_lt_of_lt_mul
        rw [pow_succ] at h
        omega
      rw [show decCharsGo (f + 1) n = decCharsGo f (n / 10) ++ [Char.ofNat (48 + n % 10)]
            from by simp [decCharsGo, h10]]
      rw [digitsVal_append, ih (n / 10) acc hdiv]
      simp [digitsVal_cons, digitsVal_nil, digit_char_spec (n % 10) (Nat.mod_lt _ (by omega)), pow_succ]
      rw [← mul_assoc]
      generalize acc * 10 ^ (decCharsGo f (n / 10)).length = B
      omega

theorem digitsGo_zero (acc : Nat) (cs : List Char) : digitsGo 0 acc cs = (acc, cs) := rfl

theorem digitsGo_nil (f acc : Nat) : digitsGo (f + 1) acc [] = (acc, []) := rfl

theorem digitsGo_cons (f acc : Nat) (c : Char) (rest : List Char) :
    digitsGo (f + 1) acc (c :: rest) =
      if isDigitCh c then digitsGo f (10 * acc + (c.toNat - 48)) rest else (acc, c :: rest) := rfl

theorem digitsGo_stop (fu acc : Nat) (rest : List Char) (h : NoDigitStart rest) :
    digitsGo fu acc rest = (acc, rest) := by
  cases fu with
  | zero => exact digitsGo_zero acc rest
  | succ f =>
    rcases h with rfl | ⟨c, t, rfl, hc⟩
    · exact digitsGo_nil f acc
    · rw [digitsGo_cons, if_neg (by simp [hc])]

theorem digitsGo_run : ∀ (ds : List Char) (fu acc : Nat) (rest : List Char),
    (∀ c ∈ ds, isDigitCh c = true) → ds.length ≤ fu → NoDigitStart rest →
    digitsGo fu acc (ds ++ rest) = (digitsVal acc ds, rest) := by
  intro ds
  induction ds with
  | nil =>
    intro fu acc rest _ _ hrest
    simpa [digitsVal_nil] using digitsGo_stop fu acc rest hrest
  | cons c t ih =>
    intro fu acc rest hds hlen hrest
    cases fu with
    | zero => simp at hlen
    | succ f =>
      have hc : isDigitCh c = true := hds c (by simp)
      rw [List.cons_append, digitsGo_cons, if_pos hc, digitsVal_cons]
      exact ih f _ rest (fun x hx => hds x (by simp [hx])) (by simpa using hlen) hrest

theorem pNat_dec (n : Nat) (rest : List Char) (hrest : NoDigitStart rest) :
    pNat (decChars n ++ rest) = some (n, rest) := by
  by_cases h0 : n = 0
  · subst h0
    have h : decChars 0 = ['0'] := by decide
    rw [h]
    simp [pNat]
  · have hlt : n < 10 ^ (n + 1) :=
      lt_of_lt_of_le (Nat.lt_pow_self (by norm_num) n)
        (Nat.pow_le_pow_right (by norm_num) (by omega))
    obtain ⟨d, t, hdt, hd1, hd2⟩ := decCharsGo_head (n + 1) n hlt (by omega)
    have hdecn : decChars n = d :: t := by rw [decChars, hdt]
    have hne0 : ¬ d = '0' := char_ne_of_toNat 48 (by omega) '0' (by decide)
    have hdig : isDigitCh d = true := (isDigitCh_iff d).mpr ⟨by omega, hd2⟩
    rw [hdecn, List.cons_append, pNat, if_neg hne0, if_pos hdig]
    have htdig : ∀ c ∈ t, isDigitCh c = true := by
      intro c hc
      exact decCharsGo_digits (n + 1) n c (by rw [hdt]; simp [hc])
    rw [digitsGo_run t _ _ rest htdig (by simp only [List.length_append]; omega) hrest]
    have hval := decCharsGo_val (n + 1) n 0 hlt
    rw [hdt, digitsVal_cons] at hval
    simp at hval
    rw [hval]

theorem numBd_nodigit {rest : List Char} (h : numBd rest = true) : NoDigitStart rest := by
  cases rest with
  | nil => exact Or.inl rfl
  | cons c t =>
    simp [numBd] at h
    exact Or.inr ⟨c, t, rfl, h.1.1.1⟩

theorem floatGuard_of_numBd (v : Int) {rest : List Char} (h : numBd rest = true) :
    floatGuard v rest = some (v, rest) := by
  cases rest with
  | nil => rfl
  | cons c t =>
    simp [numBd] at h
    obtain ⟨⟨⟨h1, h2⟩, h3⟩, h4⟩ := h
    rw [floatGuard, if_neg (by simp [h2, h3, h4])]

theorem pIntTok_dec (n : Int) (rest : List Char) (hrest : numBd rest = true) :
    pIntTok (intChars n ++ rest) = some (n, rest) := by
  by_cases hn : n < 0
  · rw [show intChars n = '-' :: decChars n.natAbs from by simp [intChars, hn]]
    rw [List.cons_append, pIntTok, if_pos rfl,
      pNat_dec n.natAbs rest (numBd_nodigit hrest)]
    simp only [Option.some_bind]
    rw [floatGuard_of_numBd _ hrest]
    have : -((n.natAbs : Nat) : Int) = n := by omega
    rw [this]
  · rw [show intChars n = decChars n.natAbs from by simp [intChars, hn]]
    have hlt : n.natAbs < 10 ^ (n.natAbs + 1) :=
      lt_of_lt_of_le (Nat.lt_pow_self (by norm_num) _)
        (Nat.pow_le_pow_right (by norm_num) (by omega))
    by_cases h0 : n.natAbs = 0
    · have hd : decChars n.natAbs = ['0'] := by rw [h0]; decide
      rw [hd, List.cons_append, pIntTok,
        if_neg (char_ne_of_toNat 45 (by decide) '-' (by decide))]
      have : pNat (decChars n.natAbs ++ rest) = some (n.natAbs, rest) :=
        pNat_dec n.natAbs rest (numBd_nodigit hrest)
      rw [hd] at this
      rw [List.cons_append] at this
      rw [this]
      simp only [Option.some_bind]
      rw [floatGuard_of_numBd _ hrest]
      have hn' : ((n.natAbs : Nat) : Int) = n := by omega
      rw [hn']
    · obtain ⟨d, t, hdt, hd1, hd2⟩ := decCharsGo_head (n.natAbs + 1) n.natAbs hlt (by omega)
      have hdecn : decChars n.natAbs = d :: t := by rw [decChars, hdt]
      have hp := pNat_dec n.natAbs rest (numBd_nodigit hrest)
      rw [hdecn] at hp ⊢
      rw [List.cons_append] at hp ⊢
      rw [pIntTok, if_neg (char_ne_of_toNat 45 (by omega) '-' (by decide)), hp]
      simp only [Option.some_bind]
      rw [floatGuard_of_numBd _ hrest]
      have hn' : ((n.natAbs : Nat) : Int) = n := by omega
      rw [hn']

/-! ## Parsing back a serialized string -/

theorem hexVal_hexDigit (d : Nat) (h : d < 16) : hexVal (hexDigit d) = some d := by
  interval_cases d <;> decide

theorem escChar_ne_nil (c : Char) : escChar c ≠ [] := by
  unfold escChar
  split_ifs <;> simp

theorem pStrGo_quote (f : Nat) (acc rest : List Char) :
    pStrGo (f + 1) acc ('"' :: rest) = some (String.mk acc, rest) := rfl

theorem pStrGo_unesc (f : Nat) (acc : List Char) (e c2 : Char) (he : ¬ e = 'u')
    (hu : unescape e = some c2) (rest : List Char) :
    pStrGo (f + 1) acc ('\\' :: e :: rest) = pStrGo f (acc ++ [c2]) rest := by
  simp [pStrGo, he, hu]

theorem pStrGo_plain (f : Nat) (acc : List Char) (c : Char) (h1 : ¬ c = '"')
    (h2 : ¬ c = '\\') (h3 : ¬ c.toNat < 32) (rest : List Char) :
    pStrGo (f + 1) acc (c :: rest) = pStrGo f (acc ++ [c]) rest := by
  simp [pStrGo, h1, h2, h3]

theorem pStrGo_ctrl (f : Nat) (acc : List Char) (m : Nat) (hm : m < 32) (rest : List Char) :
    pStrGo (f + 1) acc
      ('\\' :: 'u' :: '0' :: '0' :: hexDigit (m / 16) :: hexDigit (m % 16) :: rest) =
      pStrGo f (acc ++ [Char.ofNat m]) rest := by
  have hx1 : hexVal (hexDigit (m / 16)) = some (m / 16) := hexVal_hexDigit _ (by omega)
  have hx2 : hexVal (hexDigit (m % 16)) = some (m % 16) := hexVal_hexDigit _ (by omega)
  have hv : 4096 * 0 + 256 * 0 + 16 * (m / 16) + m % 16 = m := by omega
  simp only [pStrGo, hex4, hx1, hx2]
  simp only [show hexVal '0' = some 0 from by decide]
  simp only [hv]
  simp only [if_true]
  rw [if_neg (show ¬(55296 ≤ m ∧ m < 56320) from by omega),
    if_neg (show ¬(56320 ≤ m ∧ m < 57344) from by omega)]
  rw [if_neg (show ¬(('\\' : Char) = '"') from by decide)]

theorem pStrGo_esc : ∀ (l : List Char) (fu : Nat), ((l.map escChar).flatten).length < fu →
    ∀ (acc rest : List Char),
    pStrGo fu acc ((l.map escChar).flatten ++ '"' :: rest) = some (String.mk (acc ++ l), rest) := by
  intro l
  induction l with
  | nil =>
    intro fu hfu acc rest
    cases fu with
    | zero => simp at hfu
    | succ f =>
      rw [show ((([] : List Char).map escChar).flatten ++ '"' :: rest) = '"' :: rest from by simp]
      rw [pStrGo_quote]
      simp
  | cons c t ih =>
    intro fu hfu acc rest
    cases fu with
    | zero => simp at hfu
    | succ f =>
      have hone : 1 ≤ (escChar c).length := by
        rcases h : escChar c with _ | _
        · exact absurd h (escChar_ne_nil c)
        · simp
      have hlen : ((t.map escChar).flatten).length < f := by
        rw [List.map_cons, List.flatten_cons] at hfu
        rw [List.length_append] at hfu
        omega
      have happ : (((c :: t).map escChar).flatten ++ '"' :: rest) =
          escChar c ++ ((t.map escChar).flatten ++ '"' :: rest) := by
        simp
      rw [happ]
      by_cases hq : c = '"'
      · subst hq
        rw [show escChar '"' = ['\\', '"'] from by decide, List.cons_append, List.cons_append,
          List.nil_append,
          pStrGo_unesc f acc '"' '"' (by decide) (by decide), ih f hlen]
        simp
      · by_cases hb : c = '\\'
        · subst hb
          rw [show escChar '\\' = ['\\', '\\'] from by decide, List.cons_append, List.cons_append,
            List.nil_append,
            pStrGo_unesc f acc '\\' '\\' (by decide) (by decide), ih f hlen]
          simp
        · by_cases hnl : c = '\n'
          · subst hnl
            rw [show escChar '\n' = ['\\', 'n'] from by decide, List.cons_append, List.cons_append,
              List.nil_append,
              pStrGo_unesc f acc 'n' '\n' (by decide) (by decide), ih f hlen]
            simp
          · by_cases hcr : c = '\r'
            · subst hcr
              rw [show escChar '\r' = ['\\', 'r'] from by decide, List.cons_append,
                List.cons_append, List.nil_append,
                pStrGo_unesc f acc 'r' '\r' (by decide) (by decide), ih f hlen]
              simp
            · by_cases htb : c = '\t'
              · subst htb
                rw [show escChar '\t' = ['\\', 't'] from by decide, List.cons_append,
                  List.cons_append, List.nil_append,
                  pStrGo_unesc f acc 't' '\t' (by decide) (by decide), ih f hlen]
                simp
              · by_cases h8 : c.toNat = 8
                · have hesc : escChar c = ['\\', 'b'] := by
                    simp [escChar, hq, hb, hnl, hcr, htb, h8]
                  have hc8 : Char.ofNat 8 = c := by rw [← h8, ofNat_toNat_char]
                  rw [hesc, List.cons_append, List.cons_append, List.nil_append,
                    pStrGo_unesc f acc 'b' (Char.ofNat 8) (by decide) (by decide), hc8,
                    ih f hlen]
                  simp
                · by_cases h12 : c.toNat = 12
                  · have hesc : escChar c = ['\\', 'f'] := by
                      simp [escChar, hq, hb, hnl, hcr, htb, h8, h12]
                    have hc12 : Char.ofNat 12 = c := by rw [← h12, ofNat_toNat_char]
                    rw [hesc, List.cons_append, List.cons_append, List.nil_append,
                      pStrGo_unesc f acc 'f' (Char.ofNat 12) (by decide) (by decide), hc12,
                      ih f hlen]
                    simp
                  · by_cases h32 : c.toNat < 32
                    · have hesc : escChar c =
                          ['\\', 'u', '0', '0', hexDigit (c.toNat / 16), hexDigit (c.toNat % 16)] := by
                        simp [escChar, hq, hb, hnl, hcr, htb, h8, h12, h32]
                      rw [hesc]
                      rw [show ∀ z : List Char,
                          ('\\' :: 'u' :: '0' :: '0' :: hexDigit (c.toNat / 16) ::
                            hexDigit (c.toNat % 16) :: []) ++ z =
                          '\\' :: 'u' :: '0' :: '0' :: hexDigit (c.toNat / 16) ::
                            hexDigit (c.toNat % 16) :: z from fun z => by simp]
                      rw [pStrGo_ctrl f acc c.toNat h32, ofNat_toNat_char, ih f hlen]
                      simp
                    · have hesc : escChar c = [c] := by
                        simp [escChar, hq, hb, hnl, hcr, htb, h8, h12, h32]
                      rw [hesc, List.cons_append, List.nil_append,
                        pStrGo_plain f acc c hq hb h32, ih f hlen]
                      simp

theorem pStr_esc (s : String) (rest : List Char) :
    pStr (escStr s ++ '"' :: rest) = some (s, rest) := by
  rw [pStr, escStr]
  rw [pStrGo_esc s.data (((List.map escChar s.data).flatten ++ '"' :: rest).length + 1)
    (by simp only [List.length_append, List.length_cons]; omega) [] rest]
  cases s
  simp

/-! ## Heads and lengths of serialized values -/

theorem startOk_elim {c : Char} (h : startOk c = true) :
    c.toNat = 34 ∨ c.toNat = 91 ∨ c.toNat = 123 ∨ c.toNat = 110 ∨ c.toNat = 116 ∨
      c.toNat = 102 ∨ c.toNat = 45 ∨ (48 ≤ c.toNat ∧ c.toNat ≤ 57) := by
  simp only [startOk, Bool.or_eq_true, decide_eq_true_eq] at h
  rcases h with ((((((h | h) | h) | h) | h) | h) | h) | h
  · subst h; exact Or.inl (by decide)
  · subst h; exact Or.inr (Or.inl (by decide))
  · subst h; exact Or.inr (Or.inr (Or.inl (by decide)))
  · subst h; exact Or.inr (Or.inr (Or.inr (Or.inl (by decide))))
  · subst h; exact Or.inr (Or.inr (Or.inr (Or.inr (Or.inl (by decide)))))
  · subst h; exact Or.inr (Or.inr (Or.inr (Or.inr (Or.inr (Or.inl (by decide))))))
  · subst h; exact Or.inr (Or.inr (Or.inr (Or.inr (Or.inr (Or.inr (Or.inl (by decide)))))))
  · exact Or.inr (Or.inr (Or.inr (Or.inr (Or.inr (Or.inr (Or.inr ((isDigitCh_iff c).mp h)))))))

theorem startOk_not_ws {c : Char} (h : startOk c = true) : isWsChar c = false := by
  have hn := startOk_elim h
  have h1 : ¬ c = ' ' := char_ne_of_toNat 32 (by omega) ' ' (by decide)
  have h2 : ¬ c = '\t' := char_ne_of_toNat 9 (by omega) '\t' (by decide)
  have h3 : ¬ c = '\n' := char_ne_of_toNat 10 (by omega) '\n' (by decide)
  have h4 : ¬ c = '\r' := char_ne_of_toNat 13 (by omega) '\r' (by decide)
  simp [isWsChar, h1, h2, h3, h4]

theorem startOk_ne_close {c : Char} (h : startOk c = true) : ¬ c = ']' ∧ ¬ c = '}' := by
  have hn := startOk_elim h
  exact ⟨char_ne_of_toNat 93 (by omega) ']' (by decide),
    char_ne_of_toNat 125 (by omega) '}' (by decide)⟩

theorem intChars_head (n : Int) :
    ∃ c t, intChars n = c :: t ∧ (c = '-' ∨ isDigitCh c = true) := by
  rw [intChars]
  by_cases hn : n < 0
  · rw [if_pos hn]
    exact ⟨'-', _, rfl, Or.inl rfl⟩
  · rw [if_neg hn]
    by_cases h0 : n.natAbs = 0
    · rw [h0]
      exact ⟨'0', [], by decide, Or.inr (by decide)⟩
    · have hlt : n.natAbs < 10 ^ (n.natAbs + 1) :=
        lt_of_lt_of_le (Nat.lt_pow_self (by norm_num) _)
          (Nat.pow_le_pow_right (by norm_num) (by omega))
      obtain ⟨d, t, hdt, hd1, hd2⟩ := decCharsGo_head (n.natAbs + 1) n.natAbs hlt (by omega)
      exact ⟨d, t, by rw [decChars, hdt], Or.inr ((isDigitCh_iff d).mpr ⟨by omega, hd2⟩)⟩

theorem numStart_startOk {c : Char} (h : c = '-' ∨ isDigitCh c = true) : startOk c = true := by
  rcases h with h | h
  · subst h; decide
  · simp [startOk, h]

theorem dump_head (lvl : Nat) (v : JVal) :
    ∃ c t, dumpVal lvl v = c :: t ∧ startOk c = true := by
  cases v with
  | null => exact ⟨'n', ['u', 'l', 'l'], by simp [dumpVal], by decide⟩
  | bool b =>
    cases b with
    | true => exact ⟨'t', ['r', 'u', 'e'], by simp [dumpVal], by decide⟩
    | false => exact ⟨'f', ['a', 'l', 's', 'e'], by simp [dumpVal], by decide⟩
  | num n =>
    obtain ⟨c, t, hct, hcls⟩ := intChars_head n
    exact ⟨c, t, by simp [dumpVal, hct], numStart_startOk hcls⟩
  | str s => exact ⟨'"', escStr s ++ ['"'], by simp [dumpVal], by decide⟩
  | arr xs =>
    cases xs with
    | nil => exact ⟨'[', [']'], by simp [dumpVal], by decide⟩
    | cons x t =>
      exact ⟨'[', nlInd (lvl + 1) ++ dumpVal (lvl + 1) x ++ dumpArrTail (lvl + 1) t ++
        nlInd lvl ++ [']'], by simp [dumpVal, List.append_assoc], by decide⟩
  | obj kvs =>
    cases kvs with
    | nil => exact ⟨'{', ['}'], by simp [dumpVal], by decide⟩
    | cons kv t =>
      obtain ⟨k, v⟩ := kv
      exact ⟨'{', nlInd (lvl + 1) ++ dumpField (lvl + 1) k v ++ dumpObjTail (lvl + 1) t ++
        nlInd lvl ++ ['}'], by simp [dumpVal, List.append_assoc], by decide⟩

theorem dump_len_pos (lvl : Nat) (v : JVal) : 1 ≤ (dumpVal lvl v).length := by
  obtain ⟨c, t, hct, _⟩ := dump_head lvl v
  simp [hct]

theorem nlInd_len (lvl : Nat) : (nlInd lvl).length = 2 * lvl + 1 := by
  simp [nlInd]

mutual

theorem jfuel_le_len (v : JVal) (lvl : Nat) : jfuel v ≤ 3 * (dumpVal lvl v).length := by
  cases v with
  | null => simp [jfuel, dumpVal]
  | bool b => cases b <;> simp [jfuel, dumpVal]
  | num n =>
    have := dump_len_pos lvl (.num n)
    simp [jfuel]
    omega
  | str s =>
    have := dump_len_pos lvl (.str s)
    simp [jfuel]
    omega
  | arr xs =>
    cases xs with
    | nil => simp [jfuel, jfuelArr, dumpVal]
    | cons x t =>
      have h1 := jfuel_le_len x (lvl + 1)
      have h2 := jfuelArr_le_len t (lvl + 1)
      simp [jfuel, jfuelArr, dumpVal, List.length_append, nlInd_len]
      omega
  | obj kvs =>
    cases kvs with
    | nil => simp [jfuel, jfuelObj, dumpVal]
    | cons kv t =>
      obtain ⟨k, v⟩ := kv
      have h1 := jfuel_le_len v (lvl + 1)
      have h2 := jfuelObj_le_len t (lvl + 1)
      simp [jfuel, jfuelObj, dumpField, dumpVal, List.length_append, nlInd_len]
      omega
termination_by sizeOf v

theorem jfuelArr_le_len (xs : List JVal) (lvl : Nat) :
    jfuelArr xs ≤ 3 * (dumpArrTail lvl xs).length := by
  cases xs with
  | nil => simp [jfuelArr]
  | cons x t =>
    have h1 := jfuel_le_len x lvl
    have h2 := jfuelArr_le_len t lvl
    simp [jfuelArr, dumpArrTail, List.length_append, nlInd_len]
    omega
termination_by sizeOf xs

theorem jfuelObj_le_len (kvs : List (String × JVal)) (lvl : Nat) :
    jfuelObj kvs ≤ 3 * (dumpObjTail lvl kvs).length := by
  cases kvs with
  | nil => simp [jfuelObj]
  | cons kv t =>
    obtain ⟨k, v⟩ := kv
    have h1 := jfuel_le_len v lvl
    have h2 := jfuelObj_le_len t lvl
    simp [jfuelObj, dumpObjTail, dumpField, List.length_append, nlInd_len]
    omega
termination_by sizeOf kvs

end

/-! ## Association-list bookkeeping for objects -/

theorem keyMem_append (k : String) (a b : List (String × JVal)) :
    keyMem k (a ++ b) = (keyMem k a || keyMem k b) := by
  induction a with
  | nil => simp [keyMem]
  | cons kv t ih =>
    obtain ⟨k', v'⟩ := kv
    simp [keyMem, ih, Bool.or_assoc]

theorem jwfObj_cons (k : String) (v : JVal) (t : List (String × JVal)) :
    jwfObj ((k, v) :: t) = (!keyMem k t && jwf v && jwfObj t) := by
  simp [jwfObj]

theorem jwfObj_key (k : String) (v : JVal) : ∀ a b, jwfObj (a ++ (k, v) :: b) = true →
    keyMem k a = false := by
  intro a
  induction a with
  | nil => intro b _; rfl
  | cons kv t ih =>
    obtain ⟨k', v'⟩ := kv
    intro b h
    rw [List.cons_append, jwfObj_cons] at h
    simp only [Bool.and_eq_true, Bool.not_eq_true'] at h
    obtain ⟨⟨hmem, _⟩, htail⟩ := h
    rw [keyMem_append] at hmem
    simp only [keyMem, Bool.or_eq_false_iff] at hmem
    have hkk : (k' == k) = false := by
      have := hmem.2.1
      simp only [beq_eq_false_iff_ne] at this ⊢
      exact fun he => this he.symm
    simp [keyMem, hkk, ih b htail]

theorem jwfObj_val (k : String) (v : JVal) : ∀ a b, jwfObj (a ++ (k, v) :: b) = true →
    jwf v = true := by
  intro a
  induction a with
  | nil =>
    intro b h
    rw [List.nil_append, jwfObj_cons] at h
    simp only [Bool.and_eq_true] at h
    exact h.1.2
  | cons kv t ih =>
    obtain ⟨k', v'⟩ := kv
    intro b h
    rw [List.cons_append, jwfObj_cons] at h
    simp only [Bool.and_eq_true] at h
    exact ih b h.2

theorem insertKV_append (k : String) (v : JVal) : ∀ acc, keyMem k acc = false →
    insertKV acc k v = acc ++ [(k, v)] := by
  intro acc
  induction acc with
  | nil => intro _; rfl
  | cons kv t ih =>
    obtain ⟨k', v'⟩ := kv
    intro h
    simp only [keyMem, Bool.or_eq_false_iff] at h
    have hkk : ¬ k' = k := by
      have := h.1
      simpa [beq_eq_false_iff_ne] using this
    rw [insertKV, if_neg hkk, ih h.2]
    rfl

theorem jwf_arr_iff (xs : List JVal) : jwf (.arr xs) = jwfArr xs := by simp [jwf]

theorem jwf_obj_iff (kvs : List (String × JVal)) : jwf (.obj kvs) = jwfObj kvs := by simp [jwf]

theorem jwfArr_cons (x : JVal) (t : List JVal) : jwfArr (x :: t) = (jwf x && jwfArr t) := by
  simp [jwfArr]

theorem numBd_nl (z : List Char) : numBd ('\n' :: z) = true := rfl

theorem numBd_comma (z : List Char) : numBd (',' :: z) = true := rfl

theorem numBd_nil : numBd [] = true := rfl

theorem skipWs_space (z : List Char) : skipWs (' ' :: z) = skipWs z := by
  simp [skipWs, isWsChar]

theorem jfuel_pos (v : JVal) : 1 ≤ jfuel v := by
  cases v <;> simp [jfuel] <;> omega

theorem jfuelArr_cons (x : JVal) (t : List JVal) :
    jfuelArr (x :: t) = 1 + max (jfuel x) (jfuelArr t) := by simp [jfuelArr]

theorem jfuelObj_cons (k : String) (v : JVal) (t : List (String × JVal)) :
    jfuelObj ((k, v) :: t) = 1 + max (jfuel v) (jfuelObj t) := by simp [jfuelObj]

theorem jfuel_arr (xs : List JVal) : jfuel (.arr xs) = 2 + jfuelArr xs := by simp [jfuel]

theorem jfuel_obj (kvs : List (String × JVal)) : jfuel (.obj kvs) = 2 + jfuelObj kvs := by
  simp [jfuel]

/-! ## One-step evaluation of the parser on serialized heads -/

theorem pVal_quote (f : Nat) (z : List Char) :
    pVal (f + 1) ('"' :: z) = (pStr z).map (fun p => (JVal.str p.1, p.2)) := rfl

theorem pVal_lbrack (f : Nat) (z : List Char) : pVal (f + 1) ('[' :: z) = pArr f z := rfl

theorem pVal_lbrace (f : Nat) (z : List Char) : pVal (f + 1) ('{' :: z) = pObj f z := rfl

theorem pVal_null (f : Nat) (z : List Char) :
    pVal (f + 1) ('n' :: 'u' :: 'l' :: 'l' :: z) = some (JVal.null, z) := rfl

theorem pVal_true (f : Nat) (z : List Char) :
    pVal (f + 1) ('t' :: 'r' :: 'u' :: 'e' :: z) = some (JVal.bool true, z) := rfl

theorem pVal_false (f : Nat) (z : List Char) :
    pVal (f + 1) ('f' :: 'a' :: 'l' :: 's' :: 'e' :: z) = some (JVal.bool false, z) := rfl

theorem pVal_nlInd (fu lvl : Nat) (z : List Char) :
    pVal fu (nlInd lvl ++ z) = pVal fu z := by
  rw [pVal_skipWs, skipWs_nlInd, ← pVal_skipWs]

theorem pVal_space (fu : Nat) (z : List Char) : pVal fu (' ' :: z) = pVal fu z := by
  rw [pVal_skipWs, skipWs_space, ← pVal_skipWs]

/-! ## The round trip: parsing a serialized value returns the value -/

theorem jval_sizeOf_pos (v : JVal) : 1 ≤ sizeOf v := by
  cases v <;> simp_arith

theorem list_sizeOf_pos {α : Type} [SizeOf α] (l : List α) : 1 ≤ sizeOf l := by
  cases l <;> simp_arith

/-- The round trip, by strong induction on a size bound: parsing the serialized
form of a well-formed value (with enough fuel) returns exactly the value, for
`pVal` and for the element/field loops of arrays and objects. -/
theorem rtAux : ∀ N : Nat,
    (∀ v : JVal, sizeOf v ≤ N → ∀ (lvl fu : Nat) (rest : List Char), jwf v = true →
      jfuel v ≤ fu → numBd rest = true → pVal fu (dumpVal lvl v ++ rest) = some (v, rest)) ∧
    (∀ (x : JVal) (xs : List JVal), sizeOf x + sizeOf xs ≤ N → ∀ (lvl fu : Nat)
      (acc : List JVal) (rest : List Char), jwf x = true → jwfArr xs = true →
      jfuelArr (x :: xs) ≤ fu → numBd rest = true →
      pElems fu acc
        (nlInd (lvl + 1) ++ (dumpVal (lvl + 1) x ++
          (dumpArrTail (lvl + 1) xs ++ (nlInd lvl ++ (']' :: rest))))) =
        some (.arr (acc ++ x :: xs), rest)) ∧
    (∀ (k : String) (v : JVal) (kvs : List (String × JVal)), sizeOf v + sizeOf kvs ≤ N →
      ∀ (lvl fu : Nat) (acc : List (String × JVal)) (rest : List Char),
      jwfObj (acc ++ (k, v) :: kvs) = true → jfuelObj ((k, v) :: kvs) ≤ fu →
      numBd rest = true →
      pFields fu acc
        (nlInd (lvl + 1) ++ (dumpField (lvl + 1) k v ++
          (dumpObjTail (lvl + 1) kvs ++ (nlInd lvl ++ ('}' :: rest))))) =
        some (.obj (acc ++ (k, v) :: kvs), rest)) := by
  intro N
  induction N with
  | zero =>
    refine ⟨?_, ?_, ?_⟩
    · intro v hsz
      have := jval_sizeOf_pos v
      omega
    · intro x xs hsz
      have := jval_sizeOf_pos x
      have := list_sizeOf_pos xs
      omega
    · intro k v kvs hsz
      have := jval_sizeOf_pos v
      have := list_sizeOf_pos kvs
      omega
  | succ N ih =>
    obtain ⟨ihV, ihE, ihF⟩ := ih
    refine ⟨?_, ?_, ?_⟩
    · intro v hsz lvl fu rest hwf hfu hrest
      obtain ⟨f, rfl⟩ : ∃ f, fu = f + 1 := ⟨fu - 1, by have := jfuel_pos v; omega⟩
      cases v with
      | null =>
        rw [show dumpVal lvl JVal.null ++ rest = 'n' :: 'u' :: 'l' :: 'l' :: rest from by
          simp [dumpVal]]
        exact pVal_null f rest
      | bool b =>
        cases b with
        | true =>
          rw [show dumpVal lvl (JVal.bool true) ++ rest = 't' :: 'r' :: 'u' :: 'e' :: rest from by
            simp [dumpVal]]
          exact pVal_true f rest
        | false =>
          rw [show dumpVal lvl (JVal.bool false) ++ rest =
            'f' :: 'a' :: 'l' :: 's' :: 'e' :: rest from by simp [dumpVal]]
          exact pVal_false f rest
      | num n =>
        obtain ⟨c, t, hct, hcls⟩ := intChars_head n
        have hok : startOk c = true := numStart_startOk hcls
        have hnw := startOk_not_ws hok
        have hcn : c.toNat = 45 ∨ (48 ≤ c.toNat ∧ c.toNat ≤ 57) := by
          rcases hcls with h | h
          · subst h; exact Or.inl (by decide)
          · exact Or.inr ((isDigitCh_iff c).mp h)
        have h1 : ¬ c = '"' := char_ne_of_toNat 34 (by omega) '"' (by decide)
        have h2 : ¬ c = '[' := char_ne_of_toNat 91 (by omega) '[' (by decide)
        have h3 : ¬ c = '{' := char_ne_of_toNat 123 (by omega) '{' (by decide)
        have h4 : ¬ c = 'n' := char_ne_of_toNat 110 (by omega) 'n' (by decide)
        have h5 : ¬ c = 't' := char_ne_of_toNat 116 (by omega) 't' (by decide)
        have h6 : ¬ c = 'f' := char_ne_of_toNat 102 (by omega) 'f' (by decide)
        rw [show dumpVal lvl (JVal.num n) ++ rest = c :: (t ++ rest) from by
          simp [dumpVal, hct]]
        rw [pVal, skipWs_cons_nows hnw]
        simp only [if_neg h1, if_neg h2, if_neg h3, if_neg h4, if_neg h5, if_neg h6]
        rw [show c :: (t ++ rest) = intChars n ++ rest from by rw [hct]; rfl]
        rw [pIntTok_dec n rest hrest]
        rfl
      | str s =>
        rw [show dumpVal lvl (JVal.str s) ++ rest = '"' :: (escStr s ++ '"' :: rest) from by
          simp [dumpVal, List.append_assoc]]
        rw [pVal_quote, pStr_esc]
        rfl
      | arr xs =>
        cases xs with
        | nil =>
          obtain ⟨g, rfl⟩ : ∃ g, f = g + 1 :=
            ⟨f - 1, by rw [jfuel_arr] at hfu; simp [jfuelArr] at hfu; omega⟩
          rw [show dumpVal lvl (JVal.arr []) ++ rest = '[' :: ']' :: rest from by simp [dumpVal]]
          rw [pVal_lbrack]
          rfl
        | cons x xs =>
          rw [jfuel_arr, jfuelArr_cons] at hfu
          obtain ⟨g, rfl⟩ : ∃ g, f = g + 1 := ⟨f - 1, by omega⟩
          have hwx : jwf x = true ∧ jwfArr xs = true := by
            rw [jwf_arr_iff, jwfArr_cons] at hwf
            simpa using hwf
          rw [show dumpVal lvl (JVal.arr (x :: xs)) ++ rest =
            '[' :: (nlInd (lvl + 1) ++ (dumpVal (lvl + 1) x ++ (dumpArrTail (lvl + 1) xs ++
              (nlInd lvl ++ (']' :: rest))))) from by simp [dumpVal, List.append_assoc]]
          rw [pVal_lbrack]
          obtain ⟨c0, t0, hc0, hok0⟩ := dump_head (lvl + 1) x
          have hsw : skipWs (nlInd (lvl + 1) ++ (dumpVal (lvl + 1) x ++ (dumpArrTail (lvl + 1) xs ++
              (nlInd lvl ++ (']' :: rest))))) =
              c0 :: (t0 ++ (dumpArrTail (lvl + 1) xs ++ (nlInd lvl ++ (']' :: rest)))) := by
            rw [skipWs_nlInd, hc0, List.cons_append, skipWs_cons_nows (startOk_not_ws hok0)]
          rw [pArr, hsw]
          simp only [if_neg (startOk_ne_close hok0).1]
          have hb : sizeOf x + sizeOf xs ≤ N := by simp_arith at hsz; omega
          exact ihE x xs hb lvl g [] rest hwx.1 hwx.2 (by rw [jfuelArr_cons]; omega) hrest
      | obj kvs =>
        cases kvs with
        | nil =>
          obtain ⟨g, rfl⟩ : ∃ g, f = g + 1 :=
            ⟨f - 1, by rw [jfuel_obj] at hfu; simp [jfuelObj] at hfu; omega⟩
          rw [show dumpVal lvl (JVal.obj []) ++ rest = '{' :: '}' :: rest from by simp [dumpVal]]
          rw [pVal_lbrace]
          rfl
        | cons kv kvs =>
          obtain ⟨k, v⟩ := kv
          rw [jfuel_obj, jfuelObj_cons] at hfu
          obtain ⟨g, rfl⟩ : ∃ g, f = g + 1 := ⟨f - 1, by omega⟩
          have hwkv : jwfObj ((k, v) :: kvs) = true := by rw [jwf_obj_iff] at hwf; exact hwf
          rw [show dumpVal lvl (JVal.obj ((k, v) :: kvs)) ++ rest =
            '{' :: (nlInd (lvl + 1) ++ (dumpField (lvl + 1) k v ++ (dumpObjTail (lvl + 1) kvs ++
              (nlInd lvl ++ ('}' :: rest))))) from by simp [dumpVal, List.append_assoc]]
          rw [pVal_lbrace]
          have hsw : skipWs (nlInd (lvl + 1) ++ (dumpField (lvl + 1) k v ++
              (dumpObjTail (lvl + 1) kvs ++ (nlInd lvl ++ ('}' :: rest))))) =
              '"' :: (escStr k ++ ('"' :: ':' :: ' ' :: (dumpVal (lvl + 1) v ++
                (dumpObjTail (lvl + 1) kvs ++ (nlInd lvl ++ ('}' :: rest)))))) := by
            rw [skipWs_nlInd]
            rw [show dumpField (lvl + 1) k v ++ (dumpObjTail (lvl + 1) kvs ++
                (nlInd lvl ++ ('}' :: rest))) =
                '"' :: (escStr k ++ ('"' :: ':' :: ' ' :: (dumpVal (lvl + 1) v ++
                  (dumpObjTail (lvl + 1) kvs ++ (nlInd lvl ++ ('}' :: rest)))))) from by
              rw [dumpField]; simp [List.append_assoc]]
            exact skipWs_cons_nows (by decide) _
          rw [pObj, hsw]
          simp only [if_neg (show ¬('"' : Char) = '}' from by decide)]
          have hb : sizeOf v + sizeOf kvs ≤ N := by simp_arith at hsz; omega
          exact ihF k v kvs hb lvl g [] rest hwkv (by rw [jfuelObj_cons]; omega) hrest
    · intro x xs hsz lvl fu acc rest hwfx hwfxs hfu hrest
      rw [jfuelArr_cons] at hfu
      obtain ⟨g, rfl⟩ : ∃ g, fu = g + 1 := ⟨fu - 1, by omega⟩
      have hT : numBd (dumpArrTail (lvl + 1) xs ++ (nlInd lvl ++ (']' :: rest))) = true := by
        cases xs with
        | nil =>
          rw [show dumpArrTail (lvl + 1) ([] : List JVal) ++ (nlInd lvl ++ (']' :: rest)) =
            '\n' :: (List.replicate (2 * lvl) ' ' ++ (']' :: rest)) from by
              simp [dumpArrTail, nlInd]]
          exact numBd_nl _
        | cons y ys =>
          rw [show dumpArrTail (lvl + 1) (y :: ys) ++ (nlInd lvl ++ (']' :: rest)) =
            ',' :: (nlInd (lvl + 1) ++ (dumpVal (lvl + 1) y ++ (dumpArrTail (lvl + 1) ys ++
              (nlInd lvl ++ (']' :: rest))))) from by simp [dumpArrTail, List.append_assoc]]
          exact numBd_comma _
      have hv : pVal g (nlInd (lvl + 1) ++ (dumpVal (lvl + 1) x ++
          (dumpArrTail (lvl + 1) xs ++ (nlInd lvl ++ (']' :: rest))))) =
          some (x, dumpArrTail (lvl + 1) xs ++ (nlInd lvl ++ (']' :: rest))) := by
        rw [pVal_nlInd]
        have hb : sizeOf x ≤ N := by have := list_sizeOf_pos xs; omega
        exact ihV x hb (lvl + 1) g _ hwfx (by omega) hT
      rw [pElems]
      simp only [hv]
      cases xs with
      | nil =>
        rw [show dumpArrTail (lvl + 1) ([] : List JVal) ++ (nlInd lvl ++ (']' :: rest)) =
          nlInd lvl ++ (']' :: rest) from by simp [dumpArrTail]]
        rw [skipWs_nlInd, skipWs_cons_nows (by decide)]
        rfl
      | cons y ys =>
        rw [show dumpArrTail (lvl + 1) (y :: ys) ++ (nlInd lvl ++ (']' :: rest)) =
          ',' :: (nlInd (lvl + 1) ++ (dumpVal (lvl + 1) y ++ (dumpArrTail (lvl + 1) ys ++
            (nlInd lvl ++ (']' :: rest))))) from by simp [dumpArrTail, List.append_assoc]]
        rw [skipWs_cons_nows (by decide)]
        have hwys : jwf y = true ∧ jwfArr ys = true := by
          rw [jwfArr_cons] at hwfxs
          simpa using hwfxs
        have hb : sizeOf y + sizeOf ys ≤ N := by
          have := jval_sizeOf_pos x
          simp_arith at hsz
          omega
        have hrec := ihE y ys hb lvl g (acc ++ [x]) rest hwys.1 hwys.2
          (by omega) hrest
        rw [List.append_assoc] at hrec
        simp only [List.cons_append, List.nil_append] at hrec
        exact hrec
    · intro k v kvs hsz lvl fu acc rest hwf hfu hrest
      rw [jfuelObj_cons] at hfu
      obtain ⟨g, rfl⟩ : ∃ g, fu = g + 1 := ⟨fu - 1, by omega⟩
      have hjv : jwf v = true := jwfObj_val k v acc kvs hwf
      have hkm : keyMem k acc = false := jwfObj_key k v acc kvs hwf
      have hT : numBd (dumpObjTail (lvl + 1) kvs ++ (nlInd lvl ++ ('}' :: rest))) = true := by
        cases kvs with
        | nil =>
          rw [show dumpObjTail (lvl + 1) ([] : List (String × JVal)) ++
            (nlInd lvl ++ ('}' :: rest)) =
            '\n' :: (List.replicate (2 * lvl) ' ' ++ ('}' :: rest)) from by
              simp [dumpObjTail, nlInd]]
          exact numBd_nl _
        | cons kv2 kvs2 =>
          obtain ⟨k2, v2⟩ := kv2
          rw [show dumpObjTail (lvl + 1) ((k2, v2) :: kvs2) ++ (nlInd lvl ++ ('}' :: rest)) =
            ',' :: (nlInd (lvl + 1) ++ (dumpField (lvl + 1) k2 v2 ++ (dumpObjTail (lvl + 1) kvs2 ++
              (nlInd lvl ++ ('}' :: rest))))) from by simp [dumpObjTail, List.append_assoc]]
          exact numBd_comma _
      rw [show nlInd (lvl + 1) ++ (dumpField (lvl + 1) k v ++
          (dumpObjTail (lvl + 1) kvs ++ (nlInd lvl ++ ('}' :: rest)))) =
          nlInd (lvl + 1) ++ ('"' :: (escStr k ++ ('"' :: ':' :: ' ' :: (dumpVal (lvl + 1) v ++
            (dumpObjTail (lvl + 1) kvs ++ (nlInd lvl ++ ('}' :: rest))))))) from by
        rw [dumpField]; simp [List.append_assoc]]
      have hsw : skipWs (nlInd (lvl + 1) ++ ('"' :: (escStr k ++ ('"' :: ':' :: ' ' ::
          (dumpVal (lvl + 1) v ++ (dumpObjTail (lvl + 1) kvs ++ (nlInd lvl ++ ('}' :: rest)))))))) =
          '"' :: (escStr k ++ ('"' :: ':' :: ' ' :: (dumpVal (lvl + 1) v ++
            (dumpObjTail (lvl + 1) kvs ++ (nlInd lvl ++ ('}' :: rest)))))) := by
        rw [skipWs_nlInd]
        exact skipWs_cons_nows (by decide) _
      have hps : pStr (escStr k ++ ('"' :: ':' :: ' ' :: (dumpVal (lvl + 1) v ++
          (dumpObjTail (lvl + 1) kvs ++ (nlInd lvl ++ ('}' :: rest)))))) =
          some (k, ':' :: ' ' :: (dumpVal (lvl + 1) v ++
            (dumpObjTail (lvl + 1) kvs ++ (nlInd lvl ++ ('}' :: rest))))) := pStr_esc k _
      have hpv : pVal g (' ' :: (dumpVal (lvl + 1) v ++
          (dumpObjTail (lvl + 1) kvs ++ (nlInd lvl ++ ('}' :: rest))))) =
          some (v, dumpObjTail (lvl + 1) kvs ++ (nlInd lvl ++ ('}' :: rest))) := by
        rw [pVal_space]
        have hb : sizeOf v ≤ N := by have := list_sizeOf_pos kvs; omega
        exact ihV v hb (lvl + 1) g _ hjv (by omega) hT
      have hsw2 : skipWs (':' :: ' ' :: (dumpVal (lvl + 1) v ++
          (dumpObjTail (lvl + 1) kvs ++ (nlInd lvl ++ ('}' :: rest))))) =
          ':' :: ' ' :: (dumpVal (lvl + 1) v ++
            (dumpObjTail (lvl + 1) kvs ++ (nlInd lvl ++ ('}' :: rest)))) :=
        skipWs_cons_nows (by decide) _
      rw [pFields, hsw]
      simp only [hps, hsw2, hpv]
      cases kvs with
      | nil =>
        rw [show dumpObjTail (lvl + 1) ([] : List (String × JVal)) ++
          (nlInd lvl ++ ('}' :: rest)) = nlInd lvl ++ ('}' :: rest) from by simp [dumpObjTail]]
        rw [skipWs_nlInd, skipWs_cons_nows (by decide)]
        rw [insertKV_append k v acc hkm]
        rfl
      | cons kv2 kvs2 =>
        obtain ⟨k2, v2⟩ := kv2
        rw [show dumpObjTail (lvl + 1) ((k2, v2) :: kvs2) ++ (nlInd lvl ++ ('}' :: rest)) =
          ',' :: (nlInd (lvl + 1) ++ (dumpField (lvl + 1) k2 v2 ++ (dumpObjTail (lvl + 1) kvs2 ++
            (nlInd lvl ++ ('}' :: rest))))) from by simp [dumpObjTail, List.append_assoc]]
        rw [skipWs_cons_nows (by decide)]
        rw [insertKV_append k v acc hkm]
        have hwf2 : jwfObj ((acc ++ [(k, v)]) ++ (k2, v2) :: kvs2) = true := by
          rw [List.append_assoc]
          simpa using hwf
        have hb : sizeOf v2 + sizeOf kvs2 ≤ N := by
          have := jval_sizeOf_pos v
          simp_arith at hsz
          omega
        have hrec := ihF k2 v2 kvs2 hb lvl g (acc ++ [(k, v)]) rest hwf2
          (by omega) hrest
        rw [List.append_assoc] at hrec
        simp only [List.cons_append, List.nil_append] at hrec
        exact hrec

theorem pValRT (v : JVal) (lvl fu : Nat) (rest : List Char) (hwf : jwf v = true)
    (hfu : jfuel v ≤ fu) (hrest : numBd rest = true) :
    pVal fu (dumpVal lvl v ++ rest) = some (v, rest) :=
  (rtAux (sizeOf v)).1 v le_rfl lvl fu rest hwf hfu hrest

/-! ## `loads` inverts `dumps` -/

theorem loads_dumps (v : JVal) (hwf : jwf v = true) : loads (dumps v) = some v := by
  rw [loads]
  have hdata : (dumps v).data = dumpVal 0 v := rfl
  rw [hdata]
  have hfu : jfuel v ≤ 3 * (dumpVal 0 v).length + 3 :=
    le_trans (jfuel_le_len v 0) (by omega)
  have h := pValRT v 0 (3 * (dumpVal 0 v).length + 3) [] hwf hfu numBd_nil
  rw [List.append_nil] at h
  rw [h]
  rfl

/-! ## Everything the parser accepts is well-formed (keys stay distinct) -/

theorem jwfArr_append_single (a : List JVal) (x : JVal) (ha : jwfArr a = true)
    (hx : jwf x = true) : jwfArr (a ++ [x]) = true := by
  induction a with
  | nil => simp [jwfArr_cons, jwfArr, hx]
  | cons y t ih =>
    rw [List.cons_append, jwfArr_cons] at *
    simp only [Bool.and_eq_true] at *
    exact ⟨ha.1, ih ha.2⟩

theorem keyMem_insertKV (k' k : String) (v : JVal) (hne : ¬ k' = k) :
    ∀ t, keyMem k' (insertKV t k v) = keyMem k' t := by
  intro t
  induction t with
  | nil =>
    simp [insertKV, keyMem]
    exact fun h => absurd h.symm hne
  | cons kv t ih =>
    obtain ⟨k2, v2⟩ := kv
    by_cases hk : k2 = k
    · rw [insertKV, if_pos hk]
      subst hk
      simp [keyMem]
    · rw [insertKV, if_neg hk]
      simp [keyMem, ih]

theorem insertKV_jwf (k : String) (v : JVal) (hv : jwf v = true) :
    ∀ acc, jwfObj acc = true → jwfObj (insertKV acc k v) = true := by
  intro acc
  induction acc with
  | nil =>
    intro _
    simp [insertKV, jwfObj_cons, jwfObj, keyMem, hv]
  | cons kv t ih =>
    obtain ⟨k2, v2⟩ := kv
    intro hacc
    rw [jwfObj_cons] at hacc
    simp only [Bool.and_eq_true, Bool.not_eq_true'] at hacc
    obtain ⟨⟨hkm, hv2⟩, ht⟩ := hacc
    by_cases hk : k2 = k
    · rw [insertKV, if_pos hk]
      subst hk
      rw [jwfObj_cons]
      simp [hkm, hv, ht]
    · rw [insertKV, if_neg hk]
      rw [jwfObj_cons]
      simp [keyMem_insertKV k2 k v hk, hkm, hv2, ih ht]

theorem soundAux : ∀ fu : Nat,
    (∀ cs v r, pVal fu cs = some (v, r) → jwf v = true) ∧
    (∀ acc cs v r, jwfArr acc = true → pElems fu acc cs = some (v, r) → jwf v = true) ∧
    (∀ cs v r, pArr fu cs = some (v, r) → jwf v = true) ∧
    (∀ acc cs v r, jwfObj acc = true → pFields fu acc cs = some (v, r) → jwf v = true) ∧
    (∀ cs v r, pObj fu cs = some (v, r) → jwf v = true) := by
  intro fu
  induction fu with
  | zero =>
    refine ⟨?_, ?_, ?_, ?_, ?_⟩
    · intro cs v r h; exact absurd h (by rw [show pVal 0 cs = none from rfl]; simp)
    · intro acc cs v r _ h; exact absurd h (by rw [show pElems 0 acc cs = none from rfl]; simp)
    · intro cs v r h; exact absurd h (by rw [show pArr 0 cs = none from rfl]; simp)
    · intro acc cs v r _ h; exact absurd h (by rw [show pFields 0 acc cs = none from rfl]; simp)
    · intro cs v r h; exact absurd h (by rw [show pObj 0 cs = none from rfl]; simp)
  | succ f ih =>
    obtain ⟨ihV, ihE, ihA, ihF, ihO⟩ := ih
    refine ⟨?_, ?_, ?_, ?_, ?_⟩
    · intro cs v r h
      rw [pVal] at h
      rcases hs : skipWs cs with _ | ⟨c, rest⟩ <;> rw [hs] at h <;> simp only [] at h
      · simp at h
      · split_ifs at h with h1 h2 h3 h4 h5 h6
        · rcases hps : pStr rest with _ | ⟨k, r2⟩ <;> rw [hps] at h <;> simp at h
          obtain ⟨rfl, rfl⟩ := h
          simp [jwf]
        · exact ihA rest v r h
        · exact ihO rest v r h
        · rcases hdl : dropLit ['u', 'l', 'l'] rest with _ | r2 <;> rw [hdl] at h <;> simp at h
          obtain ⟨rfl, rfl⟩ := h
          simp [jwf]
        · rcases hdl : dropLit ['r', 'u', 'e'] rest with _ | r2 <;> rw [hdl] at h <;> simp at h
          obtain ⟨rfl, rfl⟩ := h
          simp [jwf]
        · rcases hdl : dropLit ['a', 'l', 's', 'e'] rest with _ | r2 <;> rw [hdl] at h <;> simp at h
          obtain ⟨rfl, rfl⟩ := h
          simp [jwf]
        · rcases hit : pIntTok (c :: rest) with _ | ⟨m, r2⟩ <;> rw [hit] at h <;> simp at h
          obtain ⟨rfl, rfl⟩ := h
          simp [jwf]
    · intro acc cs v r hacc h
      rw [pElems] at h
      rcases hv : pVal f cs with _ | ⟨⟨v0, r0⟩⟩ <;> rw [hv] at h <;> simp only [] at h
      · simp at h
      · have hwf0 : jwf v0 = true := ihV cs v0 r0 hv
        rcases hs : skipWs r0 with _ | ⟨c, r2⟩ <;> rw [hs] at h <;> simp only [] at h
        · simp at h
        · split_ifs at h with h1 h2
          · exact ihE (acc ++ [v0]) r2 v r (jwfArr_append_single acc v0 hacc hwf0) h
          · obtain rfl : JVal.arr (acc ++ [v0]) = v := congrArg Prod.fst (Option.some.inj h)
            rw [jwf_arr_iff]
            exact jwfArr_append_single acc v0 hacc hwf0
    · intro cs v r h
      rw [pArr] at h
      rcases hs : skipWs cs with _ | ⟨c, rest⟩ <;> rw [hs] at h <;> simp only [] at h
      · exact ihE [] cs v r (by simp [jwfArr]) h
      · split_ifs at h with h1
        · obtain rfl : JVal.arr [] = v := congrArg Prod.fst (Option.some.inj h)
          simp [jwf, jwfArr]
        · exact ihE [] cs v r (by simp [jwfArr]) h
    · intro acc cs v r hacc h
      rw [pFields] at h
      rcases hs : skipWs cs with _ | ⟨c, rest⟩ <;> rw [hs] at h <;> simp only [] at h
      · simp at h
      · split_ifs at h with h1
        · rcases hps : pStr rest with _ | ⟨⟨k, r1⟩⟩ <;> rw [hps] at h <;> simp only [] at h
          · simp at h
          · rcases hs2 : skipWs r1 with _ | ⟨c2, r2⟩ <;> rw [hs2] at h <;> simp only [] at h
            · simp at h
            · split_ifs at h with h2
              · rcases hv : pVal f r2 with _ | ⟨⟨v0, r3⟩⟩ <;> rw [hv] at h <;> simp only [] at h
                · simp at h
                · have hwf0 : jwf v0 = true := ihV r2 v0 r3 hv
                  rcases hs3 : skipWs r3 with _ | ⟨c3, r4⟩ <;> rw [hs3] at h <;> simp only [] at h
                  · simp at h
                  · split_ifs at h with h3 h4
                    · exact ihF (insertKV acc k v0) r4 v r
                        (insertKV_jwf k v0 hwf0 acc hacc) h
                    · obtain rfl : JVal.obj (insertKV acc k v0) = v :=
                        congrArg Prod.fst (Option.some.inj h)
                      rw [jwf_obj_iff]
                      exact insertKV_jwf k v0 hwf0 acc hacc
    · intro cs v r h
      rw [pObj] at h
      rcases hs : skipWs cs with _ | ⟨c, rest⟩ <;> rw [hs] at h <;> simp only [] at h
      · exact ihF [] cs v r (by simp [jwfObj]) h
      · split_ifs at h with h1
        · obtain rfl : JVal.obj [] = v := congrArg Prod.fst (Option.some.inj h)
          simp [jwf, jwfObj]
        · exact ihF [] cs v r (by simp [jwfObj]) h

theorem loads_sound (s : String) (v : JVal) (h : loads s = some v) : jwf v = true := by
  rw [loads] at h
  rcases hp : pVal (3 * s.data.length + 3) s.data with _ | ⟨⟨w, r⟩⟩ <;> rw [hp] at h <;> simp only [] at h
  · simp at h
  · split_ifs at h
    · obtain rfl : w = v := Option.some.inj h
      exact (soundAux _).1 s.data w r hp

/-! ## Serialized JSON contains no carriage return -/

theorem hexDigit_ne_cr (d : Nat) (hd : d < 16) : ¬ hexDigit d = '\r' := by
  rw [hexDigit]
  split_ifs with h
  · exact char_ne_of_toNat 13 (by rw [toNat_ofNat_small _ (by omega)]; omega) '\r' (by decide)
  · exact char_ne_of_toNat 13 (by rw [toNat_ofNat_small _ (by omega)]; omega) '\r' (by decide)

theorem escChar_no_cr (c : Char) : '\r' ∉ escChar c := by
  rw [escChar]
  split_ifs with h1 h2 h3 h4 h5 h6 h7 h8
  · decide
  · decide
  · decide
  · decide
  · decide
  · decide
  · decide
  · intro hmem
    simp only [List.mem_cons, List.not_mem_nil, or_false] at hmem
    rcases hmem with h | h | h | h | h | h
    · exact absurd h (by decide)
    · exact absurd h (by decide)
    · exact absurd h (by decide)
    · exact absurd h (by decide)
    · exact hexDigit_ne_cr (c.toNat / 16) (by omega) h.symm
    · exact hexDigit_ne_cr (c.toNat % 16) (by omega) h.symm
  · intro hmem
    simp only [List.mem_cons, List.not_mem_nil, or_false] at hmem
    exact h4 hmem.symm

theorem escStr_no_cr (s : String) : '\r' ∉ escStr s := by
  rw [escStr]
  intro hmem
  rw [List.mem_flatten] at hmem
  obtain ⟨l, hl, hcl⟩ := hmem
  rw [List.mem_map] at hl
  obtain ⟨c, _, rfl⟩ := hl
  exact escChar_no_cr c hcl

theorem decCharsGo_no_cr (fu n : Nat) : '\r' ∉ decCharsGo fu n := by
  intro hmem
  exact absurd ((isDigitCh_iff '\r').mp (decCharsGo_digits fu n '\r' hmem)) (by decide)

theorem intChars_no_cr (n : Int) : '\r' ∉ intChars n := by
  rw [intChars]
  split_ifs
  · intro hmem
    rcases List.mem_cons.mp hmem with h | h
    · exact absurd h (by decide)
    · exact decCharsGo_no_cr _ _ h
  · intro hmem
    exact decCharsGo_no_cr _ _ hmem

theorem nlInd_no_cr (lvl : Nat) : '\r' ∉ nlInd lvl := by
  rw [nlInd]
  intro h
  rcases List.mem_cons.mp h with h | h
  · exact absurd h (by decide)
  · rw [List.mem_replicate] at h
    exact absurd h.2 (by decide)

mutual

theorem dumpVal_no_cr (lvl : Nat) (v : JVal) : '\r' ∉ dumpVal lvl v := by
  cases v with
  | null =>
    rw [show dumpVal lvl JVal.null = ['n', 'u', 'l', 'l'] from by simp [dumpVal]]
    decide
  | bool b =>
    cases b with
    | true =>
      rw [show dumpVal lvl (JVal.bool true) = ['t', 'r', 'u', 'e'] from by simp [dumpVal]]
      decide
    | false =>
      rw [show dumpVal lvl (JVal.bool false) = ['f', 'a', 'l', 's', 'e'] from by
        simp [dumpVal]]
      decide
  | num n =>
    rw [show dumpVal lvl (JVal.num n) = intChars n from by simp [dumpVal]]
    exact intChars_no_cr n
  | str s =>
    intro h
    rw [show dumpVal lvl (JVal.str s) = '"' :: (escStr s ++ ['"']) from by simp [dumpVal]] at h
    rcases List.mem_cons.mp h with h | h
    · exact absurd h (by decide)
    rw [List.mem_append] at h
    rcases h with h | h
    · exact escStr_no_cr s h
    · exact absurd h (by decide)
  | arr xs =>
    cases xs with
    | nil =>
      rw [show dumpVal lvl (JVal.arr []) = ['[', ']'] from by simp [dumpVal]]
      decide
    | cons x t =>
      intro h
      rw [show dumpVal lvl (JVal.arr (x :: t)) =
        '[' :: (nlInd (lvl + 1) ++ dumpVal (lvl + 1) x ++ dumpArrTail (lvl + 1) t ++
          nlInd lvl ++ [']']) from by simp [dumpVal]] at h
      rcases List.mem_cons.mp h with h | h
      · exact absurd h (by decide)
      simp only [List.mem_append] at h
      rcases h with (((h | h) | h) | h) | h
      · exact nlInd_no_cr _ h
      · exact dumpVal_no_cr (lvl + 1) x h
      · exact dumpArrTail_no_cr (lvl + 1) t h
      · exact nlInd_no_cr _ h
      · exact absurd h (by decide)
  | obj kvs =>
    cases kvs with
    | nil =>
      rw [show dumpVal lvl (JVal.obj []) = ['{', '}'] from by simp [dumpVal]]
      decide
    | cons kv t =>
      obtain ⟨k, v⟩ := kv
      intro h
      rw [show dumpVal lvl (JVal.obj ((k, v) :: t)) =
        '{' :: (nlInd (lvl + 1) ++ dumpField (lvl + 1) k v ++ dumpObjTail (lvl + 1) t ++
          nlInd lvl ++ ['}']) from by simp [dumpVal]] at h
      rcases List.mem_cons.mp h with h | h
      · exact absurd h (by decide)
      simp only [List.mem_append] at h
      rcases h with (((h | h) | h) | h) | h
      · exact nlInd_no_cr _ h
      · exact dumpField_no_cr (lvl + 1) k v h
      · exact dumpObjTail_no_cr (lvl + 1) t h
      · exact nlInd_no_cr _ h
      · exact absurd h (by decide)
termination_by sizeOf v

theorem dumpField_no_cr (lvl : Nat) (k : String) (v : JVal) : '\r' ∉ dumpField lvl k v := by
  intro h
  rw [show dumpField lvl k v = '"' :: ((escStr k ++ ['"', ':', ' ']) ++ dumpVal lvl v) from by
    rw [dumpField, List.cons_append]] at h
  rcases List.mem_cons.mp h with h | h
  · exact absurd h (by decide)
  simp only [List.mem_append] at h
  rcases h with (h | h) | h
  · exact escStr_no_cr k h
  · exact absurd h (by decide)
  · exact dumpVal_no_cr lvl v h
termination_by 1 + sizeOf v

theorem dumpArrTail_no_cr (lvl : Nat) (xs : List JVal) : '\r' ∉ dumpArrTail lvl xs := by
  cases xs with
  | nil =>
    rw [show dumpArrTail lvl ([] : List JVal) = [] from by simp [dumpArrTail]]
    decide
  | cons y ys =>
    intro h
    rw [show dumpArrTail lvl (y :: ys) =
      ',' :: (nlInd lvl ++ dumpVal lvl y ++ dumpArrTail lvl ys) from by
        simp [dumpArrTail]] at h
    rcases List.mem_cons.mp h with h | h
    · exact absurd h (by decide)
    simp only [List.mem_append] at h
    rcases h with (h | h) | h
    · exact nlInd_no_cr _ h
    · exact dumpVal_no_cr lvl y h
    · exact dumpArrTail_no_cr lvl ys h
termination_by sizeOf xs

theorem dumpObjTail_no_cr (lvl : Nat) (kvs : List (String × JVal)) :
    '\r' ∉ dumpObjTail lvl kvs := by
  cases kvs with
  | nil =>
    rw [show dumpObjTail lvl ([] : List (String × JVal)) = [] from by simp [dumpObjTail]]
    decide
  | cons kv t =>
    obtain ⟨k, v⟩ := kv
    intro h
    rw [show dumpObjTail lvl ((k, v) :: t) =
      ',' :: (nlInd lvl ++ dumpField lvl k v ++ dumpObjTail lvl t) from by
        simp [dumpObjTail]] at h
    rcases List.mem_cons.mp h with h | h
    · exact absurd h (by decide)
    simp only [List.mem_append] at h
    rcases h with (h | h) | h
    · exact nlInd_no_cr _ h
    · exact dumpField_no_cr lvl k v h
    · exact dumpObjTail_no_cr lvl t h
termination_by sizeOf kvs

end

theorem dumps_no_cr (v : JVal) : NoCR (dumps v) := by
  show '\r' ∉ (dumps v).data
  rw [show (dumps v).data = dumpVal 0 v from rfl]
  exact dumpVal_no_cr 0 v

theorem nlOk_data {ls : String} (h : NlOk ls) : ls.data = ['\n'] ∨ ls.data = ['\r', '\n'] := by
  rcases h with h | h <;> subst h
  · exact Or.inl rfl
  · exact Or.inr rfl

theorem univ_transl_S (ls : String) (hls : NlOk ls) (s : String) (h : NoCR s) :
    univNlS (translNlS ls s) = s := by
  rw [univNlS, translNlS]
  rcases s with ⟨cl⟩
  have hu : univNl (translNl ls.data cl) = cl := univ_transl ls.data (nlOk_data hls) cl h
  simp only [hu]

/-! ## C6 — `format_json_file` is idempotent on the stored bytes -/

theorem format_json_run (ls fp : String) (fs : FS) :
    (format_json_file ls fp fs).2 =
      match lookupFS fs (canon fs.cwd fp) with
      | some (.file fd) =>
        if fd.enc = "utf-8" then
          match loads (univNlS fd.data) with
          | some v =>
            { setFS fs (canon fs.cwd fp)
                (.file { data := translNlS ls (dumps v), enc := "utf-8",
                         mtime := fs.clock, mode := fd.mode }) with
              clock := fs.clock + 1 }
          | none => fs
        else fs
      | _ => fs := by
  unfold format_json_file pyTry format_json_file_body
  simp only [PyM_bind_eval, getFS_eval]
  rcases hlk : lookupFS fs (canon fs.cwd fp) with _ | e
  · have hex : pathExistsFS fs (canon fs.cwd fp) = false := by
      simp [pathExistsFS, hlk]
    simp only [hlk, hex, Bool.not_false, if_true, PyM_pure_eval]
  · cases e with
    | dir =>
      have hex : pathExistsFS fs (canon fs.cwd fp) = true := by
        simp [pathExistsFS, hlk]
      have hif : isFileFS fs (canon fs.cwd fp) = false := by
        simp [isFileFS, hlk]
      simp only [hlk, hex, hif, Bool.not_true, Bool.not_false, Bool.false_eq_true, if_true,
        if_false, PyM_pure_eval]
    | file fd =>
      have hex : pathExistsFS fs (canon fs.cwd fp) = true := by
        simp [pathExistsFS, hlk]
      have hif : isFileFS fs (canon fs.cwd fp) = true := by
        simp [isFileFS, hlk]
      have hp0 : ¬ canon fs.cwd fp = [] := by
        intro h0
        rw [h0] at hlk
        simp [lookupFS] at hlk
      by_cases henc : fd.enc = "utf-8"
      · rcases hld : loads (univNlS fd.data) with _ | v
        · simp only [hlk, hex, hif, Bool.not_true, Bool.false_eq_true, if_false,
            PyM_bind_eval, openRead, henc, if_true, jsonLoad, hld, PyM_pure_eval]
        · simp only [hlk, hex, hif, Bool.not_true, Bool.false_eq_true, if_false,
            PyM_bind_eval, openRead, henc, if_true, jsonLoad, hld, openWrite, hp0,
            PyM_pure_eval]
      · simp only [hlk, hex, hif, Bool.not_true, Bool.false_eq_true, if_false,
          PyM_bind_eval, openRead, henc, PyM_pure_eval]

theorem format_json_write_bytes (ls fp : String) (fs : FS) (p : CPath)
    (hp : canon fs.cwd fp = p) (hp0 : p ≠ []) (fd : FileData)
    (hlk : lookupFS fs p = some (.file fd)) (henc : fd.enc = "utf-8")
    (v : JVal) (hld : loads (univNlS fd.data) = some v) (q : CPath) :
    bytesAt ((format_json_file ls fp fs).2) q =
      if q = p then some (translNlS ls (dumps v)) else bytesAt fs q := by
  have h1 : (format_json_file ls fp fs).2 =
      { setFS fs p
          (.file { data := translNlS ls (dumps v), enc := "utf-8",
                   mtime := fs.clock, mode := fd.mode }) with
        clock := fs.clock + 1 } := by
    rw [format_json_run, hp, hlk]
    simp [henc, hld]
  rw [h1, bytesAt, lookupFS_clock, lookupFS_set fs p _ hp0 q]
  by_cases hq : q = p
  · simp [hq]
  · simp [hq, bytesAt]

/-- C6: `format_json_file` is idempotent on the file bytes — for every state,
path, and platform newline convention, running the operation twice leaves
exactly the same bytes at every path as running it once (failures of any kind
leave the state untouched, and a successful re-format of the already-formatted
file rewrites the identical serialization). -/
theorem C6_format_json_idempotent (ls fp : String) (hls : NlOk ls) (fs : FS) (q : CPath) :
    bytesAt ((format_json_file ls fp ((format_json_file ls fp fs).2)).2) q =
      bytesAt ((format_json_file ls fp fs).2) q := by
  rcases hlk : lookupFS fs (canon fs.cwd fp) with _ | e
  · have h1 : (format_json_file ls fp fs).2 = fs := by rw [format_json_run, hlk]
    rw [h1, h1]
  · cases e with
    | dir =>
      have h1 : (format_json_file ls fp fs).2 = fs := by rw [format_json_run, hlk]
      rw [h1, h1]
    | file fd =>
      by_cases henc : fd.enc = "utf-8"
      · rcases hld : loads (univNlS fd.data) with _ | v
        · have h1 : (format_json_file ls fp fs).2 = fs := by
            rw [format_json_run, hlk]
            simp [henc, hld]
          rw [h1, h1]
        · have hjwf : jwf v = true := loads_sound _ _ hld
          have hp0 : ¬ canon fs.cwd fp = [] := by
            intro h0
            rw [h0] at hlk
            simp [lookupFS] at hlk
          have h1 : (format_json_file ls fp fs).2 =
              { setFS fs (canon fs.cwd fp)
                  (.file { data := translNlS ls (dumps v), enc := "utf-8",
                           mtime := fs.clock, mode := fd.mode }) with
                clock := fs.clock + 1 } := by
            rw [format_json_run, hlk]
            simp [henc, hld]
          rw [h1]
          have hcwd1 : canon ({ setFS fs (canon fs.cwd fp)
              (.file { data := translNlS ls (dumps v), enc := "utf-8",
                       mtime := fs.clock, mode := fd.mode }) with
              clock := fs.clock + 1 } : FS).cwd fp = canon fs.cwd fp := rfl
          have hlk1 : lookupFS ({ setFS fs (canon fs.cwd fp)
              (.file { data := translNlS ls (dumps v), enc := "utf-8",
                       mtime := fs.clock, mode := fd.mode }) with
              clock := fs.clock + 1 } : FS) (canon fs.cwd fp) =
              some (.file { data := translNlS ls (dumps v), enc := "utf-8",
                            mtime := fs.clock, mode := fd.mode }) := by
            rw [lookupFS_clock, lookupFS_set fs _ _ hp0]
            simp
          have hld1 : loads (univNlS (translNlS ls (dumps v))) = some v := by
            rw [univ_transl_S ls hls (dumps v) (dumps_no_cr v)]
            exact loads_dumps v hjwf
          rw [format_json_write_bytes ls fp _ (canon fs.cwd fp) hcwd1 hp0
            { data := translNlS ls (dumps v), enc := "utf-8",
              mtime := fs.clock, mode := fd.mode } hlk1 rfl v hld1 q]
          by_cases hq : q = canon fs.cwd fp
          · rw [if_pos hq, bytesAt, hq, lookupFS_clock, lookupFS_set fs _ _ hp0]
            simp
          · rw [if_neg hq]
      · have h1 : (format_json_file ls fp fs).2 = fs := by
          rw [format_json_run, hlk]
          simp [henc]
        rw [h1, h1]

/-- Witness for C6: the idempotence theorem applied at `os.linesep = "\n"`,
a concrete path and state. -/
theorem C6_format_json_idempotent_w :
    NlOk "\n" ∧
      bytesAt ((format_json_file "\n" "f.json"
          ((format_json_file "\n" "f.json" emptyFS).2)).2) [] =
        bytesAt ((format_json_file "\n" "f.json" emptyFS).2) [] :=
  ⟨Or.inl rfl, C6_format_json_idempotent "\n" "f.json" (Or.inl rfl) emptyFS []⟩

end SDW
